import Mathlib

/-!
Verification model of the G-APC GSM gate-opener app's core:
the local data store (`utils/DataStore.ts`, embedded here as pure state
transformers over `AppData`), the SMS command formatter and log classifier
(`utils/smsUtils.ts`), and the backup/restore subsystem
(`utils/backupRestore.ts`, embedded as a pipeline over an explicit
key-value `Storage`).

JavaScript strings are modelled as `List Char` where character-level work
is needed and as `String` elsewhere; `JSON.parse`/`JSON.stringify` (platform
builtins) are modelled by an executable parser/serializer over a `Json`
value type.  JavaScript numbers are modelled as `Int`: the repository's data
model stores only strings, booleans, arrays and objects, so fractional
number parsing is never exercised and is modelled as a parse failure.
-/

/-- Update-or-append semantics of assignment `o[k] = v` on a JavaScript
object modelled as an insertion-ordered association list: an existing key
keeps its position and gets the new value, a new key is appended. -/
def setAssoc {α : Type} (l : List (String × α)) (k : String) (v : α) : List (String × α) :=
  match l with
  | [] => [(k, v)]
  | (k', v') :: rest => if k' = k then (k, v) :: rest else (k', v') :: setAssoc rest k v

/-- Property read `o[k]` on a JavaScript object: first binding wins
(association lists built with `setAssoc` have unique keys). -/
def getAssoc {α : Type} (l : List (String × α)) (k : String) : Option α :=
  match l with
  | [] => none
  | (k', v) :: rest => if k' = k then some v else getAssoc rest k

/-- Remove a key from an association list (JavaScript `delete o[k]`). -/
def eraseAssoc {α : Type} (l : List (String × α)) (k : String) : List (String × α) :=
  match l with
  | [] => []
  | (k', v) :: rest => if k' = k then rest else (k', v) :: eraseAssoc rest k

/-- Replace the first element satisfying `p` (JavaScript `array.find(...)`
followed by in-place mutation of the found object). -/
def updateFirst {α : Type} (p : α → Bool) (f : α → α) : List α → List α
  | [] => []
  | x :: xs => if p x then f x :: xs else x :: updateFirst p f xs

/-- JSON value type (image of `JSON.parse`).  JavaScript numbers are
restricted to integers; see the module comment. -/
inductive Json where
  | null : Json
  | bool (b : Bool) : Json
  | num (n : Int) : Json
  | str (s : String) : Json
  | arr (elements : List Json) : Json
  | obj (fields : List (String × Json)) : Json

/-- JavaScript truthiness of a JSON value (`null`, `false`, `0` and `""`
are falsy; every object and array is truthy). -/
def truthy : Json → Bool
  | .null => false
  | .bool b => b
  | .num n => n ≠ 0
  | .str s => s ≠ ""
  | .arr _ => true
  | .obj _ => true

/-- Property access `j.k` / `j[k]`: defined field of an object, `undefined`
(`none`) otherwise (arrays and primitives have none of our fields). -/
def jGet : Json → String → Option Json
  | .obj fields, k => getAssoc fields k
  | _, _ => none

/-- `undefined`-aware truthiness of a property read. -/
def optTruthy : Option Json → Bool
  | none => false
  | some j => truthy j

/-- JavaScript `===` on primitive values as used by `Set.has`
(SameValueZero): structural on primitives; objects and arrays compare by
reference, and distinct parse results are distinct references, hence
never equal. -/
def jsPrimEq : Json → Json → Bool
  | .null, .null => true
  | .bool a, .bool b => a == b
  | .num a, .num b => a == b
  | .str a, .str b => a == b
  | _, _ => false

/-- Equality on possibly-`undefined` values (`undefined === undefined`). -/
def jsValEq : Option Json → Option Json → Bool
  | none, none => true
  | some a, some b => jsPrimEq a b
  | _, _ => false

def hexDigit (n : Nat) : Char :=
  if n < 10 then Char.ofNat (48 + n) else Char.ofNat (87 + n)

/-- `JSON.stringify` escaping of a single string character. -/
def escapeChar (c : Char) : List Char :=
  if c = '"' then ['\\', '"']
  else if c = '\\' then ['\\', '\\']
  else if c = Char.ofNat 8 then ['\\', 'b']
  else if c = Char.ofNat 9 then ['\\', 't']
  else if c = Char.ofNat 10 then ['\\', 'n']
  else if c = Char.ofNat 12 then ['\\', 'f']
  else if c = Char.ofNat 13 then ['\\', 'r']
  else if c.toNat < 32 then
    ['\\', 'u', '0', '0', hexDigit (c.toNat / 16), hexDigit (c.toNat % 16)]
  else [c]

def escapeChars (l : List Char) : List Char :=
  l.flatMap escapeChar

mutual

/-- `JSON.stringify` (compact form, no whitespace), producing characters. -/
def stringifyJson : Json → List Char
  | .null => "null".toList
  | .bool true => "true".toList
  | .bool false => "false".toList
  | .num n => (toString n).toList
  | .str s => '"' :: escapeChars s.toList ++ ['"']
  | .arr xs => '[' :: stringifyArr xs ++ [']']
  | .obj fs => '\x7b' :: stringifyObj fs ++ ['\x7d']

def stringifyArr : List Json → List Char
  | [] => []
  | [x] => stringifyJson x
  | x :: y :: xs => stringifyJson x ++ ',' :: stringifyArr (y :: xs)

def stringifyObj : List (String × Json) → List Char
  | [] => []
  | [(k, v)] => '"' :: escapeChars k.toList ++ '"' :: ':' :: stringifyJson v
  | (k, v) :: m :: fs =>
      '"' :: escapeChars k.toList ++ '"' :: ':' :: stringifyJson v ++ ',' :: stringifyObj (m :: fs)

end

/-- `JSON.stringify` producing a `String`. -/
def stringify (j : Json) : String :=
  String.mk (stringifyJson j)

/-- JSON insignificant whitespace. -/
def isJsonWs (c : Char) : Bool :=
  c = ' ' || c = '\t' || c = '\n' || c = '\r'

def skipWs (l : List Char) : List Char :=
  l.dropWhile isJsonWs

def hexVal (c : Char) : Option Nat :=
  if '0' ≤ c ∧ c ≤ '9' then some (c.toNat - 48)
  else if 'a' ≤ c ∧ c ≤ 'f' then some (c.toNat - 87)
  else if 'A' ≤ c ∧ c ≤ 'F' then some (c.toNat - 55)
  else none

/-- Parse a JSON string body (after the opening quote) up to and including
the closing quote; returns the decoded characters and the rest of the
input.  Raw control characters are rejected, as by `JSON.parse`. -/
def parseStringBody : List Char → Option (List Char × List Char)
  | [] => none
  | c :: rest =>
    if c = '"' then some ([], rest)
    else if c = '\\' then
      match rest with
      | [] => none
      | e :: rest2 =>
        if e = '"' then (parseStringBody rest2).map (fun p => ('"' :: p.1, p.2))
        else if e = '\\' then (parseStringBody rest2).map (fun p => ('\\' :: p.1, p.2))
        else if e = '/' then (parseStringBody rest2).map (fun p => ('/' :: p.1, p.2))
        else if e = 'b' then (parseStringBody rest2).map (fun p => (Char.ofNat 8 :: p.1, p.2))
        else if e = 'f' then (parseStringBody rest2).map (fun p => (Char.ofNat 12 :: p.1, p.2))
        else if e = 'n' then (parseStringBody rest2).map (fun p => (Char.ofNat 10 :: p.1, p.2))
        else if e = 'r' then (parseStringBody rest2).map (fun p => (Char.ofNat 13 :: p.1, p.2))
        else if e = 't' then (parseStringBody rest2).map (fun p => (Char.ofNat 9 :: p.1, p.2))
        else if e = 'u' then
          match rest2 with
          | h1 :: h2 :: h3 :: h4 :: rest3 =>
            match hexVal h1, hexVal h2, hexVal h3, hexVal h4 with
            | some a, some b, some c', some d =>
              let n := ((a * 16 + b) * 16 + c') * 16 + d
              if n.isValidChar then
                (parseStringBody rest3).map (fun p => (Char.ofNat n :: p.1, p.2))
              else none
            | _, _, _, _ => none
          | _ => none
        else none
    else if c.toNat < 32 then none
    else (parseStringBody rest).map (fun p => (c :: p.1, p.2))

def digitsToNat (l : List Char) : Nat :=
  l.foldl (fun acc c => acc * 10 + (c.toNat - 48)) 0

/-- Parse a JSON integer literal starting at the given characters
(optional minus sign already stripped by the caller when `neg`). -/
def parseNumLit (neg : Bool) (l : List Char) : Option (Json × List Char) :=
  let digits := l.takeWhile Char.isDigit
  let rest := l.dropWhile Char.isDigit
  if digits = [] then none
  else if digits.head? = some '0' ∧ digits.length ≠ 1 then none
  else
    let n : Int := Int.ofNat (digitsToNat digits)
    some (.num (if neg then -n else n), rest)

mutual

/-- Recursive-descent JSON value parser; `fuel` bounds the nesting /
member recursion and is in practice larger than the input needs. -/
def parseValue : Nat → List Char → Option (Json × List Char)
  | 0, _ => none
  | fuel + 1, l =>
    match skipWs l with
    | '"' :: r => (parseStringBody r).map (fun p => (.str (String.mk p.1), p.2))
    | '\x7b' :: r =>
      (match skipWs r with
       | '\x7d' :: r2 => some (.obj [], r2)
       | _ => (parseMembers fuel r).map (fun p =>
           (.obj (p.1.foldl (fun acc kv => setAssoc acc kv.1 kv.2) []), p.2)))
    | '[' :: r =>
      (match skipWs r with
       | ']' :: r2 => some (.arr [], r2)
       | _ => (parseElems fuel r).map (fun p => (.arr p.1, p.2)))
    | 't' :: 'r' :: 'u' :: 'e' :: r => some (.bool true, r)
    | 'f' :: 'a' :: 'l' :: 's' :: 'e' :: r => some (.bool false, r)
    | 'n' :: 'u' :: 'l' :: 'l' :: r => some (.null, r)
    | '-' :: r => parseNumLit true r
    | c :: r => if c.isDigit then parseNumLit false (c :: r) else none
    | [] => none

/-- Parse one or more `"key": value` members followed by `}`. -/
def parseMembers : Nat → List Char → Option (List (String × Json) × List Char)
  | 0, _ => none
  | fuel + 1, l =>
    match skipWs l with
    | '"' :: r =>
      match parseStringBody r with
      | none => none
      | some (k, r1) =>
        match skipWs r1 with
        | ':' :: r2 =>
          match parseValue fuel r2 with
          | none => none
          | some (v, r3) =>
            match skipWs r3 with
            | ',' :: r4 =>
              (parseMembers fuel r4).map (fun p => ((String.mk k, v) :: p.1, p.2))
            | '\x7d' :: r4 => some ([(String.mk k, v)], r4)
            | _ => none
        | _ => none
    | _ => none

/-- Parse one or more array elements followed by `]`. -/
def parseElems : Nat → List Char → Option (List Json × List Char)
  | 0, _ => none
  | fuel + 1, l =>
    match parseValue fuel l with
    | none => none
    | some (v, r) =>
      match skipWs r with
      | ',' :: r2 => (parseElems fuel r2).map (fun p => (v :: p.1, p.2))
      | ']' :: r2 => some ([v], r2)
      | _ => none

end

/-- `JSON.parse` on characters: a whole-input JSON document. -/
def parseJsonChars (l : List Char) : Option Json :=
  match parseValue (l.length + 1) l with
  | some (j, rest) => if skipWs rest = [] then some j else none
  | none => none

/-- `JSON.parse` on a string. -/
def parseJson (s : String) : Option Json :=
  parseJsonChars s.toList

/-! ## Data model (`utils/DataStore.ts`, `LogEntry` from the shared types) -/

/-- Audit log record (`LogEntry` interface: id, timestamp, action, details,
success, optional deviceId, category). -/
structure LogEntry where
  id : String
  timestamp : String
  action : String
  details : String
  success : Bool
  category : String
  deviceId : Option String := none
deriving DecidableEq, Repr

structure RelaySettings where
  accessControl : String
  latchTime : String
deriving DecidableEq, Repr

/-- `Device` interface.  `type` is one of `Connect4v`/`Phonic4v`. -/
structure Device where
  id : String
  name : String
  unitNumber : String
  password : String
  authorizedUsers : List String
  createdAt : String
  updatedAt : String
  type : String
  isActive : Option Bool := none
  relaySettings : Option RelaySettings := none
deriving DecidableEq, Repr

structure User where
  id : String
  name : String
  phoneNumber : String
  serialNumber : String
  startTime : Option String := none
  endTime : Option String := none
deriving DecidableEq, Repr

structure GlobalSettings where
  adminNumber : String
  activeDeviceId : Option String
  completedSteps : List String
deriving DecidableEq, Repr

/-- Root aggregate.  `logs` is the JavaScript record deviceId → entries,
modelled as an insertion-ordered association list with unique keys. -/
structure AppData where
  devices : List Device
  users : List User
  logs : List (String × List LogEntry)
  globalSettings : GlobalSettings
deriving DecidableEq, Repr

def initialState : AppData :=
  { devices := []
    users := []
    logs := []
    globalSettings := { adminNumber := "", activeDeviceId := none, completedSteps := [] } }

/-! ## DataStore mutators.  The source methods mutate `this.store` in place
and then persist; here each is a pure state transformer returning the
method's result together with the new store.  Nondeterministic inputs
(`uuidv4()`, `new Date().toISOString()`) are passed as arguments. -/

/-- `DataStore.addDevice`: assigns a fresh id and creation timestamps,
appends, returns the created device. -/
def addDevice (store : AppData) (fields : Device) (newId now : String) : Device × AppData :=
  let newDevice := { fields with id := newId, createdAt := now, updatedAt := now }
  (newDevice, { store with devices := store.devices ++ [newDevice] })

/-- `Partial<Device>` argument of `updateDevice`: absent fields are `none`. -/
structure DevicePartial where
  id : Option String := none
  name : Option String := none
  unitNumber : Option String := none
  password : Option String := none
  authorizedUsers : Option (List String) := none
  createdAt : Option String := none
  updatedAt : Option String := none
  type : Option String := none
  isActive : Option (Option Bool) := none
  relaySettings : Option (Option RelaySettings) := none
deriving DecidableEq, Repr

/-- Object spread `{...device, ...updates, updatedAt: now}`: every field
present in `updates` overwrites the device's field, then `updatedAt` is
refreshed. -/
def spreadDevice (d : Device) (u : DevicePartial) (now : String) : Device :=
  { id := u.id.getD d.id
    name := u.name.getD d.name
    unitNumber := u.unitNumber.getD d.unitNumber
    password := u.password.getD d.password
    authorizedUsers := u.authorizedUsers.getD d.authorizedUsers
    createdAt := u.createdAt.getD d.createdAt
    updatedAt := now
    type := u.type.getD d.type
    isActive := u.isActive.getD d.isActive
    relaySettings := u.relaySettings.getD d.relaySettings }

/-- `DataStore.updateDevice`: merge partial fields onto the device found by
id (`findIndex`), refresh `updatedAt`; `none` result when the id is not
found. -/
def updateDevice (store : AppData) (deviceId : String) (updates : DevicePartial)
    (now : String) : Option Device × AppData :=
  match store.devices.findIdx? (fun d => d.id = deviceId) with
  | none => (none, store)
  | some i =>
    match store.devices[i]? with
    | none => (none, store)
    | some d =>
      let updated := spreadDevice d updates now
      (some updated, { store with devices := store.devices.set i updated })

/-- `DataStore.deleteDevice`: rejects a falsy id, removes the device and its
log bucket, reassigns `activeDeviceId` to the first remaining device (or
none), returns whether the device count changed. -/
def deleteDevice (store : AppData) (deviceId : String) : Bool × AppData :=
  if deviceId = "" then (false, store)
  else
    match store.devices.find? (fun d => d.id = deviceId) with
    | none => (false, store)
    | some _ =>
      let devices' := store.devices.filter (fun d => d.id ≠ deviceId)
      let logs' := eraseAssoc store.logs deviceId
      let gs := store.globalSettings
      let gs' :=
        if gs.activeDeviceId = some deviceId then
          { gs with activeDeviceId := (devices'.head?).map Device.id }
        else gs
      (decide (store.devices.length ≠ devices'.length),
       { store with devices := devices', logs := logs', globalSettings := gs' })

/-- `DataStore.setActiveDevice`. -/
def setActiveDevice (store : AppData) (deviceId : String) : Bool × AppData :=
  if store.devices.any (fun d => d.id = deviceId) then
    (true, { store with globalSettings := { store.globalSettings with activeDeviceId := some deviceId } })
  else (false, store)

/-- `DataStore.authorizeUserForDevice`: push the user id onto the found
device's `authorizedUsers` unless already present; `false` when nothing
changed (absent device or already authorized). -/
def authorizeUserForDevice (store : AppData) (deviceId userId : String) : Bool × AppData :=
  match store.devices.find? (fun d => d.id = deviceId) with
  | none => (false, store)
  | some device =>
    if userId ∈ device.authorizedUsers then (false, store)
    else
      (true,
       { store with
           devices := updateFirst (fun d => d.id = deviceId)
             (fun d => { d with authorizedUsers := d.authorizedUsers ++ [userId] })
             store.devices })

/-- `DataStore.deauthorizeUserForDevice`. -/
def deauthorizeUserForDevice (store : AppData) (deviceId userId : String) : Bool × AppData :=
  match store.devices.find? (fun d => d.id = deviceId) with
  | none => (false, store)
  | some device =>
    if (device.authorizedUsers.filter (fun i => i ≠ userId)).length ≠ device.authorizedUsers.length then
      (true,
       { store with
           devices := updateFirst (fun d => d.id = deviceId)
             (fun d => { d with authorizedUsers := d.authorizedUsers.filter (fun i => i ≠ userId) })
             store.devices })
    else (false, store)

/-- Is the string empty or whitespace-only?  (`!deviceId || !deviceId.trim()`
on a string value.) -/
def isBlankStr (s : String) : Bool :=
  s.toList.all (fun c => c = ' ' || c = '\t' || c = '\n' || c = '\r' || c = '\x0b' || c = '\x0c')

/-- `DataStore.addDeviceLog`: a falsy or blank device id is redirected to
the reserved `system` bucket; the new entry is prepended to the bucket
truncated to its first 199 entries (`[newLog, ...logs.slice(0, 199)]`). -/
def addDeviceLog (store : AppData) (deviceId action details : String) (success : Bool)
    (category : String) (newId now : String) : LogEntry × AppData :=
  let deviceId := if isBlankStr deviceId then "system" else deviceId
  let bucket := (getAssoc store.logs deviceId).getD []
  let newLog : LogEntry :=
    { id := newId, timestamp := now, action := action, details := details
      success := success, category := category }
  (newLog, { store with logs := setAssoc store.logs deviceId (newLog :: bucket.take 199) })

/-- `DataStore.getDeviceLogs`. -/
def getDeviceLogs (store : AppData) (deviceId : String) : List LogEntry :=
  let deviceId := if isBlankStr deviceId then "system" else deviceId
  (getAssoc store.logs deviceId).getD []

/-- `DataStore.updateGlobalSettings` with a partial update, shallow merge. -/
structure GlobalSettingsPartial where
  adminNumber : Option String := none
  activeDeviceId : Option (Option String) := none
  completedSteps : Option (List String) := none
deriving DecidableEq, Repr

def updateGlobalSettings (store : AppData) (updates : GlobalSettingsPartial) :
    GlobalSettings × AppData :=
  let gs := store.globalSettings
  let gs' : GlobalSettings :=
    { adminNumber := updates.adminNumber.getD gs.adminNumber
      activeDeviceId := updates.activeDeviceId.getD gs.activeDeviceId
      completedSteps := updates.completedSteps.getD gs.completedSteps }
  (gs', { store with globalSettings := gs' })

/-! ## SMS command formatting and log classification (`utils/smsUtils.ts`) -/

/-- JavaScript `String.prototype.padStart(n, c)`. -/
def padStart (s : String) (n : Nat) (c : Char) : String :=
  if n ≤ s.length then s
  else String.mk (List.replicate (n - s.length) c) ++ s

/-- Options bag of `formatSMSCommand` (`options: any = {}`); fields the
eight handled branches read. -/
structure SMSOptions where
  serial : String := ""
  phone : String := ""
  startTime : Option String := none
  endTime : Option String := none
  accessType : String := ""
  latchTime : String := ""
  adminNumber : String := ""
  newPassword : String := ""
deriving DecidableEq, Repr

/-- `formatSMSCommand`.  The `default` branch of the source `switch` returns
the identifier `command`, which is unbound in that scope: evaluating it
raises a `ReferenceError` instead of producing a string, modelled as
`none`; the eight handled command types produce `some`. -/
def formatSMSCommand (password commandType : String) (options : SMSOptions) : Option String :=
  match commandType with
  | "OPEN" => some (password ++ "CC")
  | "CLOSE" => some (password ++ "DD")
  | "STATUS" => some (password ++ "EE")
  | "ADD_USER" =>
      some (password ++ "A" ++ options.serial ++ "#" ++ options.phone ++ "#"
        ++ (options.startTime.getD "") ++ "#" ++ (options.endTime.getD "") ++ "#")
  | "DELETE_USER" => some (password ++ "A" ++ options.serial ++ "##")
  | "SET_ACCESS" => some (password ++ options.accessType ++ "#")
  | "SET_LATCH" => some (password ++ "GOT" ++ padStart options.latchTime 3 '0' ++ "#")
  | "REGISTER_ADMIN" => some (password ++ "TEL" ++ options.adminNumber ++ "#")
  | _ => none

/-- Does `pat` occur as a contiguous run in `l`? (executable infix test) -/
def containsSeq (pat : List Char) : List Char → Bool
  | [] => pat.isEmpty
  | c :: rest => pat.isPrefixOf (c :: rest) || containsSeq pat rest

/-- JavaScript `s.includes(pat)`. -/
def strIncludes (s pat : String) : Bool :=
  containsSeq pat.toList s.toList

/-- One left-to-right pass of `replace(/\d\d\d\d[A-Z]/g, '****')` over the
characters: four digits followed by an ASCII uppercase letter are replaced
by four asterisks, non-overlapping, scanning resumes after the match. -/
def redactChars : List Char → List Char
  | a :: b :: c :: d :: e :: rest2 =>
    if a.isDigit && b.isDigit && c.isDigit && d.isDigit && 'A' ≤ e && e ≤ 'Z' then
      '*' :: '*' :: '*' :: '*' :: redactChars rest2
    else a :: redactChars (b :: c :: d :: e :: rest2)
  | [] => []
  | a :: rest => a :: redactChars rest

/-- First (leftmost) successful prefix match of `m` over all suffixes,
as a JavaScript regex `match` without the global flag. -/
def scanMatch {α : Type} (m : List Char → Option α) : List Char → Option α
  | [] => none
  | c :: cs =>
    match m (c :: cs) with
    | some a => some a
    | none => scanMatch m cs

/-- Prefix match of `/\d\d\d\dA(\d\d\d)##/`, returning the captured serial. -/
def matchRemoveAt : List Char → Option (List Char)
  | a :: b :: c :: d :: 'A' :: e :: f :: g :: '#' :: '#' :: _ =>
    if a.isDigit && b.isDigit && c.isDigit && d.isDigit
        && e.isDigit && f.isDigit && g.isDigit then
      some [e, f, g]
    else none
  | _ => none

/-- Prefix match of `/\d\d\d\dA(\d\d\d)#([^#]+)#/`, returning the captured
serial and phone.  `[^#]+` is a maximal nonempty run of non-`#` characters
that must be followed by `#`. -/
def matchAddAt : List Char → Option (List Char × List Char)
  | a :: b :: c :: d :: 'A' :: e :: f :: g :: '#' :: rest =>
    if a.isDigit && b.isDigit && c.isDigit && d.isDigit
        && e.isDigit && f.isDigit && g.isDigit then
      let phone := rest.takeWhile (fun x => x ≠ '#')
      if phone ≠ [] && (rest.dropWhile (fun x => x ≠ '#')).head? = some '#' then
        some ([e, f, g], phone)
      else none
    else none
  | _ => none

/-- Prefix match of `/\d\d\d\dGOT(\d\d\d)#/`, returning the captured seconds. -/
def matchGotAt : List Char → Option (List Char)
  | a :: b :: c :: d :: 'G' :: 'O' :: 'T' :: e :: f :: g :: '#' :: _ =>
    if a.isDigit && b.isDigit && c.isDigit && d.isDigit
        && e.isDigit && f.isDigit && g.isDigit then
      some [e, f, g]
    else none
  | _ => none

/-- The action/details classification of `DataStore.logSMSOperation`
(the chain of `includes` tests and regex captures over the raw command). -/
def smsActionDetails (command : String) : String × String :=
  if strIncludes command "CC" then
    ("Gate Open", "Opened gate/activated relay (ON)")
  else if strIncludes command "DD" then
    ("Gate Close", "Closed gate/deactivated relay (OFF)")
  else if strIncludes command "P" && command.length == 8 then
    ("Password Change", "Changed device password")
  else if strIncludes command "EE" then
    ("Status Check", "Requested device status")
  else if strIncludes command "TEL" then
    ("Admin Registration", "Registered admin phone number")
  else if strIncludes command "A" && !strIncludes command "ALL" && !strIncludes command "AUT" then
    ("User Management",
      if strIncludes command "##" then
        match scanMatch matchRemoveAt command.toList with
        | some serial => "Removed authorized user from position " ++ String.mk serial
        | none => "Removed authorized user from position "
      else
        match scanMatch matchAddAt command.toList with
        | some (serial, phone) =>
            "Added user " ++ String.mk phone ++ " at position " ++ String.mk serial
        | none => String.mk (redactChars command.toList))
  else if strIncludes command "AUT" then
    ("Access Control", "Set to authorized users only")
  else if strIncludes command "ALL" then
    ("Access Control", "Set to allow all callers")
  else if strIncludes command "GOT" then
    ("Relay Timing",
      let seconds := scanMatch matchGotAt command.toList
      match seconds with
      | some s =>
        if s = ['0', '0', '0'] then "Set relay to momentary mode (pulse)"
        else if s = ['9', '9', '9'] then "Set relay to toggle mode (stays ON until next call)"
        else "Set relay to close for " ++ toString (digitsToNat s) ++ " seconds"
      | none => "Set relay to close for 0 seconds")
  else
    ("GSM Command", String.mk (redactChars command.toList))

/-- `DataStore.logSMSOperation`: classify the raw command and record it via
`addDeviceLog` under the `relay` category. -/
def logSMSOperation (store : AppData) (deviceId command : String) (success : Bool)
    (newId now : String) : LogEntry × AppData :=
  let (action, details) := smsActionDetails command
  addDeviceLog store deviceId action details success "relay" newId now

/-! ## Backup and restore (`utils/backupRestore.ts`)

`AsyncStorage` is modelled as an insertion-ordered association list from
string keys to string values.  Thrown JavaScript errors are modelled with
`Except`; the restore entry point returns the error-or-success outcome
together with the storage state afterwards. -/

abbrev Storage := List (String × String)

/-- ASCII whitespace as trimmed by `String.prototype.trim` and matched by
the regex class `\s`. -/
def jsWs (c : Char) : Bool :=
  c = ' ' || c = '\t' || c = '\n' || c = '\r' || c = '\x0b' || c = '\x0c'

/-- JavaScript `s.trim()`. -/
def trimChars (l : List Char) : List Char :=
  ((l.dropWhile jsWs).reverse.dropWhile jsWs).reverse

/-- Positions (ascending) at which `pat` occurs in `l`. -/
def matchPosAux (pat : List Char) : List Char → Nat → List Nat
  | [], i => if pat.isEmpty then [i] else []
  | c :: rest, i =>
    (if pat.isPrefixOf (c :: rest) then [i] else []) ++ matchPosAux pat rest (i + 1)

/-- JavaScript `s.indexOf(pat)` (`none` for `-1`). -/
def indexOfChars (l pat : List Char) : Option Nat :=
  (matchPosAux pat l 0).head?

/-- JavaScript `s.lastIndexOf(pat)` (`none` for `-1`). -/
def lastIndexOfChars (l pat : List Char) : Option Nat :=
  (matchPosAux pat l 0).getLast?

def listMin? (l : List Nat) : Option Nat :=
  l.foldr (fun n acc => match acc with | none => some n | some m => some (min n m)) none

/-- The candidate JSON start markers of `restoreFromBackup`:
`indexOf('{"')`, `indexOf('{\n"')`, `indexOf('{ "')` and
`lastIndexOf('{"')`, keeping only the found ones. -/
def jsonStartOptions (l : List Char) : List Nat :=
  [indexOfChars l ['\x7b', '"'],
   indexOfChars l ['\x7b', '\n', '"'],
   indexOfChars l ['\x7b', ' ', '"'],
   lastIndexOfChars l ['\x7b', '"']].filterMap id

/-- One step of the brace-balancing scan: state is (count, next index,
lastValidPos); `lastValidPos` is set after a `}` that brings the count to
exactly zero.  The count is an integer — a stray `}` drives it negative. -/
def scanStep (st : Int × Nat × Nat) (c : Char) : Int × Nat × Nat :=
  if c = '\x7b' then (st.1 + 1, st.2.1 + 1, st.2.2)
  else if c = '\x7d' then
    (st.1 - 1, st.2.1 + 1, if st.1 - 1 = 0 then st.2.1 + 1 else st.2.2)
  else (st.1, st.2.1 + 1, st.2.2)

/-- The `lastValidPos` computed by the brace-balancing loop. -/
def braceScan (l : List Char) : Nat :=
  (l.foldl scanStep (0, 0, 0)).2.2

/-- One global-replace pass of `/,\s*c/` by `c` (`c` being `}` or `]`):
non-overlapping, scanning the original text left to right, resuming after
each replacement.  Fuel (≥ input length) bounds the recursion; every step
consumes at least one character, so the bound is never hit. -/
def stripCommaGo (close : Char) : Nat → List Char → List Char
  | 0, l => l
  | _ + 1, [] => []
  | fuel + 1, c :: rest =>
    if c = ',' then
      let wsn := (rest.takeWhile jsWs).length
      match rest.drop wsn with
      | c2 :: _ =>
        if c2 = close then close :: stripCommaGo close fuel (rest.drop (wsn + 1))
        else c :: stripCommaGo close fuel rest
      | [] => c :: stripCommaGo close fuel rest
    else c :: stripCommaGo close fuel rest

def stripCommaBefore (close : Char) (l : List Char) : List Char :=
  stripCommaGo close l.length l

/-- Lexeme of `(?:\\.|[^"\\])*"` after an opening quote: raw (undecoded)
content characters and the rest after the closing quote.  `.` does not
match line terminators. -/
def matchStringLexeme : List Char → Option (List Char × List Char)
  | [] => none
  | c :: rest =>
    if c = '"' then some ([], rest)
    else if c = '\\' then
      match rest with
      | [] => none
      | e :: rest2 =>
        if e = '\n' || e = '\r' then none
        else (matchStringLexeme rest2).map (fun p => ('\\' :: e :: p.1, p.2))
    else (matchStringLexeme rest).map (fun p => (c :: p.1, p.2))

/-- Value alternation of the key-extraction regex:
string, `[0-9]+`, `true`, `false`, `null`, `{[^}]*}`, `[[^\]]*]`;
returns the raw lexeme and the rest. -/
def matchValueLexeme (l : List Char) : Option (List Char × List Char) :=
  match l with
  | '"' :: rest => (matchStringLexeme rest).map (fun p => ('"' :: p.1 ++ ['"'], p.2))
  | _ =>
    let digits := l.takeWhile Char.isDigit
    if digits ≠ [] then some (digits, l.drop digits.length)
    else
      match l with
      | 't' :: 'r' :: 'u' :: 'e' :: r => some ("true".toList, r)
      | 'f' :: 'a' :: 'l' :: 's' :: 'e' :: r => some ("false".toList, r)
      | 'n' :: 'u' :: 'l' :: 'l' :: r => some ("null".toList, r)
      | '\x7b' :: rest =>
        let body := rest.takeWhile (fun x => x ≠ '\x7d')
        (match rest.drop body.length with
         | '\x7d' :: r => some ('\x7b' :: body ++ ['\x7d'], r)
         | _ => none)
      | '[' :: rest =>
        let body := rest.takeWhile (fun x => x ≠ ']')
        (match rest.drop body.length with
         | ']' :: r => some ('[' :: body ++ [']'], r)
         | _ => none)
      | _ => none

/-- Prefix match of the whole key-value pattern
`"([^"]+)"\s*:\s*(<value>)`. -/
def matchKVAt (l : List Char) : Option ((String × List Char) × List Char) :=
  match l with
  | '"' :: rest =>
    let key := rest.takeWhile (fun x => x ≠ '"')
    if key = [] then none
    else
      match rest.drop key.length with
      | '"' :: r1 =>
        (match r1.dropWhile jsWs with
         | ':' :: r3 =>
           (matchValueLexeme (r3.dropWhile jsWs)).map (fun p => ((String.mk key, p.1), p.2))
         | _ => none)
      | _ => none
  | _ => none

/-- The `keyValueRegex.exec` loop: successive non-overlapping leftmost
matches; on failure at a position the scan advances one character.  Fuel
(≥ input length) bounds the recursion; every match consumes at least one
character, so the bound is never hit. -/
def extractPairsFuel : Nat → List Char → List (String × List Char)
  | 0, _ => []
  | _ + 1, [] => []
  | fuel + 1, c :: rest =>
    match matchKVAt (c :: rest) with
    | some (kv, after) => kv :: extractPairsFuel fuel after
    | none => extractPairsFuel fuel rest

/-- Tier-3 recovery: rebuild a flat object from extracted pairs, parsing
each value lexeme with `JSON.parse` and skipping pairs whose lexeme does
not parse. -/
def extractObject (l : List Char) : List (String × Json) :=
  (extractPairsFuel (l.length + 1) l).foldl
    (fun acc kv =>
      match parseJsonChars kv.2 with
      | some v => setAssoc acc kv.1 v
      | none => acc) []

def enumPairs (xs : List Json) : List (String × Json) :=
  (xs.enum).map (fun p => (toString p.1, p.2))

/-- Shape normalization: `{data: {...}}`, bare object, or bare array
(wrapped under `gsm_devices`).  A parsed `null` reaches
`Object.entries(null)` and throws; other primitives are reported as an
unsupported format. -/
def shapeNormalize (parsedData : Json) : Except String (List (String × Json)) :=
  match parsedData with
  | .obj fs =>
    (match getAssoc fs "data" with
     | some (.obj ds) => .ok ds
     | some (.arr xs) => .ok (enumPairs xs)
     | _ => .ok fs)
  | .arr xs => .ok [("gsm_devices", .arr xs)]
  | .null => .error "TypeError: Cannot convert undefined or null to object"
  | _ => .error "Unsupported backup format"

/-- Boundary recovery (lines 143–178): trim, cut everything before the
earliest JSON start marker, then trim everything after the position where
the brace-balancing scan saw the first top-level object close. -/
def boundaryRecover (l : List Char) : List Char :=
  let processed0 := trimChars l
  let processed1 :=
    match listMin? (jsonStartOptions processed0) with
    | some start => if start > 0 then processed0.drop start else processed0
    | none => processed0
  let lv := braceScan processed1
  if 0 < lv ∧ lv < processed1.length then processed1.take lv else processed1

/-- Parsing phase of `restoreFromBackup` (lines 134–249): input validation,
boundary recovery (start-marker search and brace-balancing trim), then the
three escalating parse tiers, then shape normalization.  No storage
mutation happens in this phase. -/
def parsePhase (backupJson : String) : Except String (List (String × Json)) :=
  if backupJson = "" then .error "Backup file appears to be empty"
  else
    let processed := boundaryRecover backupJson.toList
    match parseJsonChars processed with
    | some parsed => shapeNormalize parsed
    | none =>
      match parseJsonChars (stripCommaBefore ']' (stripCommaBefore '\x7d' processed)) with
      | some parsed => shapeNormalize parsed
      | none =>
        let pairs := extractObject processed
        if pairs.isEmpty then .error "Could not parse backup file - invalid JSON format"
        else shapeNormalize (.obj pairs)

def isObjLike : Json → Bool
  | .obj _ => true
  | .arr _ => true
  | _ => false

/-- What a cached log entry writes back: either the flat-mapping value at a
key, or (for `app_logs`) the `logs` sub-object of the canonical document.
The source captures object references before the merge; since the merge
mutates those same objects in place, the write-back sees the post-merge
values, which resolving against the post-merge mapping reproduces. -/
inductive CachedLog where
  | appLogs : CachedLog
  | plain (k : String) : CachedLog

/-- The log-caching pass (lines 263–279) over the flat mapping: any key
containing `logs`, plus the canonical key — the latter cached as
`app_logs` holding the document's `logs` sub-field when present. -/
def cacheLogEntries (dts : List (String × Json)) : List (String × CachedLog) :=
  dts.foldl
    (fun acc kv =>
      if strIncludes kv.1 "logs" || kv.1 == "app_data" then
        if kv.1 == "app_data" && truthy kv.2 && isObjLike kv.2 && optTruthy (jGet kv.2 "logs") then
          setAssoc acc "app_logs" CachedLog.appLogs
        else setAssoc acc kv.1 (CachedLog.plain kv.1)
      else acc) []

def resolveCached (dts : List (String × Json)) : CachedLog → Option Json
  | .plain k => getAssoc dts k
  | .appLogs => (getAssoc dts "app_data").bind (fun a => jGet a "logs")

/-- Field assignment on a JSON object (in-place mutation of the parsed
document). -/
def jSet (j : Json) (k : String) (v : Json) : Json :=
  match j with
  | .obj fs => .obj (setAssoc fs k v)
  | other => other

/-- The per-device log merge loop (lines 308–321): adopt the on-device
bucket when the backup has none for that id; otherwise keep on-device
entries and prepend only backup entries whose id is not already present.
A non-array bucket makes the source loop throw (`.map`/`.filter` on a
non-array), aborting the loop with earlier iterations applied. -/
def mergeLogBuckets : List (String × Json) → List (String × Json) → List (String × Json)
  | [], blogs => blogs
  | (did, bucket) :: rest, blogs =>
    if optTruthy (getAssoc blogs did) then
      match bucket, getAssoc blogs did with
      | .arr bes, some (.arr bvs) =>
        let ids := bes.map (fun e => jGet e "id")
        let newLogs := bvs.filter (fun e => !(ids.any (fun i => jsValEq i (jGet e "id"))))
        mergeLogBuckets rest (setAssoc blogs did (.arr (newLogs ++ bes)))
      | _, _ => blogs
    else mergeLogBuckets rest (setAssoc blogs did bucket)

/-- The conflict-reconciliation block (lines 283–330) applied to the
backup's canonical document: union devices by id (on-device wins), then
merge the log record.  Paths on which the source throws inside its
try/catch leave the mutations already applied and skip the rest; paths
that throw before any mutation leave the document unchanged. -/
def mergeDevicesLogs (backupApp existing : Json) : Json :=
  match jGet backupApp "devices", jGet existing "devices" with
  | some (.arr bds), some (.arr eds) =>
    let ids := eds.map (fun d => jGet d "id")
    let added := bds.filter (fun b => !(ids.any (fun i => jsValEq i (jGet b "id"))))
    let backupApp1 := jSet backupApp "devices" (.arr (eds ++ added))
    (match jGet existing "logs" with
     | some elogsV =>
       if truthy elogsV then
         match elogsV, jGet backupApp1 "logs" with
         | .obj elogs, some (.obj blogs) =>
           jSet backupApp1 "logs" (.obj (mergeLogBuckets elogs blogs))
         | _, _ => backupApp1
       else backupApp1
     | none => backupApp1)
  | _, _ => backupApp

/-- Merge trigger (lines 283–287): only when the flat mapping holds a truthy
canonical document and a truthy document already exists on-device. -/
def mergeStep (dts : List (String × Json)) (existing : Option Json) : List (String × Json) :=
  match getAssoc dts "app_data", existing with
  | some bav, some ex =>
    if truthy bav && truthy ex then setAssoc dts "app_data" (mergeDevicesLogs bav ex) else dts
  | _, _ => dts

/-- `setItem` serialization: strings are stored raw, everything else is
`JSON.stringify`ed. -/
def jsonToStorageString : Json → String
  | .str s => s
  | v => stringify v

/-- One write of the flat-mapping pass (lines 354–365): skip null values,
otherwise store the serialized value and count the success. -/
def writeStep (acc : Storage × Nat) (kv : String × Json) : Storage × Nat :=
  match kv.2 with
  | Json.null => acc
  | v => (setAssoc acc.1 kv.1 (jsonToStorageString v), acc.2 + 1)

/-- One write of the cached-log pass (lines 367–385): skip keys already
truthy in the flat mapping, otherwise write the resolved cached value. -/
def cachedStep (dts : List (String × Json)) (acc : Storage × Nat)
    (kc : String × CachedLog) : Storage × Nat :=
  if optTruthy (getAssoc dts kc.1) then acc
  else
    match resolveCached dts kc.2 with
    | some v => (setAssoc acc.1 kc.1 (jsonToStorageString v), acc.2 + 1)
    | none => acc

/-- Mutating phase of `restoreFromBackup` (lines 251–403): read and parse
any existing canonical document, cache log keys, reconcile, clear all keys
(keeping the canonical key only when a merge is pending), write the flat
mapping (skipping nulls), write back cached log keys not already covered,
and fail if nothing was written. -/
def applyPhase (dts0 : List (String × Json)) (st : Storage) : Except String Bool × Storage :=
  let existing : Option Json :=
    match getAssoc st "app_data" with
    | some v => if v = "" then none else parseJson v
    | none => none
  let cached := cacheLogEntries dts0
  let dts := mergeStep dts0 existing
  let preserveAppData :=
    optTruthy (getAssoc dts "app_data") &&
      (match existing with | some j => truthy j | none => false)
  let st1 := st.filter (fun kv => kv.1 == "app_data" && preserveAppData)
  let step2 := dts.foldl writeStep (st1, 0)
  let step3 := cached.foldl (cachedStep dts) step2
  if step3.2 = 0 then (.error "Failed to restore any items", step3.1)
  else (.ok true, step3.1)

/-- `restoreFromBackup`: the full pipeline.  The first component is the
thrown error or the returned `true`; the second is the storage state when
control returns to the caller. -/
def restoreFromBackup (backupJson : String) (st : Storage) : Except String Bool × Storage :=
  match parsePhase backupJson with
  | .error e => (.error e, st)
  | .ok dts => applyPhase dts st

/-- `createBackup`: enumerate all keys, JSON-decode each value (falling
back to the raw string), and serialize the versioned snapshot document.
Empty stored values are falsy and are skipped. -/
def createBackup (st : Storage) (timestamp : String) : String :=
  let data := st.foldl
    (fun acc kv =>
      if kv.2 ≠ "" then setAssoc acc kv.1 ((parseJson kv.2).getD (.str kv.2)) else acc) []
  stringify (.obj [("version", .str "1.0"), ("timestamp", .str timestamp), ("data", .obj data)])

/-! ## Typed encoding of `AppData` into JSON

`encodeAppData` is the JSON document `JSON.stringify(this.store)` denotes
for a well-typed store; optional fields are omitted when absent, as
`JSON.stringify` omits `undefined` properties.  `decodeAppData` expresses
the shape assumption `DataStore.initialize` makes when it assigns
`JSON.parse(storedData)` to `this.store` unchecked. -/

def encodeLog (e : LogEntry) : Json :=
  .obj ([("id", .str e.id), ("timestamp", .str e.timestamp), ("action", .str e.action),
         ("details", .str e.details), ("success", .bool e.success),
         ("category", .str e.category)] ++
    (match e.deviceId with
     | some d => [("deviceId", Json.str d)]
     | none => []))

def encodeRelaySettings (r : RelaySettings) : Json :=
  .obj [("accessControl", .str r.accessControl), ("latchTime", .str r.latchTime)]

def encodeDevice (d : Device) : Json :=
  .obj ([("id", .str d.id), ("name", .str d.name), ("unitNumber", .str d.unitNumber),
         ("password", .str d.password),
         ("authorizedUsers", .arr (d.authorizedUsers.map Json.str)),
         ("createdAt", .str d.createdAt), ("updatedAt", .str d.updatedAt),
         ("type", .str d.type)] ++
    (match d.isActive with
     | some b => [("isActive", Json.bool b)]
     | none => []) ++
    (match d.relaySettings with
     | some r => [("relaySettings", encodeRelaySettings r)]
     | none => []))

def encodeUser (u : User) : Json :=
  .obj ([("id", .str u.id), ("name", .str u.name), ("phoneNumber", .str u.phoneNumber),
         ("serialNumber", .str u.serialNumber)] ++
    (match u.startTime with
     | some t => [("startTime", Json.str t)]
     | none => []) ++
    (match u.endTime with
     | some t => [("endTime", Json.str t)]
     | none => []))

def encodeGlobalSettings (g : GlobalSettings) : Json :=
  .obj [("adminNumber", .str g.adminNumber),
        ("activeDeviceId", match g.activeDeviceId with
                           | some s => Json.str s
                           | none => Json.null),
        ("completedSteps", .arr (g.completedSteps.map Json.str))]

def encodeAppData (a : AppData) : Json :=
  .obj [("devices", .arr (a.devices.map encodeDevice)),
        ("users", .arr (a.users.map encodeUser)),
        ("logs", .obj (a.logs.map (fun kv => (kv.1, Json.arr (kv.2.map encodeLog))))),
        ("globalSettings", encodeGlobalSettings a.globalSettings)]

def decodeStr : Json → Option String
  | .str s => some s
  | _ => none

def decodeStrList : Json → Option (List String)
  | .arr xs => xs.mapM decodeStr
  | _ => none

def decodeOptField (j : Json) (k : String) : Option (Option String) :=
  match jGet j k with
  | none => some none
  | some (.str s) => some (some s)
  | some _ => none

def decodeLog (j : Json) : Option LogEntry := do
  let id ← (jGet j "id").bind decodeStr
  let timestamp ← (jGet j "timestamp").bind decodeStr
  let action ← (jGet j "action").bind decodeStr
  let details ← (jGet j "details").bind decodeStr
  let success ← match jGet j "success" with
                | some (.bool b) => some b
                | _ => none
  let category ← (jGet j "category").bind decodeStr
  let deviceId ← decodeOptField j "deviceId"
  some { id, timestamp, action, details, success, category, deviceId }

def decodeRelaySettings : Json → Option RelaySettings
  | j => do
    let accessControl ← (jGet j "accessControl").bind decodeStr
    let latchTime ← (jGet j "latchTime").bind decodeStr
    some { accessControl, latchTime }

def decodeDevice (j : Json) : Option Device := do
  let id ← (jGet j "id").bind decodeStr
  let name ← (jGet j "name").bind decodeStr
  let unitNumber ← (jGet j "unitNumber").bind decodeStr
  let password ← (jGet j "password").bind decodeStr
  let authorizedUsers ← (jGet j "authorizedUsers").bind decodeStrList
  let createdAt ← (jGet j "createdAt").bind decodeStr
  let updatedAt ← (jGet j "updatedAt").bind decodeStr
  let type ← (jGet j "type").bind decodeStr
  let isActive ← match jGet j "isActive" with
                 | none => some none
                 | some (.bool b) => some (some b)
                 | some _ => none
  let relaySettings ← match jGet j "relaySettings" with
                      | none => some none
                      | some r => (decodeRelaySettings r).map some
  some { id, name, unitNumber, password, authorizedUsers, createdAt, updatedAt,
         type, isActive, relaySettings }

def decodeUser (j : Json) : Option User := do
  let id ← (jGet j "id").bind decodeStr
  let name ← (jGet j "name").bind decodeStr
  let phoneNumber ← (jGet j "phoneNumber").bind decodeStr
  let serialNumber ← (jGet j "serialNumber").bind decodeStr
  let startTime ← decodeOptField j "startTime"
  let endTime ← decodeOptField j "endTime"
  some { id, name, phoneNumber, serialNumber, startTime, endTime }

def decodeGlobalSettings (j : Json) : Option GlobalSettings := do
  let adminNumber ← (jGet j "adminNumber").bind decodeStr
  let activeDeviceId ← match jGet j "activeDeviceId" with
                       | some Json.null => some none
                       | some (.str s) => some (some s)
                       | _ => none
  let completedSteps ← (jGet j "completedSteps").bind decodeStrList
  some { adminNumber, activeDeviceId, completedSteps }

def decodeLogBucket : Json → Option (List LogEntry)
  | .arr xs => xs.mapM decodeLog
  | _ => none

def decodeAppData (j : Json) : Option AppData := do
  let devices ← match jGet j "devices" with
                | some (.arr xs) => xs.mapM decodeDevice
                | _ => none
  let users ← match jGet j "users" with
              | some (.arr xs) => xs.mapM decodeUser
              | _ => none
  let logs ← match jGet j "logs" with
             | some (.obj fs) => fs.mapM (fun kv => (decodeLogBucket kv.2).map ((kv.1, ·)))
             | _ => none
  let globalSettings ← (jGet j "globalSettings").bind decodeGlobalSettings
  some { devices, users, logs, globalSettings }

/-- `DataStore.initialize` on the canonical-key path: parse the stored
document and adopt it as the store, falling back to the empty state when
the read is empty or unparsable.  (Legacy migration, which runs only when
the canonical key is absent, is not exercised by the claims and documents
decoded to a shape other than `AppData` are outside the typed model; both
fall back to `initialState` here.) -/
def initializeFromStorage (st : Storage) : AppData :=
  match getAssoc st "app_data" with
  | some s =>
    if s = "" then initialState
    else
      match (parseJson s).bind decodeAppData with
      | some a => a
      | none => initialState
  | none => initialState

/-! ## Concrete fixtures used by witnesses and counterexamples -/

def devA : Device :=
  { id := "a", name := "GateA", unitNumber := "04", password := "1234", authorizedUsers := ["u1"], createdAt := "t0", updatedAt := "t1", type := "Connect4v" }

def devB : Device :=
  { id := "b", name := "GateB", unitNumber := "05", password := "9999", authorizedUsers := [], createdAt := "t2", updatedAt := "t3", type := "Phonic4v" }

def devShadow : Device :=
  { id := "b", name := "Shadow", unitNumber := "06", password := "0000", authorizedUsers := [], createdAt := "t4", updatedAt := "t5", type := "Connect4v" }

def logA1 : LogEntry :=
  { id := "l1", timestamp := "t", action := "act", details := "det", success := true, category := "relay" }

def logB1 : LogEntry :=
  { id := "l2", timestamp := "t", action := "actB", details := "detB", success := false, category := "user" }

/-- On-device sample store: one device `a` with one log entry. -/
def storeS : AppData :=
  { devices := [devA], users := [], logs := [("a", [logA1])], globalSettings := { adminNumber := "07", activeDeviceId := some "a", completedSteps := ["s1"] } }

/-- Backup-side sample store: one device `b` with one log entry. -/
def storeT : AppData :=
  { devices := [devB], users := [], logs := [("b", [logB1])], globalSettings := { adminNumber := "", activeDeviceId := some "b", completedSteps := [] } }

/-- On-device store already holding a device whose id collides with `devB`. -/
def storeSBshadow : AppData :=
  { devices := [devA, devShadow], users := [], logs := [("a", [logA1])], globalSettings := { adminNumber := "07", activeDeviceId := some "a", completedSteps := ["s1"] } }

/-- One `addDeviceLog` invocation (its non-deterministic inputs included),
for stating properties of call sequences. -/
structure LogCall where
  deviceId : String
  action : String
  details : String
  success : Bool
  category : String
  newId : String
  now : String

def runAddDeviceLogs (start : AppData) (calls : List LogCall) : AppData :=
  calls.foldl
    (fun st c => (addDeviceLog st c.deviceId c.action c.details c.success c.category c.newId c.now).2)
    start

/-- Every log bucket holds at most 200 entries. -/
def bucketsLe200 (a : AppData) : Prop :=
  ∀ kv ∈ a.logs, kv.2.length ≤ 200

instance (a : AppData) : Decidable (bucketsLe200 a) := by
  unfold bucketsLe200; infer_instance

/-- The eight command types handled by `formatSMSCommand`. -/
def handledCommandTypes : List String :=
  ["OPEN", "CLOSE", "STATUS", "ADD_USER", "DELETE_USER", "SET_ACCESS", "SET_LATCH", "REGISTER_ADMIN"]

/-- A store whose device `a` already holds a full bucket of 200 entries. -/
def storeFull : AppData :=
  { storeS with logs := [("a", List.replicate 200 logA1)] }

/-! ## Well-formedness predicates for the JSON round trip

`jsonPlain` captures the documents our typed encoders produce when every
string field is printable (no control characters) and brace-free (the
brace-balancing recovery scan of `restoreFromBackup` counts braces inside
string literals too): no numbers (the encoders emit none), all object keys
distinct, all string content plain. -/

def plainChar (c : Char) : Bool :=
  32 ≤ c.toNat && c ≠ '\x7b' && c ≠ '\x7d'

def distinctKeys : List String → Bool
  | [] => true
  | k :: ks => !(ks.contains k) && distinctKeys ks

mutual

def jsonPlain : Json → Bool
  | .null => true
  | .bool _ => true
  | .num _ => false
  | .str s => s.toList.all plainChar
  | .arr xs => jsonPlainArr xs
  | .obj fs => distinctKeys (fs.map Prod.fst) && jsonPlainObj fs

def jsonPlainArr : List Json → Bool
  | [] => true
  | x :: xs => jsonPlain x && jsonPlainArr xs

def jsonPlainObj : List (String × Json) → Bool
  | [] => true
  | (k, v) :: fs => k.toList.all plainChar && jsonPlain v && jsonPlainObj fs

end

/-! Fuel sufficient for `parseValue` to consume the stringified value:
one unit per `parseValue`/`parseMembers`/`parseElems` call. -/
mutual

def jfuel : Json → Nat
  | .null => 1
  | .bool _ => 1
  | .num _ => 1
  | .str _ => 1
  | .arr [] => 1
  | .arr (x :: xs) => 1 + jfuelElems (x :: xs)
  | .obj [] => 1
  | .obj (kv :: fs) => 1 + jfuelMembers (kv :: fs)

def jfuelElems : List Json → Nat
  | [] => 1
  | [x] => 1 + jfuel x
  | x :: y :: xs => 1 + jfuel x + jfuelElems (y :: xs)

def jfuelMembers : List (String × Json) → Nat
  | [] => 1
  | [(_, v)] => 1 + jfuel v
  | (_, v) :: m :: fs => 1 + jfuel v + jfuelMembers (m :: fs)

end

/-- A device whose name contains a closing brace, breaking the naive
brace-balancing scan of the restore boundary recovery. -/
def devBrace : Device :=
  { id := "c", name := "Gate\x7d", unitNumber := "07", password := "1111", authorizedUsers := [], createdAt := "t6", updatedAt := "t7", type := "Connect4v" }

def storeBrace : AppData :=
  { devices := [devBrace], users := [], logs := [], globalSettings := { adminNumber := "", activeDeviceId := some "c", completedSteps := [] } }

/-! ## Association-list and list helper lemmas -/

theorem mem_setAssoc {α : Type} (l : List (String × α)) (k : String) (v : α) :
    ∀ kv ∈ setAssoc l k v, kv = (k, v) ∨ kv ∈ l := by
  induction l with
  | nil => intro kv h; simp [setAssoc] at h; simp [h]
  | cons hd tl ih =>
    intro kv h
    unfold setAssoc at h
    by_cases hk : hd.1 = k
    · simp only [hk, if_pos rfl] at h
      rcases List.mem_cons.mp h with h | h
      · exact Or.inl h
      · exact Or.inr (List.mem_cons_of_mem _ h)
    · simp only [if_neg hk] at h
      rcases List.mem_cons.mp h with h | h
      · exact Or.inr (by simp [h])
      · rcases ih kv h with h' | h'
        · exact Or.inl h'
        · exact Or.inr (List.mem_cons_of_mem _ h')

theorem getAssoc_setAssoc_self {α : Type} (l : List (String × α)) (k : String) (v : α) :
    getAssoc (setAssoc l k v) k = some v := by
  induction l with
  | nil => simp [setAssoc, getAssoc]
  | cons hd tl ih =>
    unfold setAssoc
    by_cases hk : hd.1 = k
    · simp [hk, getAssoc]
    · simp only [if_neg hk]
      unfold getAssoc
      simp [hk, ih]

theorem getAssoc_setAssoc_ne {α : Type} (l : List (String × α)) (k k' : String) (v : α)
    (h : k ≠ k') : getAssoc (setAssoc l k v) k' = getAssoc l k' := by
  induction l with
  | nil => simp [setAssoc, getAssoc, h]
  | cons hd tl ih =>
    unfold setAssoc
    by_cases hk : hd.1 = k
    · simp [getAssoc, hk, h]
    · simp only [if_neg hk]
      unfold getAssoc
      by_cases hk' : hd.1 = k'
      · simp [hk']
      · simp [hk', ih]

theorem getAssoc_eraseAssoc_self {α : Type} (l : List (String × α)) (k : String)
    (h : (l.map Prod.fst).Nodup) : getAssoc (eraseAssoc l k) k = none := by
  induction l with
  | nil => simp [eraseAssoc, getAssoc]
  | cons hd tl ih =>
    simp only [List.map_cons, List.nodup_cons] at h
    unfold eraseAssoc
    by_cases hk : hd.1 = k
    · subst hk
      rw [if_pos rfl]
      cases hget : getAssoc tl hd.1 with
      | none => rfl
      | some v =>
        exfalso
        have : hd.1 ∈ tl.map Prod.fst := by
          clear ih h
          induction tl with
          | nil => simp [getAssoc] at hget
          | cons hd2 tl2 ih2 =>
            unfold getAssoc at hget
            by_cases h2 : hd2.1 = hd.1
            · simp [h2]
            · simp only [if_neg h2] at hget
              simp [ih2 hget]
        exact h.1 this
    · simp only [if_neg hk]
      unfold getAssoc
      simp [hk, ih h.2]

theorem find?_updateFirst {α : Type} (p : α → Bool) (f : α → α) (l : List α)
    (hpf : ∀ x, p (f x) = p x) :
    List.find? p (updateFirst p f l) = (List.find? p l).map f := by
  induction l with
  | nil => simp [updateFirst]
  | cons hd tl ih =>
    unfold updateFirst
    cases hp : p hd with
    | true => simp [List.find?_cons, hp, hpf]
    | false => simp [List.find?_cons, hp, ih]

theorem length_filter_lt {α : Type} (p : α → Bool) (l : List α) (x : α)
    (hx : x ∈ l) (hpx : p x = false) : (l.filter p).length < l.length := by
  induction l with
  | nil => simp at hx
  | cons hd tl ih =>
    rcases List.mem_cons.mp hx with h | h
    · subst h
      simp only [List.filter_cons, hpx, List.length_cons]
      exact Nat.lt_succ_of_le (List.length_filter_le p tl)
    · simp only [List.filter_cons, List.length_cons]
      cases hp : p hd
      · exact Nat.lt_succ_of_lt (ih h)
      · simpa using Nat.succ_lt_succ (ih h)

theorem set_getElem_eq_self {α : Type} (l : List α) (i : Nat) (a : α)
    (h : l[i]? = some a) : l.set i a = l := by
  induction l generalizing i with
  | nil => simp at h
  | cons hd tl ih =>
    cases i with
    | zero => simp at h; simp [h]
    | succ n =>
      simp only [List.getElem?_cons_succ] at h
      simp [List.set_cons_succ, ih n h]

theorem bucketsLe200_setAssoc (logs : List (String × List LogEntry)) (k : String)
    (b : List LogEntry) (hb : b.length ≤ 200) (h : ∀ kv ∈ logs, kv.2.length ≤ 200) :
    ∀ kv ∈ setAssoc logs k b, kv.2.length ≤ 200 := by
  intro kv hkv
  rcases mem_setAssoc _ _ _ kv hkv with heq | hm
  · subst heq; exact hb
  · exact h kv hm

theorem addDeviceLog_bucket_le (store : AppData) (did action details : String)
    (success : Bool) (category newId now : String) (h : bucketsLe200 store) :
    bucketsLe200 (addDeviceLog store did action details success category newId now).2 := by
  unfold addDeviceLog bucketsLe200
  simp only
  apply bucketsLe200_setAssoc
  · simp only [List.length_cons, List.length_take]
    omega
  · exact h

/-! ## Claims about the DataStore mutators -/

/-- C3 counterexample: `updateDevice` with a partial update that itself
contains an `id` field overwrites the device's id — the store whose only
device has id `a` ends up with a device of id `zzz` after
`updateDevice("a", {id: "zzz"})`, so the id assigned at creation does not
always survive `updateDevice`. -/
theorem updateDevice_id_overwrite_cex :
    storeS.devices.map Device.id = ["a"] ∧
    (updateDevice storeS "a" { id := some "zzz" } "t9").2.devices.map Device.id = ["zzz"] :=
  ⟨rfl, rfl⟩

/-- C3 (amended): `updateDevice(id, partial)` leaves every device's id
unchanged provided the partial update does not itself contain an `id`
field (the source spreads every supplied field, `id` included, onto the
device). -/
theorem updateDevice_preserves_ids (store : AppData) (deviceId : String)
    (updates : DevicePartial) (now : String) (h : updates.id = none) :
    (updateDevice store deviceId updates now).2.devices.map Device.id
      = store.devices.map Device.id := by
  unfold updateDevice
  cases hfind : store.devices.findIdx? (fun d => d.id = deviceId) with
  | none => rfl
  | some i =>
    simp only
    cases hget : store.devices[i]? with
    | none => simp [hget]
    | some d =>
      simp only [hget]
      have hid : (spreadDevice d updates now).id = d.id := by simp [spreadDevice, h]
      rw [List.map_set, hid]
      apply set_getElem_eq_self
      rw [List.getElem?_map, hget]
      rfl

/-- Witness for the amended C3 at a concrete store and partial update. -/
theorem updateDevice_preserves_ids_witness :
    ({ name := some "NewName" } : DevicePartial).id = none ∧
    (updateDevice storeS "a" { name := some "NewName" } "t9").2.devices.map Device.id
      = storeS.devices.map Device.id :=
  ⟨rfl, updateDevice_preserves_ids storeS "a" { name := some "NewName" } "t9" rfl⟩

/-- C6: the log-bucket cap.  (1) Any sequence of `addDeviceLog` calls keeps
every bucket at or below 200 entries.  (2) Adding to a bucket already
holding 200 entries (for a valid device id) yields the new entry first
followed by the previous bucket minus its oldest (last) entry. -/
theorem addDeviceLog_cap :
    (∀ (start : AppData) (calls : List LogCall), bucketsLe200 start →
        bucketsLe200 (runAddDeviceLogs start calls)) ∧
    (∀ (store : AppData) (did action details : String) (success : Bool)
        (category newId now : String), isBlankStr did = false →
        ∀ bucket, getAssoc store.logs did = some bucket → bucket.length = 200 →
        getAssoc (addDeviceLog store did action details success category newId now).2.logs did
          = some ({ id := newId, timestamp := now, action := action, details := details,
                    success := success, category := category, deviceId := none }
                  :: bucket.dropLast)) := by
  constructor
  · intro start calls
    induction calls generalizing start with
    | nil => intro h; exact h
    | cons c rest ih =>
      intro h
      exact ih _ (addDeviceLog_bucket_le start c.deviceId c.action c.details c.success
        c.category c.newId c.now h)
  · intro store did action details success category newId now htrim bucket hb hlen
    unfold addDeviceLog
    simp only [htrim, Bool.false_eq_true, if_false, hb, Option.getD_some]
    rw [getAssoc_setAssoc_self]
    congr 2
    rw [List.dropLast_eq_take, hlen]

/-- Witness for C6 at concrete inputs: a fresh store stays capped, and a
full 200-entry bucket drops its oldest entry. -/
theorem addDeviceLog_cap_witness :
    bucketsLe200 initialState ∧
    bucketsLe200 (runAddDeviceLogs initialState
      [{ deviceId := "a", action := "x", details := "y", success := true,
         category := "relay", newId := "n1", now := "t1" }]) ∧
    isBlankStr "a" = false ∧
    getAssoc storeFull.logs "a" = some (List.replicate 200 logA1) ∧
    getAssoc (addDeviceLog storeFull "a" "x" "y" true "relay" "n1" "t1").2.logs "a"
      = some ({ id := "n1", timestamp := "t1", action := "x", details := "y",
                success := true, category := "relay", deviceId := none }
              :: (List.replicate 200 logA1).dropLast) := by
  refine ⟨by decide, ?_, by decide, rfl, ?_⟩
  · exact addDeviceLog_cap.1 initialState _ (by decide)
  · exact addDeviceLog_cap.2 storeFull "a" "x" "y" true "relay" "n1" "t1" (by decide)
      (List.replicate 200 logA1) rfl (List.length_replicate 200 logA1)

theorem authorize_twice (store : AppData) (deviceId userId : String) :
    authorizeUserForDevice (authorizeUserForDevice store deviceId userId).2 deviceId userId
      = (false, (authorizeUserForDevice store deviceId userId).2) := by
  unfold authorizeUserForDevice
  cases hfind : store.devices.find? (fun d => d.id = deviceId) with
  | none => simp [hfind]
  | some d =>
    by_cases hmem : userId ∈ d.authorizedUsers
    · simp [hfind, hmem]
    · simp only [hfind, if_neg hmem]
      have hf2 : List.find? (fun d => decide (d.id = deviceId))
          (updateFirst (fun d => decide (d.id = deviceId))
            (fun d => { d with authorizedUsers := d.authorizedUsers ++ [userId] })
            store.devices)
          = some { d with authorizedUsers := d.authorizedUsers ++ [userId] } := by
        rw [find?_updateFirst (fun d => decide (d.id = deviceId))
          (fun d => { d with authorizedUsers := d.authorizedUsers ++ [userId] })
          store.devices (fun x => rfl), hfind]
        rfl
      simp [hf2]

/-- C7: authorizing the same user twice for a device present in the store
changes membership exactly as authorizing once, and the second call
reports `false` (no state change). -/
theorem authorizeUserForDevice_idempotent (store : AppData) (d : Device) (userId : String)
    (hd : d ∈ store.devices) :
    authorizeUserForDevice (authorizeUserForDevice store d.id userId).2 d.id userId
      = (false, (authorizeUserForDevice store d.id userId).2) :=
  authorize_twice store d.id userId

/-- Witness for C7 at a concrete store, device and user id. -/
theorem authorizeUserForDevice_idempotent_witness :
    devA ∈ storeS.devices ∧
    authorizeUserForDevice (authorizeUserForDevice storeS devA.id "u9").2 devA.id "u9"
      = (false, (authorizeUserForDevice storeS devA.id "u9").2) :=
  ⟨by decide, authorizeUserForDevice_idempotent storeS devA "u9" (by decide)⟩

/-- C8: `deleteDevice` on a present device (with the well-typed invariants
that its id is a nonempty string and the log record has unique keys)
returns `true`, removes every device with that id, deletes the log bucket,
and reassigns `activeDeviceId` to the first remaining device's id (or
none) when the deleted device was active; on an id not present it returns
`false` and leaves the store unchanged. -/
theorem deleteDevice_spec :
    (∀ (store : AppData) (D : Device), D ∈ store.devices → D.id ≠ "" →
        (store.logs.map Prod.fst).Nodup →
        (deleteDevice store D.id).1 = true ∧
        (∀ d ∈ (deleteDevice store D.id).2.devices, d.id ≠ D.id) ∧
        getAssoc (deleteDevice store D.id).2.logs D.id = none ∧
        (store.globalSettings.activeDeviceId = some D.id →
          (deleteDevice store D.id).2.globalSettings.activeDeviceId
            = ((deleteDevice store D.id).2.devices.head?).map Device.id)) ∧
    (∀ (store : AppData) (deviceId : String), (∀ d ∈ store.devices, d.id ≠ deviceId) →
        deleteDevice store deviceId = (false, store)) := by
  constructor
  · intro store D hD hid hnodup
    unfold deleteDevice
    rw [if_neg hid]
    cases hfind : store.devices.find? (fun d => d.id = D.id) with
    | none =>
      exfalso
      have := List.find?_eq_none.mp hfind D hD
      simp at this
    | some d0 =>
      simp only
      refine ⟨?_, ?_, ?_, ?_⟩
      · have hlt : (store.devices.filter (fun d => d.id ≠ D.id)).length
            < store.devices.length :=
          length_filter_lt _ _ D hD (by simp)
        simp only [decide_eq_true_eq]
        omega
      · intro d hdmem
        exact of_decide_eq_true (List.mem_filter.mp hdmem).2
      · exact getAssoc_eraseAssoc_self store.logs D.id hnodup
      · intro hactive
        simp [hactive]
  · intro store deviceId h
    unfold deleteDevice
    by_cases hid : deviceId = ""
    · simp [hid]
    · rw [if_neg hid]
      have hfind : store.devices.find? (fun d => d.id = deviceId) = none :=
        List.find?_eq_none.mpr (fun a ha => by simpa using h a ha)
      rw [hfind]

/-- Witness for C8 at a concrete store: deleting the only (active) device
succeeds and resets the active id; deleting a missing id fails. -/
theorem deleteDevice_spec_witness :
    (devA ∈ storeS.devices ∧ devA.id ≠ "" ∧ (storeS.logs.map Prod.fst).Nodup ∧
      (deleteDevice storeS devA.id).1 = true ∧
      getAssoc (deleteDevice storeS devA.id).2.logs devA.id = none) ∧
    ((∀ d ∈ storeS.devices, d.id ≠ "zzz") ∧ deleteDevice storeS "zzz" = (false, storeS)) := by
  refine ⟨⟨by decide, by decide, by decide, ?_, ?_⟩, ⟨by decide, ?_⟩⟩
  · exact (deleteDevice_spec.1 storeS devA (by decide) (by decide) (by decide)).1
  · exact (deleteDevice_spec.1 storeS devA (by decide) (by decide) (by decide)).2.2.1
  · exact deleteDevice_spec.2 storeS "zzz" (by decide)

/-- C10: `formatSMSCommand` yields a command string exactly for the eight
handled command types; every other command type — including
`CHANGE_PASSWORD`, which the password-change screen passes — hits the
`default` branch whose `command` identifier is unbound and faults
(modelled as `none`) instead of returning a raw-command fallback. -/
theorem formatSMSCommand_domain :
    (∀ (password : String) (options : SMSOptions) (t : String), t ∈ handledCommandTypes →
        (formatSMSCommand password t options).isSome = true) ∧
    (∀ (password : String) (options : SMSOptions) (t : String), t ∉ handledCommandTypes →
        formatSMSCommand password t options = none) ∧
    (∀ (password : String) (options : SMSOptions),
        formatSMSCommand password "CHANGE_PASSWORD" options = none) := by
  refine ⟨?_, ?_, ?_⟩
  · intro p o t ht
    simp only [handledCommandTypes, List.mem_cons, List.not_mem_nil, or_false] at ht
    rcases ht with rfl | rfl | rfl | rfl | rfl | rfl | rfl | rfl <;> rfl
  · intro p o t ht
    simp only [handledCommandTypes, List.mem_cons, List.not_mem_nil, or_false,
      not_or] at ht
    unfold formatSMSCommand
    split <;> simp_all
  · intro p o
    rfl

/-- Witness for C10: the handled type `OPEN` produces a command and the
unhandled `CHANGE_PASSWORD` (and arbitrary strings) fault. -/
theorem formatSMSCommand_domain_witness :
    ("OPEN" ∈ handledCommandTypes ∧
      (formatSMSCommand "1234" "OPEN" {}).isSome = true) ∧
    ("CHANGE_PASSWORD" ∉ handledCommandTypes ∧
      formatSMSCommand "1234" "CHANGE_PASSWORD" {} = none) :=
  ⟨⟨by decide, formatSMSCommand_domain.1 "1234" {} "OPEN" (by decide)⟩,
   ⟨by decide, formatSMSCommand_domain.2.1 "1234" {} "CHANGE_PASSWORD" (by decide)⟩⟩

/-! ## C9 infrastructure: reasoning about `includes` over command strings -/

theorem containsSeq_infix_iff (pat l : List Char) : containsSeq pat l = true ↔ pat <:+: l := by
  induction l with
  | nil =>
    simp only [containsSeq, List.isEmpty_iff]
    constructor
    · intro h; simp [h]
    · intro h; simpa using h.sublist.length_le
  | cons c cs ih =>
    simp only [containsSeq, Bool.or_eq_true, List.isPrefixOf_iff_prefix, ih,
      List.infix_cons_iff]

theorem not_containsSeq_of_missing {pat l : List Char} {c : Char} (hc : c ∈ pat)
    (h : c ∉ l) : containsSeq pat l = false := by
  by_cases hcs : containsSeq pat l
  · exact absurd (((containsSeq_infix_iff pat l).mp hcs).subset hc) h
  · simpa using hcs

theorem not_containsSeq_of_count (c : Char) {pat l : List Char}
    (h : List.count c l < List.count c pat) : containsSeq pat l = false := by
  by_cases hcs : containsSeq pat l
  · have := (((containsSeq_infix_iff pat l).mp hcs).sublist).count_le c
    omega
  · simpa using hcs

theorem containsSeq_of_parts (pat pre post : List Char) :
    containsSeq pat (pre ++ pat ++ post) = true :=
  (containsSeq_infix_iff _ _).mpr ⟨pre, post, by simp⟩

theorem prefix_append_split {α : Type} {p l r : List α} (h : p <+: l ++ r) :
    p <+: l ∨ ∃ p₂, p = l ++ p₂ ∧ p₂ <+: r := by
  induction l generalizing p with
  | nil => exact Or.inr ⟨p, rfl, by simpa using h⟩
  | cons a l ih =>
    cases p with
    | nil => exact Or.inl (List.nil_prefix)
    | cons b q =>
      rw [List.cons_append, List.cons_prefix_cons] at h
      obtain ⟨rfl, hq⟩ := h
      rcases ih hq with h' | ⟨p₂, rfl, hp₂⟩
      · exact Or.inl (List.cons_prefix_cons.mpr ⟨rfl, h'⟩)
      · exact Or.inr ⟨p₂, by simp, hp₂⟩

theorem infix_append_split {α : Type} {p l r : List α} (h : p <:+: l ++ r) :
    p <:+: l ∨ p <:+: r ∨
      ∃ p₁ p₂, p = p₁ ++ p₂ ∧ p₁ ≠ [] ∧ p₂ ≠ [] ∧ p₁ <:+ l ∧ p₂ <+: r := by
  induction l with
  | nil => exact Or.inr (Or.inl (by simpa using h))
  | cons a l ih =>
    rw [List.cons_append] at h
    rcases List.infix_cons_iff.mp h with hpre | hinf
    · cases p with
      | nil => exact Or.inl (List.nil_infix)
      | cons b q =>
        rcases List.cons_prefix_cons.mp hpre with ⟨rfl, hq⟩
        rcases prefix_append_split hq with h' | ⟨p₂, rfl, hp₂⟩
        · exact Or.inl (List.cons_prefix_cons.mpr ⟨rfl, h'⟩).isInfix
        · by_cases hp2 : p₂ = []
          · subst hp2
            exact Or.inl (by simpa using (List.prefix_refl (b :: l)).isInfix)
          · refine Or.inr (Or.inr ⟨b :: l, p₂, by simp, by simp, hp2, ?_, hp₂⟩)
            exact List.suffix_refl (b :: l)
    · rcases ih hinf with h' | h' | ⟨p₁, p₂, rfl, h1, h2, hsuf, hpre'⟩
      · exact Or.inl (h'.trans (List.infix_cons_iff.mpr (Or.inr (List.infix_refl l))))
      · exact Or.inr (Or.inl h')
      · exact Or.inr (Or.inr ⟨p₁, p₂, rfl, h1, h2,
          hsuf.trans ((List.suffix_cons a l)), hpre'⟩)

theorem pair_infix_append {a b : Char} {x y : List Char} (h : [a, b] <:+: x ++ y) :
    [a, b] <:+: x ∨ [a, b] <:+: y ∨ (x.getLast? = some a ∧ y.head? = some b) := by
  rcases infix_append_split h with h' | h' | ⟨p₁, p₂, heq, h1, h2, hsuf, hpre⟩
  · exact Or.inl h'
  · exact Or.inr (Or.inl h')
  · have hp : p₁ = [a] ∧ p₂ = [b] := by
      cases p₁ with
      | nil => exact absurd rfl h1
      | cons c q =>
        cases q with
        | nil =>
          simp only [List.cons_append, List.nil_append, List.cons.injEq] at heq
          exact ⟨by simp [heq.1], heq.2.symm⟩
        | cons d t =>
          exfalso
          cases p₂ with
          | nil => exact h2 rfl
          | cons e u =>
            have hlen : ([a, b]).length = (c :: d :: t ++ e :: u).length := by rw [heq]
            simp only [List.length_cons, List.length_append, List.length_nil] at hlen
            omega
    obtain ⟨rfl, rfl⟩ := hp
    refine Or.inr (Or.inr ⟨?_, ?_⟩)
    · obtain ⟨u, rfl⟩ := hsuf
      simp
    · obtain ⟨t, rfl⟩ := hpre
      rfl

theorem mem_of_getLast?_eq {α : Type} {l : List α} {a : α} (h : l.getLast? = some a) :
    a ∈ l := by
  induction l with
  | nil => simp at h
  | cons c t ih =>
    cases t with
    | nil => simp_all
    | cons d u =>
      rw [List.getLast?_cons_cons] at h
      exact List.mem_cons_of_mem c (ih h)

theorem allDigits_getLast_not_hash {x : List Char} (hx : ∀ c ∈ x, c.isDigit)
    (h : x.getLast? = some '#') : False := by
  have := hx '#' (mem_of_getLast?_eq h)
  simp [Char.isDigit] at this

/-- `##` does not occur in `x ++ y` when `x` is all digits, unless in `y`. -/
theorem hashhash_skip_digits {x y : List Char} (hx : ∀ c ∈ x, c.isDigit)
    (h : containsSeq ['#', '#'] (x ++ y) = true) : containsSeq ['#', '#'] y = true := by
  have h' := (containsSeq_infix_iff _ _).mp h
  rcases pair_infix_append h' with h2 | h2 | ⟨hl, _⟩
  · exfalso
    have : ('#' : Char) ∈ x := h2.subset (by simp)
    have := hx '#' this
    simp [Char.isDigit] at this
  · exact (containsSeq_infix_iff _ _).mpr h2
  · exact absurd hl (by intro hc; exact allDigits_getLast_not_hash hx hc)

theorem hashhash_skip_char {c : Char} {y : List Char} (hc : c ≠ '#')
    (h : containsSeq ['#', '#'] (c :: y) = true) : containsSeq ['#', '#'] y = true := by
  unfold containsSeq at h
  rcases Bool.or_eq_true_iff.mp h with h' | h'
  · exfalso
    have := (List.isPrefixOf_iff_prefix.mp h')
    rcases List.cons_prefix_cons.mp this with ⟨heq, _⟩
    exact hc heq.symm
  · exact h'

theorem hashhash_skip_hash {y : List Char} (hy : ∀ b, y.head? = some b → b ≠ '#')
    (h : containsSeq ['#', '#'] ('#' :: y) = true) : containsSeq ['#', '#'] y = true := by
  unfold containsSeq at h
  rcases Bool.or_eq_true_iff.mp h with h' | h'
  · exfalso
    have := (List.isPrefixOf_iff_prefix.mp h')
    rcases List.cons_prefix_cons.mp this with ⟨_, htl⟩
    cases y with
    | nil => simp at htl
    | cons b t =>
      rcases List.cons_prefix_cons.mp htl with ⟨heq, _⟩
      exact hy b rfl heq.symm
  · exact h'

theorem isInfix_length_le {α : Type} {l₁ l₂ : List α} (h : l₁ <:+: l₂) :
    l₁.length ≤ l₂.length := h.sublist.length_le

set_option maxRecDepth 4000 in
theorem toString_lt_1000_short : ∀ n : Nat, n < 1000 → (toString n).toList.length ≤ 3 := by
  decide

theorem toNat_bounds_of_isDigit {c : Char} (h : c.isDigit = true) :
    48 ≤ c.toNat ∧ c.toNat ≤ 57 := by
  simp only [Char.isDigit, decide_eq_true_eq, Bool.and_eq_true, Char.le_def] at h
  exact ⟨UInt32.le_toNat_of_le (by norm_num [UInt32.size]) h.1,
         UInt32.toNat_le_of_le (by norm_num [UInt32.size]) h.2⟩

theorem ne_of_isDigit_of_not {c d : Char} (hc : c.isDigit = true) (hd : d.isDigit = false) :
    c ≠ d := by
  intro h; subst h; rw [hc] at hd; exact absurd hd (by simp)

theorem char_not_in_pop {l : List Char} {extra : List Char} {c : Char}
    (hpop : ∀ x ∈ l, x.isDigit = true ∨ x ∈ extra)
    (hc : c.isDigit = false) (hce : c ∉ extra) : c ∉ l := by
  intro hm
  rcases hpop c hm with h | h
  · rw [h] at hc; exact absurd hc (by simp)
  · exact hce h

theorem pop_append {l₁ l₂ extra : List Char}
    (h₁ : ∀ x ∈ l₁, x.isDigit = true ∨ x ∈ extra)
    (h₂ : ∀ x ∈ l₂, x.isDigit = true ∨ x ∈ extra) :
    ∀ x ∈ l₁ ++ l₂, x.isDigit = true ∨ x ∈ extra := by
  intro x hx
  rcases List.mem_append.mp hx with h | h
  · exact h₁ x h
  · exact h₂ x h

theorem pop_cons {c : Char} {l extra : List Char} (hc : c.isDigit = true ∨ c ∈ extra)
    (h : ∀ x ∈ l, x.isDigit = true ∨ x ∈ extra) :
    ∀ x ∈ c :: l, x.isDigit = true ∨ x ∈ extra := by
  intro x hx
  rcases List.mem_cons.mp hx with h' | h'
  · subst h'; exact hc
  · exact h x h'

theorem pop_digits {l extra : List Char} (h : ∀ c ∈ l, c.isDigit = true) :
    ∀ x ∈ l, x.isDigit = true ∨ x ∈ extra :=
  fun x hx => Or.inl (h x hx)

theorem takeWhile_append_all (p : Char → Bool) (x y : List Char)
    (hx : ∀ a ∈ x, p a = true) : (x ++ y).takeWhile p = x ++ y.takeWhile p := by
  induction x with
  | nil => simp
  | cons a t ih =>
    simp only [List.cons_append]
    rw [List.takeWhile_cons]
    simp [hx a (by simp), ih (fun b hb => hx b (by simp [hb]))]

theorem dropWhile_append_all (p : Char → Bool) (x y : List Char)
    (hx : ∀ a ∈ x, p a = true) : (x ++ y).dropWhile p = y.dropWhile p := by
  induction x with
  | nil => simp
  | cons a t ih =>
    simp only [List.cons_append]
    rw [List.dropWhile_cons]
    simp [hx a (by simp), ih (fun b hb => hx b (by simp [hb]))]

theorem pwd_head_exists {pwd : List Char} (hlen : pwd.length = 4) :
    ∃ c q, pwd = c :: q ∧ c ∈ pwd := by
  cases pwd with
  | nil => simp at hlen
  | cons c q => exact ⟨c, q, rfl, by simp⟩

/-- A four-digit password does not occur in digit-free text followed by at
most three trailing characters. -/
theorem pwd_not_in_text_digits {pwd txt ser : List Char}
    (hlen : pwd.length = 4) (hdig : ∀ c ∈ pwd, c.isDigit = true)
    (htxt : ∀ c ∈ txt, c.isDigit = false) (hser : ser.length ≤ 3) :
    containsSeq pwd (txt ++ ser) = false := by
  cases hcs : containsSeq pwd (txt ++ ser)
  · rfl
  exfalso
  have h := (containsSeq_infix_iff _ _).mp hcs
  rcases infix_append_split h with h' | h' | ⟨p₁, p₂, heq, h1, h2, hsuf, hpre⟩
  · obtain ⟨c, q, hcq, hcm⟩ := pwd_head_exists hlen
    have hmem : c ∈ txt := h'.subset (by rw [hcq]; simp)
    exact absurd (htxt c hmem) (by simp [hdig c hcm])
  · have := isInfix_length_le h'
    omega
  · obtain ⟨c, q, rfl⟩ : ∃ c q, p₁ = c :: q := by
      cases p₁ with
      | nil => exact absurd rfl h1
      | cons c q => exact ⟨c, q, rfl⟩
    have hcd : c.isDigit = true := hdig c (by rw [heq]; simp)
    have hcm : c ∈ txt := hsuf.subset (by simp)
    exact absurd (htxt c hcm) (by simp [hcd])

/-- A four-digit password does not occur in
`text₁ ++ mid ++ text₂ ++ trailer` when the texts are digit-free, the
password does not occur inside `mid`, and the trailer has at most three
characters. -/
theorem pwd_not_in_text_mid {pwd t1 mid t2 ser : List Char}
    (hlen : pwd.length = 4) (hdig : ∀ c ∈ pwd, c.isDigit = true)
    (ht1 : ∀ c ∈ t1, c.isDigit = false) (ht2 : ∀ c ∈ t2, c.isDigit = false)
    (ht2ne : t2 ≠ []) (hmid : containsSeq pwd mid = false) (hser : ser.length ≤ 3) :
    containsSeq pwd (t1 ++ (mid ++ (t2 ++ ser))) = false := by
  cases hcs : containsSeq pwd (t1 ++ (mid ++ (t2 ++ ser)))
  · rfl
  exfalso
  have h := (containsSeq_infix_iff _ _).mp hcs
  rcases infix_append_split h with h' | h' | ⟨p₁, p₂, heq, h1, h2, hsuf, hpre⟩
  · obtain ⟨c, q, hcq, hcm⟩ := pwd_head_exists hlen
    have hmem : c ∈ t1 := h'.subset (by rw [hcq]; simp)
    exact absurd (ht1 c hmem) (by simp [hdig c hcm])
  · rcases infix_append_split h' with h2' | h2' | ⟨p₁, p₂, heq, h1, hh2, hsuf, hpre⟩
    · rw [(containsSeq_infix_iff _ _).mpr h2'] at hmid
      exact absurd hmid (by simp)
    · have hfalse := pwd_not_in_text_digits hlen hdig ht2 hser
      have htrue := (containsSeq_infix_iff pwd (t2 ++ ser)).mpr h2'
      rw [hfalse] at htrue
      exact absurd htrue (by simp)
    · obtain ⟨b, q, rfl⟩ : ∃ b q, p₂ = b :: q := by
        cases p₂ with
        | nil => exact absurd rfl hh2
        | cons b q => exact ⟨b, q, rfl⟩
      obtain ⟨c2, t2', rfl⟩ : ∃ c2 t2', t2 = c2 :: t2' := by
        cases t2 with
        | nil => exact absurd rfl ht2ne
        | cons c2 t2' => exact ⟨c2, t2', rfl⟩
      have hpre' : b :: q <+: c2 :: (t2' ++ ser) := by
        simpa only [List.cons_append] using hpre
      obtain ⟨hbc, -⟩ := List.cons_prefix_cons.mp hpre'
      have hbd : b.isDigit = true := hdig b (by rw [heq]; simp)
      have hc2 : c2.isDigit = false := ht2 c2 (by simp)
      rw [hbc] at hbd
      rw [hbd] at hc2
      exact absurd hc2 (by simp)
  · obtain ⟨c, q, rfl⟩ : ∃ c q, p₁ = c :: q := by
      cases p₁ with
      | nil => exact absurd rfl h1
      | cons c q => exact ⟨c, q, rfl⟩
    have hcd : c.isDigit = true := hdig c (by rw [heq]; simp)
    have hcm : c ∈ t1 := hsuf.subset (by simp)
    exact absurd (ht1 c hcm) (by simp [hcd])

theorem toList_mk (l : List Char) : (String.mk l).toList = l := rfl

theorem pwd_not_in_digitfree {pwd l : List Char} (hlen : pwd.length = 4)
    (hdig : ∀ c ∈ pwd, c.isDigit = true) (hl : ∀ c ∈ l, c.isDigit = false) :
    containsSeq pwd l = false := by
  have := pwd_not_in_text_digits hlen hdig hl (by simp : ([] : List Char).length ≤ 3)
  simpa using this

theorem count_zero_of_digits {l : List Char} (h : ∀ c ∈ l, c.isDigit = true) {d : Char}
    (hd : d.isDigit = false) : List.count d l = 0 :=
  List.count_eq_zero.mpr (fun hm => absurd (h d hm) (by simp [hd]))

/-- The redaction conclusion for a branch: neither output string contains
the four-digit password. -/
def noPwd (pwd : List Char) (out : String × String) : Prop :=
  strIncludes out.1 (String.mk pwd) = false ∧ strIncludes out.2 (String.mk pwd) = false

theorem noPwd_of_digitfree {pwd : List Char} (hlen : pwd.length = 4)
    (hdig : ∀ c ∈ pwd, c.isDigit = true) (a d : String)
    (ha : ∀ c ∈ a.toList, c.isDigit = false) (hd : ∀ c ∈ d.toList, c.isDigit = false) :
    noPwd pwd (a, d) :=
  ⟨pwd_not_in_digitfree hlen hdig ha, pwd_not_in_digitfree hlen hdig hd⟩

theorem sms_open (pwd : List Char) (hlen : pwd.length = 4)
    (hdig : ∀ c ∈ pwd, c.isDigit = true) :
    smsActionDetails (String.mk (pwd ++ ['C', 'C']))
        = ("Gate Open", "Opened gate/activated relay (ON)") ∧
      noPwd pwd (smsActionDetails (String.mk (pwd ++ ['C', 'C']))) := by
  have hCC : containsSeq ['C', 'C'] (pwd ++ ['C', 'C']) = true := by
    simpa using containsSeq_of_parts ['C', 'C'] pwd []
  have heq : smsActionDetails (String.mk (pwd ++ ['C', 'C']))
      = ("Gate Open", "Opened gate/activated relay (ON)") := by
    unfold smsActionDetails
    simp only [strIncludes, toList_mk, show ("CC" : String).toList = ['C', 'C'] from rfl, hCC,
      if_true]
  refine ⟨heq, ?_⟩
  rw [heq]
  exact noPwd_of_digitfree hlen hdig _ _ (by decide) (by decide)

theorem sms_close (pwd : List Char) (hlen : pwd.length = 4)
    (hdig : ∀ c ∈ pwd, c.isDigit = true) :
    smsActionDetails (String.mk (pwd ++ ['D', 'D']))
        = ("Gate Close", "Closed gate/deactivated relay (OFF)") ∧
      noPwd pwd (smsActionDetails (String.mk (pwd ++ ['D', 'D']))) := by
  have hpop : ∀ x ∈ pwd ++ ['D', 'D'], x.isDigit = true ∨ x ∈ ['D'] :=
    pop_append (pop_digits hdig) (by decide)
  have hCC : containsSeq ['C', 'C'] (pwd ++ ['D', 'D']) = false :=
    not_containsSeq_of_missing (by decide : 'C' ∈ ['C', 'C'])
      (char_not_in_pop hpop (by decide) (by decide))
  have hDD : containsSeq ['D', 'D'] (pwd ++ ['D', 'D']) = true := by
    simpa using containsSeq_of_parts ['D', 'D'] pwd []
  have heq : smsActionDetails (String.mk (pwd ++ ['D', 'D']))
      = ("Gate Close", "Closed gate/deactivated relay (OFF)") := by
    unfold smsActionDetails
    simp only [strIncludes, toList_mk, show ("CC" : String).toList = ['C', 'C'] from rfl,
      show ("DD" : String).toList = ['D', 'D'] from rfl, hCC, hDD]
    simp
  refine ⟨heq, ?_⟩
  rw [heq]
  exact noPwd_of_digitfree hlen hdig _ _ (by decide) (by decide)

theorem sms_status (pwd : List Char) (hlen : pwd.length = 4)
    (hdig : ∀ c ∈ pwd, c.isDigit = true) :
    smsActionDetails (String.mk (pwd ++ ['E', 'E']))
        = ("Status Check", "Requested device status") ∧
      noPwd pwd (smsActionDetails (String.mk (pwd ++ ['E', 'E']))) := by
  have hpop : ∀ x ∈ pwd ++ ['E', 'E'], x.isDigit = true ∨ x ∈ ['E'] :=
    pop_append (pop_digits hdig) (by decide)
  have hCC : containsSeq ['C', 'C'] (pwd ++ ['E', 'E']) = false :=
    not_containsSeq_of_missing (by decide : 'C' ∈ ['C', 'C'])
      (char_not_in_pop hpop (by decide) (by decide))
  have hDD : containsSeq ['D', 'D'] (pwd ++ ['E', 'E']) = false :=
    not_containsSeq_of_missing (by decide : 'D' ∈ ['D', 'D'])
      (char_not_in_pop hpop (by decide) (by decide))
  have hP : containsSeq ['P'] (pwd ++ ['E', 'E']) = false :=
    not_containsSeq_of_missing (by decide : 'P' ∈ ['P'])
      (char_not_in_pop hpop (by decide) (by decide))
  have hEE : containsSeq ['E', 'E'] (pwd ++ ['E', 'E']) = true := by
    simpa using containsSeq_of_parts ['E', 'E'] pwd []
  have heq : smsActionDetails (String.mk (pwd ++ ['E', 'E']))
      = ("Status Check", "Requested device status") := by
    unfold smsActionDetails
    simp only [strIncludes, toList_mk, show ("CC" : String).toList = ['C', 'C'] from rfl,
      show ("DD" : String).toList = ['D', 'D'] from rfl,
      show ("P" : String).toList = ['P'] from rfl,
      show ("EE" : String).toList = ['E', 'E'] from rfl, hCC, hDD, hP, hEE]
    simp
  refine ⟨heq, ?_⟩
  rw [heq]
  exact noPwd_of_digitfree hlen hdig _ _ (by decide) (by decide)

theorem sms_tel (pwd num : List Char) (hlen : pwd.length = 4)
    (hdig : ∀ c ∈ pwd, c.isDigit = true) (hnum : ∀ c ∈ num, c.isDigit = true) :
    smsActionDetails (String.mk (pwd ++ 'T' :: 'E' :: 'L' :: (num ++ ['#'])))
        = ("Admin Registration", "Registered admin phone number") ∧
      noPwd pwd (smsActionDetails (String.mk (pwd ++ 'T' :: 'E' :: 'L' :: (num ++ ['#'])))) := by
  have hpop : ∀ x ∈ pwd ++ 'T' :: 'E' :: 'L' :: (num ++ ['#']),
      x.isDigit = true ∨ x ∈ ['T', 'E', 'L', '#'] :=
    pop_append (pop_digits hdig) (pop_cons (by decide) (pop_cons (by decide)
      (pop_cons (by decide) (pop_append (pop_digits hnum) (by decide)))))
  have hCC : containsSeq ['C', 'C'] _ = false :=
    not_containsSeq_of_missing (by decide : 'C' ∈ ['C', 'C'])
      (char_not_in_pop hpop (by decide) (by decide))
  have hDD : containsSeq ['D', 'D'] _ = false :=
    not_containsSeq_of_missing (by decide : 'D' ∈ ['D', 'D'])
      (char_not_in_pop hpop (by decide) (by decide))
  have hP : containsSeq ['P'] _ = false :=
    not_containsSeq_of_missing (by decide : 'P' ∈ ['P'])
      (char_not_in_pop hpop (by decide) (by decide))
  have hEE : containsSeq ['E', 'E'] (pwd ++ 'T' :: 'E' :: 'L' :: (num ++ ['#'])) = false := by
    apply not_containsSeq_of_count 'E'
    have h1 : List.count 'E' pwd = 0 := count_zero_of_digits hdig (by decide)
    have h2 : List.count 'E' num = 0 := count_zero_of_digits hnum (by decide)
    simp [List.count_append, List.count_cons, h1, h2]
  have hTEL : containsSeq ['T', 'E', 'L'] (pwd ++ 'T' :: 'E' :: 'L' :: (num ++ ['#'])) = true := by
    have := containsSeq_of_parts ['T', 'E', 'L'] pwd (num ++ ['#'])
    simpa using this
  have heq : smsActionDetails (String.mk (pwd ++ 'T' :: 'E' :: 'L' :: (num ++ ['#'])))
      = ("Admin Registration", "Registered admin phone number") := by
    unfold smsActionDetails
    simp only [strIncludes, toList_mk, show ("CC" : String).toList = ['C', 'C'] from rfl,
      show ("DD" : String).toList = ['D', 'D'] from rfl,
      show ("P" : String).toList = ['P'] from rfl,
      show ("EE" : String).toList = ['E', 'E'] from rfl,
      show ("TEL" : String).toList = ['T', 'E', 'L'] from rfl, hCC, hDD, hP, hEE, hTEL]
    simp
  refine ⟨heq, ?_⟩
  rw [heq]
  exact noPwd_of_digitfree hlen hdig _ _ (by decide) (by decide)

theorem sms_aut (pwd : List Char) (hlen : pwd.length = 4)
    (hdig : ∀ c ∈ pwd, c.isDigit = true) :
    smsActionDetails (String.mk (pwd ++ ['A', 'U', 'T', '#']))
        = ("Access Control", "Set to authorized users only") ∧
      noPwd pwd (smsActionDetails (String.mk (pwd ++ ['A', 'U', 'T', '#']))) := by
  have hpop : ∀ x ∈ pwd ++ ['A', 'U', 'T', '#'], x.isDigit = true ∨ x ∈ ['A', 'U', 'T', '#'] :=
    pop_append (pop_digits hdig) (by decide)
  have hCC : containsSeq ['C', 'C'] _ = false :=
    not_containsSeq_of_missing (by decide : 'C' ∈ ['C', 'C'])
      (char_not_in_pop hpop (by decide) (by decide))
  have hDD : containsSeq ['D', 'D'] _ = false :=
    not_containsSeq_of_missing (by decide : 'D' ∈ ['D', 'D'])
      (char_not_in_pop hpop (by decide) (by decide))
  have hP : containsSeq ['P'] _ = false :=
    not_containsSeq_of_missing (by decide : 'P' ∈ ['P'])
      (char_not_in_pop hpop (by decide) (by decide))
  have hEE : containsSeq ['E', 'E'] _ = false :=
    not_containsSeq_of_missing (by decide : 'E' ∈ ['E', 'E'])
      (char_not_in_pop hpop (by decide) (by decide))
  have hTEL : containsSeq ['T', 'E', 'L'] _ = false :=
    not_containsSeq_of_missing (by decide : 'E' ∈ ['T', 'E', 'L'])
      (char_not_in_pop hpop (by decide) (by decide))
  have hAUT : containsSeq ['A', 'U', 'T'] (pwd ++ ['A', 'U', 'T', '#']) = true := by
    have := containsSeq_of_parts ['A', 'U', 'T'] pwd ['#']
    simpa using this
  have heq : smsActionDetails (String.mk (pwd ++ ['A', 'U', 'T', '#']))
      = ("Access Control", "Set to authorized users only") := by
    unfold smsActionDetails
    simp only [strIncludes, toList_mk, show ("CC" : String).toList = ['C', 'C'] from rfl,
      show ("DD" : String).toList = ['D', 'D'] from rfl,
      show ("P" : String).toList = ['P'] from rfl,
      show ("EE" : String).toList = ['E', 'E'] from rfl,
      show ("TEL" : String).toList = ['T', 'E', 'L'] from rfl,
      show ("AUT" : String).toList = ['A', 'U', 'T'] from rfl, hCC, hDD, hP, hEE, hTEL, hAUT]
    simp
  refine ⟨heq, ?_⟩
  rw [heq]
  exact noPwd_of_digitfree hlen hdig _ _ (by decide) (by decide)

theorem sms_all (pwd : List Char) (hlen : pwd.length = 4)
    (hdig : ∀ c ∈ pwd, c.isDigit = true) :
    smsActionDetails (String.mk (pwd ++ ['A', 'L', 'L', '#']))
        = ("Access Control", "Set to allow all callers") ∧
      noPwd pwd (smsActionDetails (String.mk (pwd ++ ['A', 'L', 'L', '#']))) := by
  have hpop : ∀ x ∈ pwd ++ ['A', 'L', 'L', '#'], x.isDigit = true ∨ x ∈ ['A', 'L', '#'] :=
    pop_append (pop_digits hdig) (by decide)
  have hCC : containsSeq ['C', 'C'] _ = false :=
    not_containsSeq_of_missing (by decide : 'C' ∈ ['C', 'C'])
      (char_not_in_pop hpop (by decide) (by decide))
  have hDD : containsSeq ['D', 'D'] _ = false :=
    not_containsSeq_of_missing (by decide : 'D' ∈ ['D', 'D'])
      (char_not_in_pop hpop (by decide) (by decide))
  have hP : containsSeq ['P'] _ = false :=
    not_containsSeq_of_missing (by decide : 'P' ∈ ['P'])
      (char_not_in_pop hpop (by decide) (by decide))
  have hEE : containsSeq ['E', 'E'] _ = false :=
    not_containsSeq_of_missing (by decide : 'E' ∈ ['E', 'E'])
      (char_not_in_pop hpop (by decide) (by decide))
  have hTEL : containsSeq ['T', 'E', 'L'] _ = false :=
    not_containsSeq_of_missing (by decide : 'E' ∈ ['T', 'E', 'L'])
      (char_not_in_pop hpop (by decide) (by decide))
  have hAUT : containsSeq ['A', 'U', 'T'] _ = false :=
    not_containsSeq_of_missing (by decide : 'U' ∈ ['A', 'U', 'T'])
      (char_not_in_pop hpop (by decide) (by decide))
  have hALL : containsSeq ['A', 'L', 'L'] (pwd ++ ['A', 'L', 'L', '#']) = true := by
    have := containsSeq_of_parts ['A', 'L', 'L'] pwd ['#']
    simpa using this
  have heq : smsActionDetails (String.mk (pwd ++ ['A', 'L', 'L', '#']))
      = ("Access Control", "Set to allow all callers") := by
    unfold smsActionDetails
    simp only [strIncludes, toList_mk, show ("CC" : String).toList = ['C', 'C'] from rfl,
      show ("DD" : String).toList = ['D', 'D'] from rfl,
      show ("P" : String).toList = ['P'] from rfl,
      show ("EE" : String).toList = ['E', 'E'] from rfl,
      show ("TEL" : String).toList = ['T', 'E', 'L'] from rfl,
      show ("AUT" : String).toList = ['A', 'U', 'T'] from rfl,
      show ("ALL" : String).toList = ['A', 'L', 'L'] from rfl,
      hCC, hDD, hP, hEE, hTEL, hAUT, hALL]
    simp
  refine ⟨heq, ?_⟩
  rw [heq]
  exact noPwd_of_digitfree hlen hdig _ _ (by decide) (by decide)

theorem list_len4 {l : List Char} (h : l.length = 4) : ∃ a b c d, l = [a, b, c, d] := by
  cases l with
  | nil => simp at h
  | cons a t =>
    cases t with
    | nil => simp at h
    | cons b t =>
      cases t with
      | nil => simp at h
      | cons c t =>
        cases t with
        | nil => simp at h
        | cons d t =>
          cases t with
          | nil => exact ⟨a, b, c, d, rfl⟩
          | cons e t => simp at h

theorem list_len3 {l : List Char} (h : l.length = 3) : ∃ a b c, l = [a, b, c] := by
  cases l with
  | nil => simp at h
  | cons a t =>
    cases t with
    | nil => simp at h
    | cons b t =>
      cases t with
      | nil => simp at h
      | cons c t =>
        cases t with
        | nil => exact ⟨a, b, c, rfl⟩
        | cons d t => simp at h

theorem not_containsSeq_of_longer {pat l : List Char} (h : l.length < pat.length) :
    containsSeq pat l = false := by
  cases hcs : containsSeq pat l
  · rfl
  have := isInfix_length_le ((containsSeq_infix_iff _ _).mp hcs)
  omega

theorem toList_append (a b : String) : (a ++ b).toList = a.toList ++ b.toList := rfl

theorem sms_remove (pwd ser : List Char) (hlen : pwd.length = 4)
    (hdig : ∀ c ∈ pwd, c.isDigit = true) (hslen : ser.length = 3)
    (hsdig : ∀ c ∈ ser, c.isDigit = true) :
    smsActionDetails (String.mk (pwd ++ 'A' :: (ser ++ ['#', '#'])))
        = ("User Management", "Removed authorized user from position " ++ String.mk ser) ∧
      noPwd pwd (smsActionDetails (String.mk (pwd ++ 'A' :: (ser ++ ['#', '#'])))) := by
  have hpop : ∀ x ∈ pwd ++ 'A' :: (ser ++ ['#', '#']), x.isDigit = true ∨ x ∈ ['A', '#'] :=
    pop_append (pop_digits hdig) (pop_cons (by decide)
      (pop_append (pop_digits hsdig) (by decide)))
  have hCC : containsSeq ['C', 'C'] _ = false :=
    not_containsSeq_of_missing (by decide : 'C' ∈ ['C', 'C'])
      (char_not_in_pop hpop (by decide) (by decide))
  have hDD : containsSeq ['D', 'D'] _ = false :=
    not_containsSeq_of_missing (by decide : 'D' ∈ ['D', 'D'])
      (char_not_in_pop hpop (by decide) (by decide))
  have hP : containsSeq ['P'] _ = false :=
    not_containsSeq_of_missing (by decide : 'P' ∈ ['P'])
      (char_not_in_pop hpop (by decide) (by decide))
  have hEE : containsSeq ['E', 'E'] _ = false :=
    not_containsSeq_of_missing (by decide : 'E' ∈ ['E', 'E'])
      (char_not_in_pop hpop (by decide) (by decide))
  have hTEL : containsSeq ['T', 'E', 'L'] _ = false :=
    not_containsSeq_of_missing (by decide : 'T' ∈ ['T', 'E', 'L'])
      (char_not_in_pop hpop (by decide) (by decide))
  have hALL : containsSeq ['A', 'L', 'L'] _ = false :=
    not_containsSeq_of_missing (by decide : 'L' ∈ ['A', 'L', 'L'])
      (char_not_in_pop hpop (by decide) (by decide))
  have hAUT : containsSeq ['A', 'U', 'T'] _ = false :=
    not_containsSeq_of_missing (by decide : 'U' ∈ ['A', 'U', 'T'])
      (char_not_in_pop hpop (by decide) (by decide))
  have hA : containsSeq ['A'] (pwd ++ 'A' :: (ser ++ ['#', '#'])) = true := by
    simpa using containsSeq_of_parts ['A'] pwd (ser ++ ['#', '#'])
  have hHH : containsSeq ['#', '#'] (pwd ++ 'A' :: (ser ++ ['#', '#'])) = true := by
    have := containsSeq_of_parts ['#', '#'] (pwd ++ 'A' :: ser) []
    simpa using this
  obtain ⟨p1, p2, p3, p4, rfl⟩ := list_len4 hlen
  obtain ⟨s1, s2, s3, rfl⟩ := list_len3 hslen
  have hmatch : scanMatch matchRemoveAt
      ([p1, p2, p3, p4] ++ 'A' :: ([s1, s2, s3] ++ ['#', '#'])) = some [s1, s2, s3] := by
    show scanMatch matchRemoveAt
      (p1 :: p2 :: p3 :: p4 :: 'A' :: s1 :: s2 :: s3 :: '#' :: '#' :: []) = some [s1, s2, s3]
    unfold scanMatch
    rw [show matchRemoveAt (p1 :: p2 :: p3 :: p4 :: 'A' :: s1 :: s2 :: s3 :: '#' :: '#' :: [])
        = some [s1, s2, s3] from by
      unfold matchRemoveAt
      simp [hdig p1 (by simp), hdig p2 (by simp), hdig p3 (by simp), hdig p4 (by simp),
        hsdig s1 (by simp), hsdig s2 (by simp), hsdig s3 (by simp)]]
  have heq : smsActionDetails (String.mk ([p1, p2, p3, p4] ++ 'A' :: ([s1, s2, s3] ++ ['#', '#'])))
      = ("User Management", "Removed authorized user from position " ++ String.mk [s1, s2, s3]) := by
    unfold smsActionDetails
    simp only [strIncludes, toList_mk, show ("CC" : String).toList = ['C', 'C'] from rfl,
      show ("DD" : String).toList = ['D', 'D'] from rfl,
      show ("P" : String).toList = ['P'] from rfl,
      show ("EE" : String).toList = ['E', 'E'] from rfl,
      show ("TEL" : String).toList = ['T', 'E', 'L'] from rfl,
      show ("AUT" : String).toList = ['A', 'U', 'T'] from rfl,
      show ("ALL" : String).toList = ['A', 'L', 'L'] from rfl,
      show ("A" : String).toList = ['A'] from rfl,
      show ("##" : String).toList = ['#', '#'] from rfl,
      hCC, hDD, hP, hEE, hTEL, hAUT, hALL, hA, hHH, hmatch]
    simp
  refine ⟨heq, ?_⟩
  rw [heq]
  constructor
  · show containsSeq [p1, p2, p3, p4] ("User Management" : String).toList = false
    exact pwd_not_in_digitfree hlen hdig (by decide)
  · show containsSeq [p1, p2, p3, p4]
      (("Removed authorized user from position " : String) ++ String.mk [s1, s2, s3]).toList = false
    rw [toList_append, toList_mk]
    exact pwd_not_in_text_digits hlen hdig (by decide) (by simp)

theorem digitsToNat3_le {a b c : Char} (ha : a.isDigit = true) (hb : b.isDigit = true)
    (hc : c.isDigit = true) : digitsToNat [a, b, c] ≤ 999 := by
  obtain ⟨ha1, ha2⟩ := toNat_bounds_of_isDigit ha
  obtain ⟨hb1, hb2⟩ := toNat_bounds_of_isDigit hb
  obtain ⟨hc1, hc2⟩ := toNat_bounds_of_isDigit hc
  simp only [digitsToNat, List.foldl]
  omega

theorem sms_got (pwd sec : List Char) (hlen : pwd.length = 4)
    (hdig : ∀ c ∈ pwd, c.isDigit = true) (hglen : sec.length = 3)
    (hgdig : ∀ c ∈ sec, c.isDigit = true) :
    smsActionDetails (String.mk (pwd ++ 'G' :: 'O' :: 'T' :: (sec ++ ['#'])))
        = ("Relay Timing",
           if sec = ['0', '0', '0'] then "Set relay to momentary mode (pulse)"
           else if sec = ['9', '9', '9'] then "Set relay to toggle mode (stays ON until next call)"
           else "Set relay to close for " ++ toString (digitsToNat sec) ++ " seconds") ∧
      noPwd pwd (smsActionDetails (String.mk (pwd ++ 'G' :: 'O' :: 'T' :: (sec ++ ['#'])))) := by
  have hpop : ∀ x ∈ pwd ++ 'G' :: 'O' :: 'T' :: (sec ++ ['#']),
      x.isDigit = true ∨ x ∈ ['G', 'O', 'T', '#'] :=
    pop_append (pop_digits hdig) (pop_cons (by decide) (pop_cons (by decide)
      (pop_cons (by decide) (pop_append (pop_digits hgdig) (by decide)))))
  have hCC : containsSeq ['C', 'C'] _ = false :=
    not_containsSeq_of_missing (by decide : 'C' ∈ ['C', 'C'])
      (char_not_in_pop hpop (by decide) (by decide))
  have hDD : containsSeq ['D', 'D'] _ = false :=
    not_containsSeq_of_missing (by decide : 'D' ∈ ['D', 'D'])
      (char_not_in_pop hpop (by decide) (by decide))
  have hP : containsSeq ['P'] _ = false :=
    not_containsSeq_of_missing (by decide : 'P' ∈ ['P'])
      (char_not_in_pop hpop (by decide) (by decide))
  have hEE : containsSeq ['E', 'E'] _ = false :=
    not_containsSeq_of_missing (by decide : 'E' ∈ ['E', 'E'])
      (char_not_in_pop hpop (by decide) (by decide))
  have hTEL : containsSeq ['T', 'E', 'L'] _ = false :=
    not_containsSeq_of_missing (by decide : 'E' ∈ ['T', 'E', 'L'])
      (char_not_in_pop hpop (by decide) (by decide))
  have hA : containsSeq ['A'] _ = false :=
    not_containsSeq_of_missing (by decide : 'A' ∈ ['A'])
      (char_not_in_pop hpop (by decide) (by decide))
  have hAUT : containsSeq ['A', 'U', 'T'] _ = false :=
    not_containsSeq_of_missing (by decide : 'A' ∈ ['A', 'U', 'T'])
      (char_not_in_pop hpop (by decide) (by decide))
  have hALL : containsSeq ['A', 'L', 'L'] _ = false :=
    not_containsSeq_of_missing (by decide : 'A' ∈ ['A', 'L', 'L'])
      (char_not_in_pop hpop (by decide) (by decide))
  have hGOT : containsSeq ['G', 'O', 'T'] (pwd ++ 'G' :: 'O' :: 'T' :: (sec ++ ['#'])) = true := by
    simpa using containsSeq_of_parts ['G', 'O', 'T'] pwd (sec ++ ['#'])
  obtain ⟨p1, p2, p3, p4, rfl⟩ := list_len4 hlen
  obtain ⟨g1, g2, g3, rfl⟩ := list_len3 hglen
  have hmatch : scanMatch matchGotAt
      ([p1, p2, p3, p4] ++ 'G' :: 'O' :: 'T' :: ([g1, g2, g3] ++ ['#'])) = some [g1, g2, g3] := by
    show scanMatch matchGotAt
      (p1 :: p2 :: p3 :: p4 :: 'G' :: 'O' :: 'T' :: g1 :: g2 :: g3 :: '#' :: []) = some [g1, g2, g3]
    unfold scanMatch
    rw [show matchGotAt (p1 :: p2 :: p3 :: p4 :: 'G' :: 'O' :: 'T' :: g1 :: g2 :: g3 :: '#' :: [])
        = some [g1, g2, g3] from by
      unfold matchGotAt
      simp [hdig p1 (by simp), hdig p2 (by simp), hdig p3 (by simp), hdig p4 (by simp),
        hgdig g1 (by simp), hgdig g2 (by simp), hgdig g3 (by simp)]]
  have heq : smsActionDetails (String.mk ([p1, p2, p3, p4] ++ 'G' :: 'O' :: 'T' :: ([g1, g2, g3] ++ ['#'])))
      = ("Relay Timing",
         if [g1, g2, g3] = ['0', '0', '0'] then "Set relay to momentary mode (pulse)"
         else if [g1, g2, g3] = ['9', '9', '9'] then "Set relay to toggle mode (stays ON until next call)"
         else "Set relay to close for " ++ toString (digitsToNat [g1, g2, g3]) ++ " seconds") := by
    unfold smsActionDetails
    simp only [strIncludes, toList_mk, show ("CC" : String).toList = ['C', 'C'] from rfl,
      show ("DD" : String).toList = ['D', 'D'] from rfl,
      show ("P" : String).toList = ['P'] from rfl,
      show ("EE" : String).toList = ['E', 'E'] from rfl,
      show ("TEL" : String).toList = ['T', 'E', 'L'] from rfl,
      show ("AUT" : String).toList = ['A', 'U', 'T'] from rfl,
      show ("ALL" : String).toList = ['A', 'L', 'L'] from rfl,
      show ("A" : String).toList = ['A'] from rfl,
      show ("GOT" : String).toList = ['G', 'O', 'T'] from rfl,
      hCC, hDD, hP, hEE, hTEL, hAUT, hALL, hA, hGOT, hmatch]
    simp
  refine ⟨heq, ?_⟩
  rw [heq]
  constructor
  · show containsSeq [p1, p2, p3, p4] ("Relay Timing" : String).toList = false
    exact pwd_not_in_digitfree hlen hdig (by decide)
  · by_cases h0 : [g1, g2, g3] = ['0', '0', '0']
    · simp only [h0, if_pos rfl]
      exact pwd_not_in_digitfree hlen hdig (by decide)
    · by_cases h9 : [g1, g2, g3] = ['9', '9', '9']
      · simp only [if_neg h0, h9, if_pos rfl]
        exact pwd_not_in_digitfree hlen hdig (by decide)
      · simp only [if_neg h0, if_neg h9]
        show containsSeq [p1, p2, p3, p4]
          (("Set relay to close for " : String) ++ toString (digitsToNat [g1, g2, g3])
            ++ " seconds").toList = false
        rw [toList_append, toList_append]
        have hassoc : (("Set relay to close for " : String).toList
              ++ (toString (digitsToNat [g1, g2, g3])).toList)
              ++ (" seconds" : String).toList
            = ("Set relay to close for " : String).toList
              ++ ((toString (digitsToNat [g1, g2, g3])).toList
                ++ ((" seconds" : String).toList ++ ([] : List Char))) := by
          simp
        rw [hassoc]
        apply pwd_not_in_text_mid hlen hdig (by decide) (by decide) (by decide)
        · apply not_containsSeq_of_longer
          have hle : digitsToNat [g1, g2, g3] ≤ 999 :=
            digitsToNat3_le (hgdig g1 (by simp)) (hgdig g2 (by simp)) (hgdig g3 (by simp))
          have := toString_lt_1000_short (digitsToNat [g1, g2, g3]) (by omega)
          simp only [List.length_cons, List.length_nil]
          omega
        · simp

theorem decide_ne_hash_of_digit {a : Char} (ha : a.isDigit = true) :
    decide (a ≠ '#') = true := by
  simp only [decide_eq_true_eq]
  exact ne_of_isDigit_of_not ha (by decide)

theorem head_ne_hash_of_digits {x y : List Char} (hx : ∀ c ∈ x, c.isDigit = true)
    (hne : x ≠ []) : ∀ b, (x ++ y).head? = some b → b ≠ '#' := by
  intro b hb
  cases x with
  | nil => exact absurd rfl hne
  | cons c q =>
    simp only [List.cons_append, List.head?_cons, Option.some.injEq] at hb
    subst hb
    exact ne_of_isDigit_of_not (hx c (by simp)) (by decide)

theorem ne_nil_of_length {l : List Char} {n : Nat} (h : l.length = n) (hn : n ≠ 0) :
    l ≠ [] := by
  intro h0
  rw [h0] at h
  simp at h
  omega

theorem sms_add (pwd ser phone st en : List Char) (hlen : pwd.length = 4)
    (hdig : ∀ c ∈ pwd, c.isDigit = true) (hslen : ser.length = 3)
    (hsdig : ∀ c ∈ ser, c.isDigit = true)
    (hpne : phone ≠ []) (hpdig : ∀ c ∈ phone, c.isDigit = true)
    (hstlen : st.length = 10) (hstdig : ∀ c ∈ st, c.isDigit = true)
    (henlen : en.length = 10) (hendig : ∀ c ∈ en, c.isDigit = true)
    (hpwdphone : containsSeq pwd phone = false) :
    smsActionDetails (String.mk (pwd ++ 'A' ::
        (ser ++ '#' :: (phone ++ '#' :: (st ++ '#' :: (en ++ ['#']))))))
        = ("User Management",
           "Added user " ++ String.mk phone ++ " at position " ++ String.mk ser) ∧
      noPwd pwd (smsActionDetails (String.mk (pwd ++ 'A' ::
        (ser ++ '#' :: (phone ++ '#' :: (st ++ '#' :: (en ++ ['#']))))))) := by
  have hstne : st ≠ [] := ne_nil_of_length hstlen (by omega)
  have henne : en ≠ [] := ne_nil_of_length henlen (by omega)
  have hpop : ∀ x ∈ pwd ++ 'A' :: (ser ++ '#' :: (phone ++ '#' :: (st ++ '#' :: (en ++ ['#'])))),
      x.isDigit = true ∨ x ∈ ['A', '#'] :=
    pop_append (pop_digits hdig) (pop_cons (by decide)
      (pop_append (pop_digits hsdig) (pop_cons (by decide)
        (pop_append (pop_digits hpdig) (pop_cons (by decide)
          (pop_append (pop_digits hstdig) (pop_cons (by decide)
            (pop_append (pop_digits hendig) (by decide)))))))))
  have hCC : containsSeq ['C', 'C'] _ = false :=
    not_containsSeq_of_missing (by decide : 'C' ∈ ['C', 'C'])
      (char_not_in_pop hpop (by decide) (by decide))
  have hDD : containsSeq ['D', 'D'] _ = false :=
    not_containsSeq_of_missing (by decide : 'D' ∈ ['D', 'D'])
      (char_not_in_pop hpop (by decide) (by decide))
  have hP : containsSeq ['P'] _ = false :=
    not_containsSeq_of_missing (by decide : 'P' ∈ ['P'])
      (char_not_in_pop hpop (by decide) (by decide))
  have hEE : containsSeq ['E', 'E'] _ = false :=
    not_containsSeq_of_missing (by decide : 'E' ∈ ['E', 'E'])
      (char_not_in_pop hpop (by decide) (by decide))
  have hTEL : containsSeq ['T', 'E', 'L'] _ = false :=
    not_containsSeq_of_missing (by decide : 'T' ∈ ['T', 'E', 'L'])
      (char_not_in_pop hpop (by decide) (by decide))
  have hALL : containsSeq ['A', 'L', 'L'] _ = false :=
    not_containsSeq_of_missing (by decide : 'L' ∈ ['A', 'L', 'L'])
      (char_not_in_pop hpop (by decide) (by decide))
  have hAUT : containsSeq ['A', 'U', 'T'] _ = false :=
    not_containsSeq_of_missing (by decide : 'U' ∈ ['A', 'U', 'T'])
      (char_not_in_pop hpop (by decide) (by decide))
  have hA : containsSeq ['A']
      (pwd ++ 'A' :: (ser ++ '#' :: (phone ++ '#' :: (st ++ '#' :: (en ++ ['#']))))) = true := by
    simpa using containsSeq_of_parts ['A'] pwd (ser ++ '#' :: (phone ++ '#' :: (st ++ '#' :: (en ++ ['#']))))
  have hHH : containsSeq ['#', '#']
      (pwd ++ 'A' :: (ser ++ '#' :: (phone ++ '#' :: (st ++ '#' :: (en ++ ['#']))))) = false := by
    cases hcs : containsSeq ['#', '#']
        (pwd ++ 'A' :: (ser ++ '#' :: (phone ++ '#' :: (st ++ '#' :: (en ++ ['#'])))))
    · rfl
    exfalso
    have h1 := hashhash_skip_digits hdig hcs
    have h2 := hashhash_skip_char (by decide : ('A' : Char) ≠ '#') h1
    have h3 := hashhash_skip_digits hsdig h2
    have h4 := hashhash_skip_hash (head_ne_hash_of_digits hpdig hpne) h3
    have h5 := hashhash_skip_digits hpdig h4
    have h6 := hashhash_skip_hash (head_ne_hash_of_digits hstdig hstne) h5
    have h7 := hashhash_skip_digits hstdig h6
    have h8 := hashhash_skip_hash (head_ne_hash_of_digits hendig henne) h7
    have h9 := hashhash_skip_digits hendig h8
    exact absurd h9 (by decide)
  obtain ⟨p1, p2, p3, p4, rfl⟩ := list_len4 hlen
  obtain ⟨s1, s2, s3, rfl⟩ := list_len3 hslen
  have hPhoneTake : (phone ++ '#' :: (st ++ '#' :: (en ++ ['#']))).takeWhile
      (fun x => x ≠ '#') = phone := by
    rw [takeWhile_append_all (fun x => x ≠ '#') phone ('#' :: (st ++ '#' :: (en ++ ['#'])))
      (fun a ha => decide_ne_hash_of_digit (hpdig a ha))]
    simp [List.takeWhile_cons]
  have hPhoneDrop : (phone ++ '#' :: (st ++ '#' :: (en ++ ['#']))).dropWhile
      (fun x => x ≠ '#') = '#' :: (st ++ '#' :: (en ++ ['#'])) := by
    rw [dropWhile_append_all (fun x => x ≠ '#') phone ('#' :: (st ++ '#' :: (en ++ ['#'])))
      (fun a ha => decide_ne_hash_of_digit (hpdig a ha))]
    simp [List.dropWhile_cons]
  have hmatch : scanMatch matchAddAt
      ([p1, p2, p3, p4] ++ 'A' :: ([s1, s2, s3] ++ '#' :: (phone ++ '#' :: (st ++ '#' :: (en ++ ['#'])))))
      = some ([s1, s2, s3], phone) := by
    show scanMatch matchAddAt
      (p1 :: p2 :: p3 :: p4 :: 'A' :: s1 :: s2 :: s3 :: '#' :: (phone ++ '#' :: (st ++ '#' :: (en ++ ['#']))))
      = some ([s1, s2, s3], phone)
    unfold scanMatch
    rw [show matchAddAt
        (p1 :: p2 :: p3 :: p4 :: 'A' :: s1 :: s2 :: s3 :: '#' :: (phone ++ '#' :: (st ++ '#' :: (en ++ ['#']))))
        = some ([s1, s2, s3], phone) from by
      simp only [matchAddAt, hPhoneTake, hPhoneDrop]
      simp [hdig p1 (by simp), hdig p2 (by simp), hdig p3 (by simp), hdig p4 (by simp),
        hsdig s1 (by simp), hsdig s2 (by simp), hsdig s3 (by simp), hpne]]
  have heq : smsActionDetails (String.mk ([p1, p2, p3, p4] ++ 'A' ::
      ([s1, s2, s3] ++ '#' :: (phone ++ '#' :: (st ++ '#' :: (en ++ ['#']))))))
      = ("User Management",
         "Added user " ++ String.mk phone ++ " at position " ++ String.mk [s1, s2, s3]) := by
    unfold smsActionDetails
    simp only [strIncludes, toList_mk, show ("CC" : String).toList = ['C', 'C'] from rfl,
      show ("DD" : String).toList = ['D', 'D'] from rfl,
      show ("P" : String).toList = ['P'] from rfl,
      show ("EE" : String).toList = ['E', 'E'] from rfl,
      show ("TEL" : String).toList = ['T', 'E', 'L'] from rfl,
      show ("AUT" : String).toList = ['A', 'U', 'T'] from rfl,
      show ("ALL" : String).toList = ['A', 'L', 'L'] from rfl,
      show ("A" : String).toList = ['A'] from rfl,
      show ("##" : String).toList = ['#', '#'] from rfl,
      hCC, hDD, hP, hEE, hTEL, hAUT, hALL, hA, hHH, hmatch]
    simp
  refine ⟨heq, ?_⟩
  rw [heq]
  constructor
  · show containsSeq [p1, p2, p3, p4] ("User Management" : String).toList = false
    exact pwd_not_in_digitfree hlen hdig (by decide)
  · show containsSeq [p1, p2, p3, p4]
      ((("Added user " : String) ++ String.mk phone ++ " at position "
        ++ String.mk [s1, s2, s3]).toList) = false
    have hassoc : (("Added user " : String) ++ String.mk phone ++ " at position "
          ++ String.mk [s1, s2, s3]).toList
        = ("Added user " : String).toList
          ++ (phone ++ ((" at position " : String).toList ++ [s1, s2, s3])) := by
      simp [toList_append, toList_mk]
    rw [hassoc]
    exact pwd_not_in_text_mid hlen hdig (by decide) (by decide) (by decide) hpwdphone (by simp)

/-- C9 counterexample: two documented-grammar commands the classifier
mishandles.  (1) The add-user command `1234A001#0400123456###` (empty
optional access-window fields, as `formatSMSCommand` emits when no times
are given) is described as a user *removal* with no position — the phone
number never appears.  (2) With password `0400` and phone `0400123456`,
the add-user details contain the 4-digit password prefix, so the outputs
are not always free of it. -/
theorem smsActionDetails_cex :
    (smsActionDetails "1234A001#0400123456###").2
        = "Removed authorized user from position " ∧
      strIncludes (smsActionDetails "0400A001#0400123456#1001010000#2001010000#").2 "0400"
        = true := by
  constructor
  · rfl
  · rfl

/-- C9 (amended): `logSMSOperation` records exactly the
`smsActionDetails` classification, and for every documented-grammar
command — with nonempty 10-digit access-window fields in the add-user
form, and whose payload (the phone number) does not itself contain the
password — the classification is the documented action/details pair for
that operation, with the password prefix absent from both output
strings. -/
theorem logSMSOperation_classification (pwd : List Char) (hlen : pwd.length = 4)
    (hdig : ∀ c ∈ pwd, c.isDigit = true) :
    (∀ (store : AppData) (did cmd : String) (succ : Bool) (nid now : String),
        ((logSMSOperation store did cmd succ nid now).1.action,
         (logSMSOperation store did cmd succ nid now).1.details) = smsActionDetails cmd) ∧
    (smsActionDetails (String.mk (pwd ++ ['C', 'C']))
        = ("Gate Open", "Opened gate/activated relay (ON)") ∧
      noPwd pwd (smsActionDetails (String.mk (pwd ++ ['C', 'C'])))) ∧
    (smsActionDetails (String.mk (pwd ++ ['D', 'D']))
        = ("Gate Close", "Closed gate/deactivated relay (OFF)") ∧
      noPwd pwd (smsActionDetails (String.mk (pwd ++ ['D', 'D'])))) ∧
    (smsActionDetails (String.mk (pwd ++ ['E', 'E']))
        = ("Status Check", "Requested device status") ∧
      noPwd pwd (smsActionDetails (String.mk (pwd ++ ['E', 'E'])))) ∧
    (∀ ser phone st en : List Char, ser.length = 3 → (∀ c ∈ ser, c.isDigit = true) →
      phone ≠ [] → (∀ c ∈ phone, c.isDigit = true) →
      st.length = 10 → (∀ c ∈ st, c.isDigit = true) →
      en.length = 10 → (∀ c ∈ en, c.isDigit = true) →
      containsSeq pwd phone = false →
      smsActionDetails (String.mk (pwd ++ 'A' ::
          (ser ++ '#' :: (phone ++ '#' :: (st ++ '#' :: (en ++ ['#']))))))
          = ("User Management",
             "Added user " ++ String.mk phone ++ " at position " ++ String.mk ser) ∧
        noPwd pwd (smsActionDetails (String.mk (pwd ++ 'A' ::
          (ser ++ '#' :: (phone ++ '#' :: (st ++ '#' :: (en ++ ['#'])))))))) ∧
    (∀ ser : List Char, ser.length = 3 → (∀ c ∈ ser, c.isDigit = true) →
      smsActionDetails (String.mk (pwd ++ 'A' :: (ser ++ ['#', '#'])))
          = ("User Management", "Removed authorized user from position " ++ String.mk ser) ∧
        noPwd pwd (smsActionDetails (String.mk (pwd ++ 'A' :: (ser ++ ['#', '#']))))) ∧
    (smsActionDetails (String.mk (pwd ++ ['A', 'U', 'T', '#']))
        = ("Access Control", "Set to authorized users only") ∧
      noPwd pwd (smsActionDetails (String.mk (pwd ++ ['A', 'U', 'T', '#'])))) ∧
    (smsActionDetails (String.mk (pwd ++ ['A', 'L', 'L', '#']))
        = ("Access Control", "Set to allow all callers") ∧
      noPwd pwd (smsActionDetails (String.mk (pwd ++ ['A', 'L', 'L', '#'])))) ∧
    (∀ sec : List Char, sec.length = 3 → (∀ c ∈ sec, c.isDigit = true) →
      smsActionDetails (String.mk (pwd ++ 'G' :: 'O' :: 'T' :: (sec ++ ['#'])))
          = ("Relay Timing",
             if sec = ['0', '0', '0'] then "Set relay to momentary mode (pulse)"
             else if sec = ['9', '9', '9'] then
               "Set relay to toggle mode (stays ON until next call)"
             else "Set relay to close for " ++ toString (digitsToNat sec) ++ " seconds") ∧
        noPwd pwd (smsActionDetails (String.mk (pwd ++ 'G' :: 'O' :: 'T' :: (sec ++ ['#']))))) ∧
    (∀ num : List Char, (∀ c ∈ num, c.isDigit = true) →
      smsActionDetails (String.mk (pwd ++ 'T' :: 'E' :: 'L' :: (num ++ ['#'])))
          = ("Admin Registration", "Registered admin phone number") ∧
        noPwd pwd (smsActionDetails (String.mk (pwd ++ 'T' :: 'E' :: 'L' :: (num ++ ['#']))))) := by
  refine ⟨?_, sms_open pwd hlen hdig, sms_close pwd hlen hdig, sms_status pwd hlen hdig,
    ?_, ?_, sms_aut pwd hlen hdig, sms_all pwd hlen hdig, ?_, ?_⟩
  · intro store did cmd succ nid now
    rfl
  · intro ser phone st en h1 h2 h3 h4 h5 h6 h7 h8 h9
    exact sms_add pwd ser phone st en hlen hdig h1 h2 h3 h4 h5 h6 h7 h8 h9
  · intro ser h1 h2
    exact sms_remove pwd ser hlen hdig h1 h2
  · intro sec h1 h2
    exact sms_got pwd sec hlen hdig h1 h2
  · intro num h1
    exact sms_tel pwd num hlen hdig h1

/-- Witness for the amended C9 at a concrete password and concrete
add-user command. -/
theorem logSMSOperation_classification_witness :
    (['1', '2', '3', '4'] : List Char).length = 4 ∧
    smsActionDetails (String.mk (['1', '2', '3', '4'] ++ ['C', 'C']))
      = ("Gate Open", "Opened gate/activated relay (ON)") ∧
    smsActionDetails (String.mk (['1', '2', '3', '4'] ++ 'A' ::
        (['0', '0', '1'] ++ '#' :: (['0', '4', '5'] ++ '#' ::
          (['1', '0', '0', '1', '0', '1', '0', '0', '0', '0'] ++ '#' ::
            (['2', '0', '0', '1', '0', '1', '0', '0', '0', '0'] ++ ['#']))))))
      = ("User Management",
         "Added user " ++ String.mk ['0', '4', '5'] ++ " at position "
           ++ String.mk ['0', '0', '1']) :=
  ⟨by decide,
   ((logSMSOperation_classification ['1', '2', '3', '4'] (by decide) (by decide)).2.1).1,
   (((logSMSOperation_classification ['1', '2', '3', '4'] (by decide) (by decide)).2.2.2.2.1)
     ['0', '0', '1'] ['0', '4', '5']
     ['1', '0', '0', '1', '0', '1', '0', '0', '0', '0']
     ['2', '0', '0', '1', '0', '1', '0', '0', '0', '0']
     (by decide) (by decide) (by decide) (by decide) (by decide) (by decide)
     (by decide) (by decide) (by decide)).1⟩

/-! ## Claims about the restore parse tiers (C4) -/

/-- C4 counterexample: the input `[1,2,3]` contains no JSON object marker
at all (no brace characters), yet `restoreFromBackup` does not fail — the
strict parse tier succeeds, the array shape is wrapped under
`gsm_devices`, the pre-existing key is cleared and a new key is written. -/
theorem restore_markerless_success_cex :
    restoreFromBackup "[1,2,3]" [("k", "v")] = (.ok true, [("gsm_devices", "[1,2,3]")]) ∧
      (∀ c ∈ ("[1,2,3]" : String).toList, c ≠ '\x7b' ∧ c ≠ '\x7d') := by
  constructor
  · rfl
  · decide

/-- C4 (amended): when all three parse tiers fail on the
boundary-recovered input — strict parse, trailing-comma repair, and
key-value extraction — `restoreFromBackup` fails with the format error
and the storage state is untouched. -/
theorem restore_parse_tiers_exhausted (backupJson : String) (st : Storage)
    (hne : ¬(backupJson = ""))
    (h1 : parseJsonChars (boundaryRecover backupJson.toList) = none)
    (h2 : parseJsonChars (stripCommaBefore ']'
        (stripCommaBefore '\x7d' (boundaryRecover backupJson.toList))) = none)
    (h3 : extractObject (boundaryRecover backupJson.toList) = []) :
    restoreFromBackup backupJson st
      = (.error "Could not parse backup file - invalid JSON format", st) := by
  unfold restoreFromBackup parsePhase
  rw [if_neg hne]
  simp only [h1, h2, h3, List.isEmpty_nil]
  simp

/-- Witness for the amended C4 at a concrete unrecoverable input. -/
theorem restore_parse_tiers_exhausted_witness :
    ¬(("hello world" : String) = "") ∧
    restoreFromBackup "hello world" [("k", "v")]
      = (.error "Could not parse backup file - invalid JSON format", [("k", "v")]) :=
  ⟨by decide, restore_parse_tiers_exhausted "hello world" [("k", "v")] (by decide) rfl rfl rfl⟩

/-! ## Key containment of the restore write phase (C2) -/

theorem getAssoc_some_mem_keys {α : Type} {l : List (String × α)} {k : String} {v : α}
    (h : getAssoc l k = some v) : k ∈ l.map Prod.fst := by
  induction l with
  | nil => simp [getAssoc] at h
  | cons hd tl ih =>
    unfold getAssoc at h
    by_cases hk : hd.1 = k
    · simp [hk]
    · simp only [if_neg hk] at h
      simp [ih h]

theorem mergeStep_keys (dts0 : List (String × Json)) (ex : Option Json) :
    ∀ kv ∈ mergeStep dts0 ex, kv.1 ∈ dts0.map Prod.fst := by
  intro kv hkv
  unfold mergeStep at hkv
  cases hga : getAssoc dts0 "app_data" with
  | none =>
    rw [hga] at hkv
    cases ex <;> exact List.mem_map_of_mem Prod.fst hkv
  | some bav =>
    rw [hga] at hkv
    cases ex with
    | none => exact List.mem_map_of_mem Prod.fst hkv
    | some e =>
      cases hc : truthy bav && truthy e
      · simp only [hc, Bool.false_eq_true, if_false] at hkv
        exact List.mem_map_of_mem Prod.fst hkv
      · simp only [hc, if_true] at hkv
        rcases mem_setAssoc _ _ _ kv hkv with heq | hm
        · rw [heq]
          exact getAssoc_some_mem_keys hga
        · exact List.mem_map_of_mem Prod.fst hm

theorem cacheLogEntries_keys (dts0 : List (String × Json)) :
    ∀ kc ∈ cacheLogEntries dts0, kc.1 = "app_logs" ∨ kc.1 ∈ dts0.map Prod.fst := by
  have aux : ∀ (l : List (String × Json)) (acc : List (String × CachedLog)),
      ∀ kc ∈ l.foldl
        (fun acc kv =>
          if strIncludes kv.1 "logs" || kv.1 == "app_data" then
            if kv.1 == "app_data" && truthy kv.2 && isObjLike kv.2 && optTruthy (jGet kv.2 "logs")
            then setAssoc acc "app_logs" CachedLog.appLogs
            else setAssoc acc kv.1 (CachedLog.plain kv.1)
          else acc) acc,
      kc.1 = "app_logs" ∨ kc.1 ∈ l.map Prod.fst ∨ kc ∈ acc := by
    intro l
    induction l with
    | nil => intro acc kc hkc; exact Or.inr (Or.inr hkc)
    | cons hd tl ih =>
      intro acc kc hkc
      rw [List.foldl_cons] at hkc
      rcases ih _ kc hkc with h | h | h
      · exact Or.inl h
      · exact Or.inr (Or.inl (by simp [h]))
      · by_cases h1 : strIncludes hd.1 "logs" || hd.1 == "app_data"
        · rw [if_pos h1] at h
          by_cases h2 : hd.1 == "app_data" && truthy hd.2 && isObjLike hd.2
              && optTruthy (jGet hd.2 "logs")
          · rw [if_pos h2] at h
            rcases mem_setAssoc _ _ _ kc h with heq | hm
            · exact Or.inl (by rw [heq])
            · exact Or.inr (Or.inr hm)
          · rw [if_neg h2] at h
            rcases mem_setAssoc _ _ _ kc h with heq | hm
            · exact Or.inr (Or.inl (by rw [heq]; simp))
            · exact Or.inr (Or.inr hm)
        · rw [if_neg h1] at h
          exact Or.inr (Or.inr h)
  intro kc hkc
  rcases aux dts0 [] kc hkc with h | h | h
  · exact Or.inl h
  · exact Or.inr h
  · simp at h

theorem getAssoc_filter_none {α : Type} (st : List (String × α)) (p : String × α → Bool)
    (k : String) (h : ∀ kv ∈ st, p kv = true → kv.1 ≠ k) :
    getAssoc (st.filter p) k = none := by
  induction st with
  | nil => rfl
  | cons hd tl ih =>
    rw [List.filter_cons]
    by_cases hp : p hd
    · rw [if_pos hp]
      unfold getAssoc
      rw [if_neg (h hd (by simp) hp)]
      exact ih (fun kv hkv => h kv (by simp [hkv]))
    · rw [if_neg hp]
      exact ih (fun kv hkv => h kv (by simp [hkv]))

theorem writeFold_none (items : List (String × Json)) (init : Storage × Nat) (k : String)
    (hinit : getAssoc init.1 k = none) (hitems : ∀ kv ∈ items, kv.1 ≠ k) :
    getAssoc (items.foldl writeStep init).1 k = none := by
  induction items generalizing init with
  | nil => exact hinit
  | cons hd tl ih =>
    rw [List.foldl_cons]
    apply ih
    · unfold writeStep
      cases hd.2 with
      | null => exact hinit
      | bool b => exact (getAssoc_setAssoc_ne _ _ _ _ (hitems hd (by simp))).trans hinit
      | num n => exact (getAssoc_setAssoc_ne _ _ _ _ (hitems hd (by simp))).trans hinit
      | str s => exact (getAssoc_setAssoc_ne _ _ _ _ (hitems hd (by simp))).trans hinit
      | arr xs => exact (getAssoc_setAssoc_ne _ _ _ _ (hitems hd (by simp))).trans hinit
      | obj fs => exact (getAssoc_setAssoc_ne _ _ _ _ (hitems hd (by simp))).trans hinit
    · exact fun kv hkv => hitems kv (by simp [hkv])

theorem cachedFold_none (dts : List (String × Json)) (items : List (String × CachedLog))
    (init : Storage × Nat) (k : String) (hinit : getAssoc init.1 k = none)
    (hitems : ∀ kc ∈ items, kc.1 ≠ k) :
    getAssoc (items.foldl (cachedStep dts) init).1 k = none := by
  induction items generalizing init with
  | nil => exact hinit
  | cons hd tl ih =>
    rw [List.foldl_cons]
    apply ih
    · unfold cachedStep
      by_cases h1 : optTruthy (getAssoc dts hd.1)
      · rw [if_pos h1]; exact hinit
      · rw [if_neg h1]
        cases resolveCached dts hd.2 with
        | none => exact hinit
        | some v => exact (getAssoc_setAssoc_ne _ _ _ _ (hitems hd (by simp))).trans hinit
    · exact fun kc hkc => hitems kc (by simp [hkc])

/-- C2 counterexample: a key holding a per-device log bucket exists before
the restore and has no counterpart in the backup's flat mapping, the
restore succeeds, and the key is gone afterwards (with everything else
cleared too). -/
theorem restore_drops_preexisting_log_key_cex :
    getAssoc [("device_logs_X", "b"), ("foo", "j")] "device_logs_X" = some "b" ∧
    restoreFromBackup (createBackup [("misc", "1")] "t")
        [("device_logs_X", "b"), ("foo", "j")]
      = (.ok true, [("misc", "1")]) := by
  constructor
  · rfl
  · rfl

theorem getAssoc_pair_mem {α : Type} {l : List (String × α)} {k : String} {v : α}
    (h : getAssoc l k = some v) : (k, v) ∈ l := by
  induction l with
  | nil => simp [getAssoc] at h
  | cons hd tl ih =>
    obtain ⟨k', v'⟩ := hd
    unfold getAssoc at h
    by_cases hk : k' = k
    · simp only [if_pos hk] at h
      obtain rfl := Option.some_injective _ h
      simp [hk]
    · simp only [if_neg hk] at h
      exact List.mem_cons_of_mem _ (ih h)

/-- The post-clear, post-write, post-cached-write storage holds no binding
at a key absent from the backup mapping (other than the cached-log key
`app_logs`). -/
theorem applyPhase_noncounterpart (dts0 : List (String × Json)) (st : Storage) (k : String)
    (hnc : k ∉ dts0.map Prod.fst) (hk : k ≠ "app_logs") :
    getAssoc (applyPhase dts0 st).2 k = none := by
  have hdtsK : ∀ (ex : Option Json) (kv : String × Json), kv ∈ mergeStep dts0 ex →
      kv.1 ≠ k := fun ex kv hm heq => hnc (heq ▸ mergeStep_keys dts0 ex kv hm)
  have hcachedK : ∀ kc ∈ cacheLogEntries dts0, kc.1 ≠ k := by
    intro kc hm heq
    rcases cacheLogEntries_keys dts0 kc hm with h | h
    · exact hk (heq ▸ h)
    · exact hnc (heq ▸ h)
  have hkey : ∀ (ex : Option Json) (pAD : Bool),
      (pAD = true → "app_data" ∈ dts0.map Prod.fst) →
      getAssoc ((cacheLogEntries dts0).foldl (cachedStep (mergeStep dts0 ex))
        ((mergeStep dts0 ex).foldl writeStep
          (st.filter (fun kv => kv.1 == "app_data" && pAD), 0))).1 k = none := by
    intro ex pAD hpad
    apply cachedFold_none
    · apply writeFold_none
      · apply getAssoc_filter_none
        intro kv hkv hp heq
        rw [Bool.and_eq_true] at hp
        have h1 : kv.1 = "app_data" := beq_iff_eq.1 hp.1
        have h2 : pAD = true := hp.2
        exact hnc (by rw [← heq, h1]; exact hpad h2)
      · exact fun kv hkv => hdtsK _ kv hkv
    · exact hcachedK
  have hpadEX : ∀ (ex : Option Json),
      (optTruthy (getAssoc (mergeStep dts0 ex) "app_data") &&
        (match ex with | some j => truthy j | none => false)) = true →
      "app_data" ∈ dts0.map Prod.fst := by
    intro ex h
    rw [Bool.and_eq_true] at h
    have h1 : optTruthy (getAssoc (mergeStep dts0 ex) "app_data") = true := h.1
    cases hga : getAssoc (mergeStep dts0 ex) "app_data" with
    | none => rw [hga] at h1; simp [optTruthy] at h1
    | some w => exact mergeStep_keys dts0 ex _ (getAssoc_pair_mem hga)
  unfold applyPhase
  simp only []
  split
  · exact hkey _ _ (hpadEX _)
  · exact hkey _ _ (hpadEX _)

/-- C2 (amended): after a successful restore, a storage key that existed
before the restore but has no counterpart key in the backup's flat
key-value mapping (and is not the cached-log key `app_logs`) is absent
from storage — pre-existing per-device log buckets with no counterpart in
the backup are lost, not preserved: the log-preservation pass caches keys
of the backup mapping, not of the pre-existing storage. -/
theorem restore_removes_noncounterpart_keys (backupJson : String) (st : Storage)
    (dts0 : List (String × Json)) (k v : String)
    (hparse : parsePhase backupJson = .ok dts0)
    (hpre : getAssoc st k = some v)
    (hok : (restoreFromBackup backupJson st).1 = .ok true)
    (hnc : k ∉ dts0.map Prod.fst)
    (hk : k ≠ "app_logs") :
    getAssoc (restoreFromBackup backupJson st).2 k = none := by
  unfold restoreFromBackup
  rw [hparse]
  exact applyPhase_noncounterpart dts0 st k hnc hk

/-- Witness for the amended C2 at a concrete backup and storage state. -/
theorem restore_removes_noncounterpart_keys_witness :
    parsePhase (createBackup [("misc", "1")] "t") = .ok [("misc", Json.num 1)] ∧
    getAssoc [("device_logs_X", "b"), ("foo", "j")] "device_logs_X" = some "b" ∧
    (restoreFromBackup (createBackup [("misc", "1")] "t")
        [("device_logs_X", "b"), ("foo", "j")]).1 = .ok true ∧
    ¬("device_logs_X" ∈ ([("misc", Json.num 1)] : List (String × Json)).map Prod.fst) ∧
    ¬("device_logs_X" = "app_logs") ∧
    getAssoc (restoreFromBackup (createBackup [("misc", "1")] "t")
        [("device_logs_X", "b"), ("foo", "j")]).2 "device_logs_X" = none :=
  ⟨rfl, rfl, rfl, by decide, by decide,
    restore_removes_noncounterpart_keys _ _ [("misc", Json.num 1)] _ "b"
      rfl rfl rfl (by decide) (by decide)⟩

theorem setAssoc_mem_self {α : Type} (l : List (String × α)) (k : String) (v : α) :
    (k, v) ∈ setAssoc l k v := by
  induction l with
  | nil => simp [setAssoc]
  | cons hd tl ih =>
    obtain ⟨k', v'⟩ := hd
    unfold setAssoc
    by_cases hk : k' = k
    · simp [hk]
    · simp only [if_neg hk]
      exact List.mem_cons_of_mem _ ih

theorem mem_map_fst_setAssoc {α : Type} {l : List (String × α)} {k a : String} {v : α}
    (h : a ∈ (setAssoc l k v).map Prod.fst) : a = k ∨ a ∈ l.map Prod.fst := by
  rcases List.mem_map.1 h with ⟨kv, hkv, hfst⟩
  rcases mem_setAssoc l k v kv hkv with heq | hm
  · left; rw [← hfst, heq]
  · right; exact hfst ▸ List.mem_map_of_mem Prod.fst hm

theorem setAssoc_map_fst_nodup {α : Type} {l : List (String × α)} (k : String) (v : α)
    (h : (l.map Prod.fst).Nodup) : ((setAssoc l k v).map Prod.fst).Nodup := by
  induction l with
  | nil => simp [setAssoc]
  | cons hd tl ih =>
    obtain ⟨k', v'⟩ := hd
    simp only [List.map_cons, List.nodup_cons] at h
    unfold setAssoc
    by_cases hk : k' = k
    · subst hk
      rw [if_pos rfl]
      simp only [List.map_cons, List.nodup_cons]
      exact h
    · simp only [if_neg hk, List.map_cons, List.nodup_cons]
      refine ⟨fun hmem => ?_, ih h.2⟩
      rcases mem_map_fst_setAssoc hmem with heq | hm
      · exact hk heq
      · exact h.1 hm

theorem getAssoc_of_mem_nodup {α : Type} {l : List (String × α)} {k : String} {w : α}
    (hnd : (l.map Prod.fst).Nodup) (hmem : (k, w) ∈ l) : getAssoc l k = some w := by
  induction l with
  | nil => simp at hmem
  | cons hd tl ih =>
    obtain ⟨k', v'⟩ := hd
    simp only [List.map_cons, List.nodup_cons] at hnd
    unfold getAssoc
    rcases List.mem_cons.1 hmem with heq | hm
    · obtain ⟨h1, h2⟩ := Prod.mk.injEq .. ▸ heq
      simp [h1.symm, h2]
    · by_cases hk : k' = k
      · exfalso
        apply hnd.1
        rw [hk]
        exact List.mem_map_of_mem Prod.fst hm
      · simp only [if_neg hk]
        exact ih hnd.2 hm

theorem writeFold_preserve (items : List (String × Json)) (init : Storage × Nat) (k : String)
    (hitems : ∀ kv ∈ items, kv.1 ≠ k) :
    getAssoc ((items.foldl writeStep init).1) k = getAssoc init.1 k := by
  induction items generalizing init with
  | nil => rfl
  | cons hd tl ih =>
    rw [List.foldl_cons]
    rw [ih _ (fun kv hkv => hitems kv (by simp [hkv]))]
    unfold writeStep
    cases hd.2 with
    | null => rfl
    | bool b => exact getAssoc_setAssoc_ne _ _ _ _ (hitems hd (by simp))
    | num n => exact getAssoc_setAssoc_ne _ _ _ _ (hitems hd (by simp))
    | str s => exact getAssoc_setAssoc_ne _ _ _ _ (hitems hd (by simp))
    | arr xs => exact getAssoc_setAssoc_ne _ _ _ _ (hitems hd (by simp))
    | obj fs => exact getAssoc_setAssoc_ne _ _ _ _ (hitems hd (by simp))

theorem cachedFold_preserve (dts : List (String × Json)) (items : List (String × CachedLog))
    (init : Storage × Nat) (k : String) (hitems : ∀ kc ∈ items, kc.1 ≠ k) :
    getAssoc ((items.foldl (cachedStep dts) init).1) k = getAssoc init.1 k := by
  induction items generalizing init with
  | nil => rfl
  | cons hd tl ih =>
    rw [List.foldl_cons]
    rw [ih _ (fun kc hkc => hitems kc (by simp [hkc]))]
    unfold cachedStep
    by_cases h1 : optTruthy (getAssoc dts hd.1)
    · rw [if_pos h1]
    · rw [if_neg h1]
      cases resolveCached dts hd.2 with
      | none => rfl
      | some v => exact getAssoc_setAssoc_ne _ _ _ _ (hitems hd (by simp))

theorem writeFold_getAssoc (items : List (String × Json)) (init : Storage × Nat)
    (k : String) (v : Json) (hmem : (k, v) ∈ items) (hv : v ≠ Json.null)
    (hnd : (items.map Prod.fst).Nodup) :
    getAssoc ((items.foldl writeStep init).1) k = some (jsonToStorageString v) := by
  induction items generalizing init with
  | nil => simp at hmem
  | cons hd tl ih =>
    simp only [List.map_cons, List.nodup_cons] at hnd
    rw [List.foldl_cons]
    rcases List.mem_cons.1 hmem with heq | hm
    · have hk : hd.1 = k := by rw [← heq]
      have hv2 : hd.2 = v := by rw [← heq]
      have htl : ∀ kv ∈ tl, kv.1 ≠ k := by
        intro kv hkv hkk
        apply hnd.1
        rw [hk, ← hkk]
        exact List.mem_map_of_mem Prod.fst hkv
      rw [writeFold_preserve tl _ k htl]
      unfold writeStep
      rw [hv2]
      cases v with
      | null => exact absurd rfl hv
      | bool b => exact hk ▸ getAssoc_setAssoc_self _ _ _
      | num n => exact hk ▸ getAssoc_setAssoc_self _ _ _
      | str s => exact hk ▸ getAssoc_setAssoc_self _ _ _
      | arr xs => exact hk ▸ getAssoc_setAssoc_self _ _ _
      | obj fs => exact hk ▸ getAssoc_setAssoc_self _ _ _
    · exact ih _ hm hnd.2

/-- When the backup mapping's canonical entry is a truthy object with a
truthy `logs` field, every cached-log entry is keyed `app_logs` or a key
containing `logs`; none is keyed `app_data`. -/
theorem cacheLogEntries_ne_appdata (dts0 : List (String × Json))
    (hcond : ∀ kv ∈ dts0, kv.1 = "app_data" →
      (truthy kv.2 && isObjLike kv.2 && optTruthy (jGet kv.2 "logs")) = true) :
    ∀ kc ∈ cacheLogEntries dts0, kc.1 ≠ "app_data" := by
  have aux : ∀ (l : List (String × Json)) (acc : List (String × CachedLog)),
      (∀ kv ∈ l, kv.1 = "app_data" →
        (truthy kv.2 && isObjLike kv.2 && optTruthy (jGet kv.2 "logs")) = true) →
      (∀ kc ∈ acc, kc.1 ≠ "app_data") →
      ∀ kc ∈ l.foldl
        (fun acc kv =>
          if strIncludes kv.1 "logs" || kv.1 == "app_data" then
            if kv.1 == "app_data" && truthy kv.2 && isObjLike kv.2 && optTruthy (jGet kv.2 "logs")
            then setAssoc acc "app_logs" CachedLog.appLogs
            else setAssoc acc kv.1 (CachedLog.plain kv.1)
          else acc) acc,
      kc.1 ≠ "app_data" := by
    intro l
    induction l with
    | nil => intro acc _ hacc kc hkc; exact hacc kc hkc
    | cons hd tl ih =>
      intro acc hcond hacc kc hkc
      rw [List.foldl_cons] at hkc
      refine ih _ (fun kv hkv => hcond kv (by simp [hkv])) ?_ kc hkc
      intro kc' hkc'
      by_cases h1 : strIncludes hd.1 "logs" || hd.1 == "app_data"
      · rw [if_pos h1] at hkc'
        by_cases h2 : hd.1 == "app_data" && truthy hd.2 && isObjLike hd.2
            && optTruthy (jGet hd.2 "logs")
        · rw [if_pos h2] at hkc'
          rcases mem_setAssoc _ _ _ kc' hkc' with heq | hm
          · rw [heq]; decide
          · exact hacc kc' hm
        · rw [if_neg h2] at hkc'
          rcases mem_setAssoc _ _ _ kc' hkc' with heq | hm
          · rw [heq]
            intro hk1
            rw [Bool.or_eq_true] at h1
            rcases h1 with hinc | hbeq
            · rw [hk1] at hinc
              exact absurd hinc (by decide)
            · apply h2
              have hda : hd.1 = "app_data" := beq_iff_eq.1 hbeq
              have := hcond hd (by simp) hda
              simp only [Bool.and_eq_true] at this ⊢
              exact ⟨⟨⟨hbeq, this.1.1⟩, this.1.2⟩, this.2⟩
          · exact hacc kc' hm
      · rw [if_neg h1] at hkc'
        exact hacc kc' hkc'
  exact aux dts0 [] hcond (by simp)

theorem mergeLogBuckets_getAssoc_ne (elogs : List (String × Json)) :
    ∀ (blogs : List (String × Json)) (d : String), (∀ kv ∈ elogs, kv.1 ≠ d) →
    getAssoc (mergeLogBuckets elogs blogs) d = getAssoc blogs d := by
  induction elogs with
  | nil => intro blogs d _; rfl
  | cons hd rest ih =>
    intro blogs d hne
    obtain ⟨d0, b0⟩ := hd
    have hd0 : d0 ≠ d := hne (d0, b0) (by simp)
    unfold mergeLogBuckets
    by_cases hopt : optTruthy (getAssoc blogs d0)
    · rw [if_pos hopt]
      cases b0 with
      | arr bes =>
        cases hga : getAssoc blogs d0 with
        | none => exact absurd hopt (by simp [hga, optTruthy])
        | some v =>
          cases v with
          | arr bvs =>
            rw [ih _ d (fun kv hkv => hne kv (by simp [hkv]))]
            exact getAssoc_setAssoc_ne _ _ _ _ hd0
          | null => rfl
          | bool b => rfl
          | num n => rfl
          | str s => rfl
          | obj fs => rfl
      | null => rfl
      | bool b => rfl
      | num n => rfl
      | str s => rfl
      | obj fs => rfl
    · rw [if_neg hopt]
      rw [ih _ d (fun kv hkv => hne kv (by simp [hkv]))]
      exact getAssoc_setAssoc_ne _ _ _ _ hd0

/-- The merged log record keeps every entry of an on-device bucket, when
every bucket on both sides is an array and the on-device bucket keys are
unique (JavaScript objects cannot carry duplicate keys). -/
theorem mergeLogBuckets_sub (elogs : List (String × Json)) :
    ∀ (blogs : List (String × Json)),
    (∀ kv ∈ elogs, ∃ es, kv.2 = Json.arr es) →
    (∀ kv ∈ blogs, ∃ es, kv.2 = Json.arr es) →
    (elogs.map Prod.fst).Nodup →
    ∀ (did : String) (es : List Json), (did, Json.arr es) ∈ elogs →
    ∃ res, getAssoc (mergeLogBuckets elogs blogs) did = some (Json.arr res) ∧
      ∀ e ∈ es, e ∈ res := by
  induction elogs with
  | nil => intro blogs _ _ _ did es hmem; simp at hmem
  | cons hd rest ih =>
    intro blogs hel hbl hnd did es hmem
    obtain ⟨d0, b0⟩ := hd
    obtain ⟨bes, rfl⟩ : ∃ bl, b0 = Json.arr bl := hel (d0, b0) (by simp)
    simp only [List.map_cons, List.nodup_cons] at hnd
    have hrest_ne : ∀ kv ∈ rest, kv.1 ≠ d0 := by
      intro kv hkv hkk
      exact hnd.1 (hkk ▸ List.mem_map_of_mem Prod.fst hkv)
    unfold mergeLogBuckets
    by_cases hopt : optTruthy (getAssoc blogs d0)
    · rw [if_pos hopt]
      cases hga : getAssoc blogs d0 with
      | none => exact absurd hopt (by simp [hga, optTruthy])
      | some v =>
        obtain ⟨bvs, rfl⟩ : ∃ bl, v = Json.arr bl := by
          have := hbl (d0, v) (getAssoc_pair_mem hga)
          simpa using this
        rcases List.mem_cons.1 hmem with heq | hm
        · obtain ⟨h1, h2⟩ : did = d0 ∧ Json.arr es = Json.arr bes := by
            constructor
            · exact congrArg Prod.fst heq
            · exact congrArg Prod.snd heq
          obtain rfl : es = bes := by injection h2
          subst h1
          refine ⟨(bvs.filter (fun e =>
              !((es.map (fun x => jGet x "id")).any (fun i => jsValEq i (jGet e "id")))))
            ++ es, ?_, fun e he => List.mem_append_right _ he⟩
          rw [mergeLogBuckets_getAssoc_ne rest _ did hrest_ne]
          exact getAssoc_setAssoc_self _ _ _
        · refine ih _ (fun kv hkv => hel kv (by simp [hkv])) ?_ hnd.2 did es hm
          intro kv hkv
          rcases mem_setAssoc _ _ _ kv hkv with heq | hmm
          · exact ⟨_, congrArg Prod.snd heq⟩
          · exact hbl kv hmm
    · rw [if_neg hopt]
      rcases List.mem_cons.1 hmem with heq | hm
      · obtain ⟨h1, h2⟩ : did = d0 ∧ Json.arr es = Json.arr bes := by
          constructor
          · exact congrArg Prod.fst heq
          · exact congrArg Prod.snd heq
        obtain rfl : es = bes := by injection h2
        subst h1
        refine ⟨es, ?_, fun e he => he⟩
        rw [mergeLogBuckets_getAssoc_ne rest _ did hrest_ne]
        exact getAssoc_setAssoc_self _ _ _
      · refine ih _ (fun kv hkv => hel kv (by simp [hkv])) ?_ hnd.2 did es hm
        intro kv hkv
        rcases mem_setAssoc _ _ _ kv hkv with heq | hmm
        · exact ⟨bes, congrArg Prod.snd heq⟩
        · exact hbl kv hmm

/-- Shape of the reconciled canonical document on the fully-regular path:
both sides hold a `devices` array and an object-shaped `logs` record. -/
theorem mergeDevicesLogs_eq (tfs : List (String × Json)) (Sdoc : Json)
    (eds bds : List Json) (elogs blogs : List (String × Json))
    (hTdev : getAssoc tfs "devices" = some (Json.arr bds))
    (hSdev : jGet Sdoc "devices" = some (Json.arr eds))
    (hSlogs : jGet Sdoc "logs" = some (Json.obj elogs))
    (hTlogs : getAssoc tfs "logs" = some (Json.obj blogs)) :
    mergeDevicesLogs (Json.obj tfs) Sdoc
      = Json.obj (setAssoc (setAssoc tfs "devices"
          (Json.arr (eds ++ bds.filter (fun b =>
            !((eds.map (fun d => jGet d "id")).any (fun i => jsValEq i (jGet b "id")))))))
          "logs" (Json.obj (mergeLogBuckets elogs blogs))) := by
  unfold mergeDevicesLogs
  have h1 : jGet (Json.obj tfs) "devices" = some (Json.arr bds) := hTdev
  have h2 : jGet (Json.obj (setAssoc tfs "devices"
      (Json.arr (eds ++ bds.filter (fun b =>
        !((eds.map (fun d => jGet d "id")).any (fun i => jsValEq i (jGet b "id")))))))) "logs"
      = some (Json.obj blogs) := by
    show getAssoc (setAssoc tfs "devices" _) "logs" = _
    rw [getAssoc_setAssoc_ne _ _ _ _ (by decide)]
    exact hTlogs
  simp only [h1, hSdev, hSlogs, jSet, h2, truthy, if_true]

/-- C1 (amended): merge non-destructiveness of restore, with the freshness
hypothesis strengthened from `B.id ≠ A.id` to `B`'s id colliding with no
on-device id (the union filter keeps a backup device only when its id
matches none of the on-device ids): when the on-device canonical document
holds device `A` among its devices and log bucket `L_A` under key `aid`,
and the backup's canonical document holds device `B` whose id matches no
on-device device id, the reconciled document written back to the canonical
key contains both `A` and `B` in its device array and every entry of `L_A`
in its bucket for `aid`. -/
theorem restore_merge_nondestructive
    (backupJson : String) (st : Storage) (dts0 : List (String × Json))
    (tfs : List (String × Json)) (exs : String) (Sdoc : Json)
    (eds bds : List Json) (A B : Json)
    (elogs blogs : List (String × Json)) (aid : String) (LA : List Json)
    (hparse : parsePhase backupJson = .ok dts0)
    (hnodup : (dts0.map Prod.fst).Nodup)
    (hTget : getAssoc dts0 "app_data" = some (Json.obj tfs))
    (hex : getAssoc st "app_data" = some exs)
    (hexne : ¬(exs = ""))
    (hexp : parseJson exs = some Sdoc)
    (hStruthy : truthy Sdoc = true)
    (hSdev : jGet Sdoc "devices" = some (Json.arr eds))
    (hTdev : getAssoc tfs "devices" = some (Json.arr bds))
    (hA : A ∈ eds) (hB : B ∈ bds)
    (hfresh : (eds.map (fun d => jGet d "id")).any (fun i => jsValEq i (jGet B "id")) = false)
    (hSlogs : jGet Sdoc "logs" = some (Json.obj elogs))
    (hTlogs : getAssoc tfs "logs" = some (Json.obj blogs))
    (helarr : ∀ kv ∈ elogs, ∃ es, kv.2 = Json.arr es)
    (hblarr : ∀ kv ∈ blogs, ∃ es, kv.2 = Json.arr es)
    (helnodup : (elogs.map Prod.fst).Nodup)
    (hbucket : (aid, Json.arr LA) ∈ elogs) :
    ∃ ds mlogs bucket,
      getAssoc (restoreFromBackup backupJson st).2 "app_data"
        = some (stringify (mergeDevicesLogs (Json.obj tfs) Sdoc)) ∧
      jGet (mergeDevicesLogs (Json.obj tfs) Sdoc) "devices" = some (Json.arr ds) ∧
      A ∈ ds ∧ B ∈ ds ∧
      jGet (mergeDevicesLogs (Json.obj tfs) Sdoc) "logs" = some (Json.obj mlogs) ∧
      getAssoc mlogs aid = some (Json.arr bucket) ∧
      ∀ e ∈ LA, e ∈ bucket := by
  have hM := mergeDevicesLogs_eq tfs Sdoc eds bds elogs blogs hTdev hSdev hSlogs hTlogs
  have hdev : jGet (mergeDevicesLogs (Json.obj tfs) Sdoc) "devices"
      = some (Json.arr (eds ++ bds.filter (fun b =>
          !((eds.map (fun d => jGet d "id")).any (fun i => jsValEq i (jGet b "id")))))) := by
    rw [hM]
    show getAssoc _ "devices" = _
    rw [getAssoc_setAssoc_ne _ _ _ _ (by decide), getAssoc_setAssoc_self]
  have hlogsM : jGet (mergeDevicesLogs (Json.obj tfs) Sdoc) "logs"
      = some (Json.obj (mergeLogBuckets elogs blogs)) := by
    rw [hM]
    show getAssoc _ "logs" = _
    rw [getAssoc_setAssoc_self]
  obtain ⟨bucket, hbk, hbsub⟩ :=
    mergeLogBuckets_sub elogs blogs helarr hblarr helnodup aid LA hbucket
  have hBmem : B ∈ eds ++ bds.filter (fun b =>
      !((eds.map (fun d => jGet d "id")).any (fun i => jsValEq i (jGet b "id")))) := by
    refine List.mem_append_right _ (List.mem_filter.2 ⟨hB, ?_⟩)
    simp [hfresh]
  refine ⟨_, _, bucket, ?_, hdev, List.mem_append_left _ hA, hBmem, hlogsM, hbk, hbsub⟩
  have hcond : ∀ kv ∈ dts0, kv.1 = "app_data" →
      (truthy kv.2 && isObjLike kv.2 && optTruthy (jGet kv.2 "logs")) = true := by
    intro kv hkv hk1
    have hga : getAssoc dts0 "app_data" = some kv.2 := by
      rw [← hk1]
      exact getAssoc_of_mem_nodup hnodup hkv
    rw [hTget] at hga
    have heq : kv.2 = Json.obj tfs := by
      injection hga.symm
    rw [heq]
    simp [truthy, isObjLike, jGet, hTlogs, optTruthy]
  have hcne : ∀ kc ∈ cacheLogEntries dts0, kc.1 ≠ "app_data" :=
    cacheLogEntries_ne_appdata dts0 hcond
  have hmem : ("app_data", mergeDevicesLogs (Json.obj tfs) Sdoc)
      ∈ setAssoc dts0 "app_data" (mergeDevicesLogs (Json.obj tfs) Sdoc) :=
    setAssoc_mem_self _ _ _
  have hnotnull : mergeDevicesLogs (Json.obj tfs) Sdoc ≠ Json.null := by
    rw [hM]
    exact fun h => Json.noConfusion h
  have hnd2 : ((setAssoc dts0 "app_data" (mergeDevicesLogs (Json.obj tfs) Sdoc)).map
      Prod.fst).Nodup := setAssoc_map_fst_nodup _ _ hnodup
  have hjs : jsonToStorageString (mergeDevicesLogs (Json.obj tfs) Sdoc)
      = stringify (mergeDevicesLogs (Json.obj tfs) Sdoc) := by
    rw [hM]
    rfl
  have hEX : (match getAssoc st "app_data" with
      | some v => if v = "" then none else parseJson v
      | none => none) = some Sdoc := by
    rw [hex]
    simp only [if_neg hexne]
    exact hexp
  have hms : mergeStep dts0 (some Sdoc)
      = setAssoc dts0 "app_data" (mergeDevicesLogs (Json.obj tfs) Sdoc) := by
    unfold mergeStep
    rw [hTget]
    simp only [hStruthy]
    simp [truthy]
  unfold restoreFromBackup
  rw [hparse]
  unfold applyPhase
  simp only []
  rw [hEX, hms]
  split
  · rw [cachedFold_preserve _ _ _ _ hcne,
      writeFold_getAssoc _ _ _ (mergeDevicesLogs (Json.obj tfs) Sdoc) hmem hnotnull hnd2, hjs]
  · rw [cachedFold_preserve _ _ _ _ hcne,
      writeFold_getAssoc _ _ _ (mergeDevicesLogs (Json.obj tfs) Sdoc) hmem hnotnull hnd2, hjs]

set_option maxRecDepth 100000 in
set_option maxHeartbeats 2000000 in
/-- Witness for the amended C1: a backup taken from a store holding device
`b` restored onto a store holding device `a` with one log entry. -/
theorem restore_merge_nondestructive_witness :
    ∃ ds mlogs bucket,
      getAssoc (restoreFromBackup
          (createBackup [("app_data", jsonToStorageString (encodeAppData storeT))] "ts")
          [("app_data", jsonToStorageString (encodeAppData storeS))]).2 "app_data"
        = some (stringify (mergeDevicesLogs
            (Json.obj [("devices", Json.arr [encodeDevice devB]),
              ("users", Json.arr ([] : List Json)),
              ("logs", Json.obj [("b", Json.arr [encodeLog logB1])]),
              ("globalSettings", Json.obj [("adminNumber", Json.str ""),
                ("activeDeviceId", Json.str "b"),
                ("completedSteps", Json.arr ([] : List Json))])])
            (encodeAppData storeS))) ∧
      jGet (mergeDevicesLogs
          (Json.obj [("devices", Json.arr [encodeDevice devB]),
            ("users", Json.arr ([] : List Json)),
            ("logs", Json.obj [("b", Json.arr [encodeLog logB1])]),
            ("globalSettings", Json.obj [("adminNumber", Json.str ""),
              ("activeDeviceId", Json.str "b"),
              ("completedSteps", Json.arr ([] : List Json))])])
          (encodeAppData storeS)) "devices" = some (Json.arr ds) ∧
      encodeDevice devA ∈ ds ∧ encodeDevice devB ∈ ds ∧
      jGet (mergeDevicesLogs
          (Json.obj [("devices", Json.arr [encodeDevice devB]),
            ("users", Json.arr ([] : List Json)),
            ("logs", Json.obj [("b", Json.arr [encodeLog logB1])]),
            ("globalSettings", Json.obj [("adminNumber", Json.str ""),
              ("activeDeviceId", Json.str "b"),
              ("completedSteps", Json.arr ([] : List Json))])])
          (encodeAppData storeS)) "logs" = some (Json.obj mlogs) ∧
      getAssoc mlogs "a" = some (Json.arr bucket) ∧
      ∀ e ∈ [encodeLog logA1], e ∈ bucket :=
  restore_merge_nondestructive
    (createBackup [("app_data", jsonToStorageString (encodeAppData storeT))] "ts")
    [("app_data", jsonToStorageString (encodeAppData storeS))]
    [("app_data", Json.obj [("devices", Json.arr [encodeDevice devB]),
      ("users", Json.arr ([] : List Json)),
      ("logs", Json.obj [("b", Json.arr [encodeLog logB1])]),
      ("globalSettings", Json.obj [("adminNumber", Json.str ""),
        ("activeDeviceId", Json.str "b"),
        ("completedSteps", Json.arr ([] : List Json))])])]
    [("devices", Json.arr [encodeDevice devB]),
      ("users", Json.arr ([] : List Json)),
      ("logs", Json.obj [("b", Json.arr [encodeLog logB1])]),
      ("globalSettings", Json.obj [("adminNumber", Json.str ""),
        ("activeDeviceId", Json.str "b"),
        ("completedSteps", Json.arr ([] : List Json))])]
    (jsonToStorageString (encodeAppData storeS))
    (encodeAppData storeS)
    [encodeDevice devA] [encodeDevice devB]
    (encodeDevice devA) (encodeDevice devB)
    [("a", Json.arr [encodeLog logA1])] [("b", Json.arr [encodeLog logB1])]
    "a" [encodeLog logA1]
    rfl (by decide) rfl rfl (by decide) rfl rfl rfl rfl
    (by simp) (by simp) rfl rfl rfl
    (fun kv hkv => by
      simp only [List.mem_singleton] at hkv
      exact ⟨[encodeLog logA1], by rw [hkv]⟩)
    (fun kv hkv => by
      simp only [List.mem_singleton] at hkv
      exact ⟨[encodeLog logB1], by rw [hkv]⟩)
    (by decide) (by simp)

set_option maxRecDepth 100000 in
set_option maxHeartbeats 2000000 in
/-- C1 counterexample to the claim as written: the on-device store also
holds a second device whose id collides with the backup device `b`
(while `devB.id ≠ devA.id` still holds), and after the restore the stored
device list contains `devA` and the shadow device but not `devB` — the
union filter drops any backup device whose id matches any on-device id,
not just `A`'s. -/
theorem restore_merge_shadow_cex :
    devB.id ≠ devA.id ∧
    devA ∈ storeSBshadow.devices ∧
    getAssoc storeSBshadow.logs "a" = some [logA1] ∧
    devB ∈ storeT.devices ∧
    ((getAssoc (restoreFromBackup
          (createBackup [("app_data", jsonToStorageString (encodeAppData storeT))] "ts")
          [("app_data", jsonToStorageString (encodeAppData storeSBshadow))]).2
        "app_data").bind parseJson).bind decodeAppData
      = some { devices := [devA, devShadow], users := [],
               logs := [("b", [logB1]), ("a", [logA1])],
               globalSettings := { adminNumber := "", activeDeviceId := some "b",
                                   completedSteps := [] } } ∧
    devB ∉ [devA, devShadow] := by
  refine ⟨by decide, by decide, rfl, by decide, rfl, by decide⟩

/-! ## JSON stringify/parse round trip on plain documents -/

theorem Json.myInduction (P : Json → Prop)
    (hnull : P .null) (hbool : ∀ b, P (.bool b)) (hnum : ∀ n, P (.num n))
    (hstr : ∀ s, P (.str s))
    (harr : ∀ xs, (∀ j ∈ xs, P j) → P (.arr xs))
    (hobj : ∀ fs, (∀ kv ∈ fs, P kv.2) → P (.obj fs)) : ∀ j, P j := by
  have H : ∀ n (j : Json), sizeOf j ≤ n → P j := by
    intro n
    induction n with
    | zero =>
      intro j hj
      cases j <;> simp only [Json.null.sizeOf_spec, Json.bool.sizeOf_spec, Json.num.sizeOf_spec,
        Json.str.sizeOf_spec, Json.arr.sizeOf_spec, Json.obj.sizeOf_spec] at hj <;> omega
    | succ n ih =>
      intro j hj
      cases j with
      | null => exact hnull
      | bool b => exact hbool b
      | num m => exact hnum m
      | str s => exact hstr s
      | arr xs =>
        refine harr xs (fun x hx => ih x ?_)
        have h1 := List.sizeOf_lt_of_mem hx
        have h2 : sizeOf (Json.arr xs) = 1 + sizeOf xs := by simp
        omega
      | obj fs =>
        refine hobj fs (fun kv hkv => ih kv.2 ?_)
        have h1 := List.sizeOf_lt_of_mem hkv
        have h2 : sizeOf (Json.obj fs) = 1 + sizeOf fs := by simp
        have h3 : sizeOf kv.2 < sizeOf kv := by
          obtain ⟨a, b⟩ := kv
          simp
        omega
  exact fun j => H (sizeOf j) j le_rfl

theorem plainChar_spec {c : Char} (h : plainChar c = true) :
    32 ≤ c.toNat ∧ c ≠ '\x7b' ∧ c ≠ '\x7d' := by
  simp only [plainChar, Bool.and_eq_true, decide_eq_true_eq] at h
  exact ⟨h.1.1, h.1.2, h.2⟩

theorem skipWs_cons {c : Char} (l : List Char) (h : isJsonWs c = false) :
    skipWs (c :: l) = c :: l := by
  simp [skipWs, List.dropWhile_cons, h]

theorem strMk_toList (s : String) : String.mk s.toList = s := rfl

theorem escapeChar_plain {c : Char} (h32 : 32 ≤ c.toNat) (hq : c ≠ '"') (hb : c ≠ '\\') :
    escapeChar c = [c] := by
  have h8 : c ≠ Char.ofNat 8 := by
    intro h; rw [h] at h32; exact absurd h32 (by decide)
  have h9 : c ≠ Char.ofNat 9 := by
    intro h; rw [h] at h32; exact absurd h32 (by decide)
  have h10 : c ≠ Char.ofNat 10 := by
    intro h; rw [h] at h32; exact absurd h32 (by decide)
  have h12 : c ≠ Char.ofNat 12 := by
    intro h; rw [h] at h32; exact absurd h32 (by decide)
  have h13 : c ≠ Char.ofNat 13 := by
    intro h; rw [h] at h32; exact absurd h32 (by decide)
  have hlt : ¬(c.toNat < 32) := by omega
  unfold escapeChar
  rw [if_neg hq, if_neg hb, if_neg h8, if_neg h9, if_neg h10, if_neg h12, if_neg h13, if_neg hlt]

theorem psb_round : ∀ (s : List Char), (∀ c ∈ s, plainChar c = true) → ∀ (rest : List Char),
    parseStringBody (escapeChars s ++ '"' :: rest) = some (s, rest) := by
  intro s
  induction s with
  | nil =>
    intro _ rest
    show parseStringBody ('"' :: rest) = _
    rw [parseStringBody.eq_def]
    rfl
  | cons c s' ih =>
    intro hp rest
    have hc := plainChar_spec (hp c (by simp))
    have ih' := ih (fun x hx => hp x (by simp [hx])) rest
    by_cases hq : c = '"'
    · subst hq
      show parseStringBody ('\\' :: '"' :: (escapeChars s' ++ '"' :: rest)) = _
      rw [parseStringBody.eq_def]
      simp only [ih']
      rfl
    · by_cases hb : c = '\\'
      · subst hb
        show parseStringBody ('\\' :: '\\' :: (escapeChars s' ++ '"' :: rest)) = _
        rw [parseStringBody.eq_def]
        simp only [ih']
        rfl
      · have he : escapeChars (c :: s') ++ '"' :: rest = c :: (escapeChars s' ++ '"' :: rest) := by
          simp [escapeChars, escapeChar_plain hc.1 hq hb]
        rw [he, parseStringBody.eq_def]
        simp only [ih']
        rw [if_neg hq, if_neg hb, if_neg (by omega : ¬(c.toNat < 32))]
        rfl

theorem jsonPlainArr_mem {xs : List Json} (h : jsonPlainArr xs = true) :
    ∀ j ∈ xs, jsonPlain j = true := by
  induction xs with
  | nil => intro j hj; simp at hj
  | cons x xs ih =>
    rw [jsonPlainArr, Bool.and_eq_true] at h
    intro j hj
    rcases List.mem_cons.1 hj with rfl | hm
    · exact h.1
    · exact ih h.2 j hm

theorem jsonPlainObj_mem {fs : List (String × Json)} (h : jsonPlainObj fs = true) :
    ∀ kv ∈ fs, kv.1.toList.all plainChar = true ∧ jsonPlain kv.2 = true := by
  induction fs with
  | nil => intro kv hkv; simp at hkv
  | cons f fs ih =>
    obtain ⟨k, v⟩ := f
    rw [jsonPlainObj, Bool.and_eq_true, Bool.and_eq_true] at h
    intro kv hkv
    rcases List.mem_cons.1 hkv with rfl | hm
    · exact ⟨h.1.1, h.1.2⟩
    · exact ih h.2 kv hm

theorem setAssoc_not_mem {α : Type} (l : List (String × α)) (k : String) (v : α)
    (h : k ∉ l.map Prod.fst) : setAssoc l k v = l ++ [(k, v)] := by
  induction l with
  | nil => rfl
  | cons hd tl ih =>
    obtain ⟨k', v'⟩ := hd
    simp only [List.map_cons, List.mem_cons, not_or] at h
    unfold setAssoc
    rw [if_neg (fun he => h.1 he.symm), ih h.2]
    rfl

theorem distinctKeys_head {k : String} {ks : List String}
    (h : distinctKeys (k :: ks) = true) : k ∉ ks ∧ distinctKeys ks = true := by
  simp only [distinctKeys, Bool.and_eq_true, Bool.not_eq_true'] at h
  refine ⟨fun hm => ?_, h.2⟩
  have h3 : ks.contains k = true := List.elem_eq_true_of_mem hm
  rw [h3] at h
  exact absurd h.1 (by simp)

theorem foldl_setAssoc_eq (fs : List (String × Json)) :
    ∀ (acc : List (String × Json)), distinctKeys (fs.map Prod.fst) = true →
    (∀ k ∈ fs.map Prod.fst, k ∉ acc.map Prod.fst) →
    fs.foldl (fun acc kv => setAssoc acc kv.1 kv.2) acc = acc ++ fs := by
  induction fs with
  | nil => intro acc _ _; simp
  | cons f fs ih =>
    intro acc hd hdisj
    obtain ⟨k, v⟩ := f
    simp only [List.map_cons] at hd
    obtain ⟨hknot, hd2⟩ := distinctKeys_head hd
    rw [List.foldl_cons]
    have h1 : setAssoc acc k v = acc ++ [(k, v)] :=
      setAssoc_not_mem acc k v (hdisj k (by simp))
    rw [h1, ih (acc ++ [(k, v)]) hd2]
    · simp
    · intro k' hk'
      simp only [List.map_append, List.mem_append, not_or]
      refine ⟨hdisj k' (by simp [hk']), ?_⟩
      simp only [List.map_cons, List.map_nil, List.mem_singleton]
      intro he
      exact hknot (he ▸ hk')

theorem jfuel_pos : ∀ j : Json, 1 ≤ jfuel j := by
  intro j
  cases j with
  | null => exact le_refl 1
  | bool b => exact le_refl 1
  | num n => exact le_refl 1
  | str s => exact le_refl 1
  | arr xs => cases xs <;> simp [jfuel]
  | obj fs => cases fs <;> simp [jfuel]

theorem jfuelElems_pos : ∀ xs : List Json, 1 ≤ jfuelElems xs := by
  intro xs
  match xs with
  | [] => exact le_refl 1
  | [x] => simp [jfuelElems]
  | x :: y :: xs => simp only [jfuelElems]; omega

theorem jfuelMembers_pos : ∀ fs : List (String × Json), 1 ≤ jfuelMembers fs := by
  intro fs
  match fs with
  | [] => exact le_refl 1
  | [(k, v)] => simp [jfuelMembers]
  | (k, v) :: m :: fs => simp only [jfuelMembers]; omega

/-- The head of a plain stringified value: never whitespace, a comma, or a
closing bracket or brace. -/
theorem stringify_head_plain (j : Json) (h : jsonPlain j = true) :
    ∃ c t, stringifyJson j = c :: t ∧ isJsonWs c = false ∧ c ≠ ']' ∧ c ≠ '\x7d' ∧ c ≠ ',' := by
  cases j with
  | null => exact ⟨'n', _, rfl, by decide, by decide, by decide, by decide⟩
  | bool b => cases b
              · exact ⟨'f', _, rfl, by decide, by decide, by decide, by decide⟩
              · exact ⟨'t', _, rfl, by decide, by decide, by decide, by decide⟩
  | num n => exact absurd h (by simp [jsonPlain])
  | str s => exact ⟨'"', _, rfl, by decide, by decide, by decide, by decide⟩
  | arr xs => exact ⟨'[', _, rfl, by decide, by decide, by decide, by decide⟩
  | obj fs => exact ⟨'\x7b', _, rfl, by decide, by decide, by decide, by decide⟩

theorem jfuelElems_le (xs : List Json)
    (h : ∀ j ∈ xs, jfuel j ≤ (stringifyJson j).length) :
    jfuelElems xs ≤ (stringifyArr xs).length + 1 := by
  induction xs with
  | nil => simp [jfuelElems, stringifyArr]
  | cons x xs ih =>
    cases xs with
    | nil =>
      have hx := h x (by simp)
      simp only [jfuelElems, stringifyArr]
      omega
    | cons y ys =>
      have hx := h x (by simp)
      have ihy := ih (fun j hj => h j (by simp [hj]))
      simp only [jfuelElems, stringifyArr, List.length_append, List.length_cons] at ihy ⊢
      omega

theorem jfuelMembers_le (fs : List (String × Json))
    (h : ∀ kv ∈ fs, jfuel kv.2 ≤ (stringifyJson kv.2).length) :
    jfuelMembers fs ≤ (stringifyObj fs).length + 1 := by
  induction fs with
  | nil => simp [jfuelMembers, stringifyObj]
  | cons f fs ih =>
    obtain ⟨k, v⟩ := f
    cases fs with
    | nil =>
      have hv := h (k, v) (by simp)
      simp only [jfuelMembers, stringifyObj, List.length_append, List.length_cons] at hv ⊢
      omega
    | cons m ms =>
      have hv := h (k, v) (by simp)
      have ihm := ih (fun kv hkv => h kv (by simp [hkv]))
      simp only [jfuelMembers, stringifyObj, List.length_append, List.length_cons] at hv ihm ⊢
      omega

theorem jfuel_le : ∀ j : Json, jsonPlain j = true → jfuel j ≤ (stringifyJson j).length := by
  intro j
  induction j using Json.myInduction with
  | hnull => intro _; decide
  | hbool b => intro _; cases b <;> decide
  | hnum n => intro hp; exact absurd hp (by simp [jsonPlain])
  | hstr s =>
    intro _
    simp only [jfuel, stringifyJson, List.length_cons, List.length_append]
    omega
  | harr xs ihx =>
    intro hp
    cases xs with
    | nil => decide
    | cons x ys =>
      have hpl : jsonPlainArr (x :: ys) = true := hp
      have helems : ∀ j ∈ x :: ys, jfuel j ≤ (stringifyJson j).length :=
        fun j hj => ihx j hj (jsonPlainArr_mem hpl j hj)
      have hle := jfuelElems_le (x :: ys) helems
      simp only [jfuel, stringifyJson, List.length_cons, List.length_append] at hle ⊢
      omega
  | hobj fs ihf =>
    intro hp
    cases fs with
    | nil => decide
    | cons kv fs' =>
      rw [jsonPlain, Bool.and_eq_true] at hp
      have hmembers : ∀ f ∈ kv :: fs', jfuel f.2 ≤ (stringifyJson f.2).length :=
        fun f hf => ihf f hf (jsonPlainObj_mem hp.2 f hf).2
      have hle := jfuelMembers_le (kv :: fs') hmembers
      simp only [jfuel, stringifyJson, List.length_cons, List.length_append] at hle ⊢
      omega

theorem skipWs_quote (l : List Char) : skipWs ('"' :: l) = '"' :: l := skipWs_cons l (by decide)

theorem skipWs_colon (l : List Char) : skipWs (':' :: l) = ':' :: l := skipWs_cons l (by decide)

theorem skipWs_comma (l : List Char) : skipWs (',' :: l) = ',' :: l := skipWs_cons l (by decide)

theorem skipWs_rbrack (l : List Char) : skipWs (']' :: l) = ']' :: l := skipWs_cons l (by decide)

theorem skipWs_rbrace (l : List Char) : skipWs ('\x7d' :: l) = '\x7d' :: l :=
  skipWs_cons l (by decide)

theorem stringifyArr_head (x : Json) (ys : List Json) :
    ∃ u, stringifyArr (x :: ys) = stringifyJson x ++ u := by
  cases ys with
  | nil => exact ⟨[], by simp [stringifyArr]⟩
  | cons y ys => exact ⟨_, rfl⟩

theorem stringifyObj_head (k : String) (v : Json) (fs : List (String × Json)) :
    ∃ u, stringifyObj ((k, v) :: fs) = '"' :: u := by
  cases fs with
  | nil => exact ⟨_, rfl⟩
  | cons m ms => exact ⟨_, rfl⟩

theorem parse_roundtrip : ∀ fuel : Nat,
    (∀ j rest, jsonPlain j = true → jfuel j ≤ fuel →
      parseValue fuel (stringifyJson j ++ rest) = some (j, rest)) ∧
    (∀ xs rest, jsonPlainArr xs = true → jfuelElems xs ≤ fuel → xs ≠ [] →
      parseElems fuel (stringifyArr xs ++ ']' :: rest) = some (xs, rest)) ∧
    (∀ fs rest, jsonPlainObj fs = true → jfuelMembers fs ≤ fuel → fs ≠ [] →
      parseMembers fuel (stringifyObj fs ++ '\x7d' :: rest) = some (fs, rest)) := by
  intro fuel
  induction fuel with
  | zero =>
    refine ⟨fun j _ _ hf => absurd hf (by have := jfuel_pos j; omega),
            fun xs _ _ hf _ => absurd hf (by have := jfuelElems_pos xs; omega),
            fun fs _ _ hf _ => absurd hf (by have := jfuelMembers_pos fs; omega)⟩
  | succ fuel ih =>
    obtain ⟨ihV, ihE, ihM⟩ := ih
    refine ⟨?_, ?_, ?_⟩
    · intro j rest hp hf
      cases j with
      | null =>
        show parseValue (fuel + 1) ('n' :: 'u' :: 'l' :: 'l' :: rest) = _
        simp only [parseValue, skipWs_cons _ (by decide : isJsonWs 'n' = false)]
      | bool b =>
        cases b with
        | true =>
          show parseValue (fuel + 1) ('t' :: 'r' :: 'u' :: 'e' :: rest) = _
          simp only [parseValue, skipWs_cons _ (by decide : isJsonWs 't' = false)]
        | false =>
          show parseValue (fuel + 1) ('f' :: 'a' :: 'l' :: 's' :: 'e' :: rest) = _
          simp only [parseValue, skipWs_cons _ (by decide : isJsonWs 'f' = false)]
      | num n => exact absurd hp (by simp [jsonPlain])
      | str s =>
        have hps : ∀ c ∈ s.toList, plainChar c = true := by
          rw [jsonPlain] at hp
          exact fun c hc => List.all_eq_true.1 hp c hc
        have harr : stringifyJson (.str s) ++ rest
            = '"' :: (escapeChars s.toList ++ '"' :: rest) := by
          simp [stringifyJson, List.append_assoc]
        rw [harr]
        simp only [parseValue, skipWs_quote, psb_round s.toList hps, Option.map_some',
          strMk_toList]
      | arr xs =>
        cases xs with
        | nil =>
          show parseValue (fuel + 1) ('[' :: ']' :: rest) = _
          simp only [parseValue, skipWs_cons _ (by decide : isJsonWs '[' = false),
            skipWs_rbrack]
        | cons x ys =>
          have hpl : jsonPlainArr (x :: ys) = true := hp
          have hfx : jfuelElems (x :: ys) ≤ fuel := by
            have he : jfuel (.arr (x :: ys)) = 1 + jfuelElems (x :: ys) := rfl
            omega
          have hx : jsonPlain x = true := jsonPlainArr_mem hpl x (by simp)
          obtain ⟨c, t, hct, hnws, hnr, hnb, hnc⟩ := stringify_head_plain x hx
          obtain ⟨u, hu⟩ := stringifyArr_head x ys
          have harr : stringifyJson (.arr (x :: ys)) ++ rest
              = '[' :: (stringifyArr (x :: ys) ++ ']' :: rest) := by
            simp [stringifyJson, List.append_assoc]
          rw [harr]
          simp only [parseValue, skipWs_cons _ (by decide : isJsonWs '[' = false)]
          have hskip2 : skipWs (stringifyArr (x :: ys) ++ ']' :: rest)
              = stringifyArr (x :: ys) ++ ']' :: rest := by
            rw [hu, hct]
            simp only [List.cons_append]
            exact skipWs_cons _ hnws
          rw [hskip2]
          split
          · rename_i r2 heq
            rw [hu, hct] at heq
            simp only [List.cons_append, List.cons.injEq] at heq
            exact absurd heq.1 hnr
          · rw [ihE (x :: ys) rest hpl hfx (by simp)]
            rfl
      | obj fs =>
        cases fs with
        | nil =>
          show parseValue (fuel + 1) ('\x7b' :: '\x7d' :: rest) = _
          simp only [parseValue, skipWs_cons _ (by decide : isJsonWs '\x7b' = false),
            skipWs_rbrace]
        | cons kv fs' =>
          rw [jsonPlain, Bool.and_eq_true] at hp
          have hfm : jfuelMembers (kv :: fs') ≤ fuel := by
            have he : jfuel (.obj (kv :: fs')) = 1 + jfuelMembers (kv :: fs') := rfl
            omega
          obtain ⟨k, v⟩ := kv
          obtain ⟨u, hu⟩ := stringifyObj_head k v fs'
          have harr : stringifyJson (.obj ((k, v) :: fs')) ++ rest
              = '\x7b' :: (stringifyObj ((k, v) :: fs') ++ '\x7d' :: rest) := by
            simp [stringifyJson, List.append_assoc]
          rw [harr]
          simp only [parseValue, skipWs_cons _ (by decide : isJsonWs '\x7b' = false)]
          have hskip2 : skipWs (stringifyObj ((k, v) :: fs') ++ '\x7d' :: rest)
              = stringifyObj ((k, v) :: fs') ++ '\x7d' :: rest := by
            rw [hu]
            simp only [List.cons_append]
            exact skipWs_quote _
          rw [hskip2]
          split
          · rename_i r2 heq
            rw [hu] at heq
            simp only [List.cons_append, List.cons.injEq] at heq
            exact absurd heq.1 (by decide)
          · rw [ihM ((k, v) :: fs') rest hp.2 hfm (by simp)]
            show some (Json.obj (((k, v) :: fs').foldl
              (fun acc kv => setAssoc acc kv.1 kv.2) []), rest) = _
            rw [foldl_setAssoc_eq ((k, v) :: fs') [] hp.1 (by simp)]
            simp
    · intro xs rest hpl hfe hne
      cases xs with
      | nil => exact absurd rfl hne
      | cons x ys =>
        have hx : jsonPlain x = true := jsonPlainArr_mem hpl x (by simp)
        cases ys with
        | nil =>
          have hfx : jfuel x ≤ fuel := by
            have he : jfuelElems [x] = 1 + jfuel x := rfl
            omega
          show parseElems (fuel + 1) (stringifyJson x ++ ']' :: rest) = _
          simp only [parseElems, ihV x (']' :: rest) hx hfx, skipWs_rbrack]
        | cons y ys' =>
          have hfx : jfuel x ≤ fuel := by
            have he : jfuelElems (x :: y :: ys') = 1 + jfuel x + jfuelElems (y :: ys') := rfl
            omega
          have hfey : jfuelElems (y :: ys') ≤ fuel := by
            have he : jfuelElems (x :: y :: ys') = 1 + jfuel x + jfuelElems (y :: ys') := rfl
            omega
          have hply : jsonPlainArr (y :: ys') = true := by
            rw [jsonPlainArr, Bool.and_eq_true] at hpl
            exact hpl.2
          have harr : stringifyArr (x :: y :: ys') ++ ']' :: rest
              = stringifyJson x ++ ',' :: (stringifyArr (y :: ys') ++ ']' :: rest) := by
            simp [stringifyArr, List.append_assoc]
          rw [harr]
          simp only [parseElems,
            ihV x (',' :: (stringifyArr (y :: ys') ++ ']' :: rest)) hx hfx,
            skipWs_comma, ihE (y :: ys') rest hply hfey (by simp), Option.map_some']
    · intro fs rest hpo hfm hne
      cases fs with
      | nil => exact absurd rfl hne
      | cons kv fs' =>
        obtain ⟨k, v⟩ := kv
        have hkv := jsonPlainObj_mem hpo (k, v) (by simp)
        have hps : ∀ c ∈ k.toList, plainChar c = true :=
          fun c hc => List.all_eq_true.1 hkv.1 c hc
        have hv : jsonPlain v = true := hkv.2
        cases fs' with
        | nil =>
          have hfv : jfuel v ≤ fuel := by
            have he : jfuelMembers [(k, v)] = 1 + jfuel v := rfl
            omega
          have harr : stringifyObj [(k, v)] ++ '\x7d' :: rest
              = '"' :: (escapeChars k.toList ++ '"' ::
                  (':' :: (stringifyJson v ++ '\x7d' :: rest))) := by
            simp [stringifyObj, List.append_assoc]
          rw [harr]
          simp only [parseMembers, skipWs_quote,
            psb_round k.toList hps (':' :: (stringifyJson v ++ '\x7d' :: rest)),
            skipWs_colon, ihV v ('\x7d' :: rest) hv hfv, skipWs_rbrace, strMk_toList]
        | cons m fs'' =>
          have hfv : jfuel v ≤ fuel := by
            have he : jfuelMembers ((k, v) :: m :: fs'')
                = 1 + jfuel v + jfuelMembers (m :: fs'') := rfl
            omega
          have hfm' : jfuelMembers (m :: fs'') ≤ fuel := by
            have he : jfuelMembers ((k, v) :: m :: fs'')
                = 1 + jfuel v + jfuelMembers (m :: fs'') := rfl
            omega
          have hpm : jsonPlainObj (m :: fs'') = true := by
            rw [jsonPlainObj, Bool.and_eq_true, Bool.and_eq_true] at hpo
            exact hpo.2
          have harr : stringifyObj ((k, v) :: m :: fs'') ++ '\x7d' :: rest
              = '"' :: (escapeChars k.toList ++ '"' ::
                  (':' :: (stringifyJson v ++ ',' ::
                    (stringifyObj (m :: fs'') ++ '\x7d' :: rest)))) := by
            simp [stringifyObj, List.append_assoc]
          rw [harr]
          simp only [parseMembers, skipWs_quote,
            psb_round k.toList hps
              (':' :: (stringifyJson v ++ ',' :: (stringifyObj (m :: fs'') ++ '\x7d' :: rest))),
            skipWs_colon,
            ihV v (',' :: (stringifyObj (m :: fs'') ++ '\x7d' :: rest)) hv hfv,
            skipWs_comma, ihM (m :: fs'') rest hpm hfm' (by simp),
            Option.map_some', strMk_toList]

theorem parseJsonChars_stringify (j : Json) (h : jsonPlain j = true) :
    parseJsonChars (stringifyJson j) = some j := by
  have hr := (parse_roundtrip ((stringifyJson j).length + 1)).1 j [] h
    (by have := jfuel_le j h; omega)
  rw [List.append_nil] at hr
  unfold parseJsonChars
  rw [hr]
  rfl

/-! ## The brace-balancing scan on stringified plain documents -/

theorem scanStep_neutral_char (c : Char) (h1 : c ≠ '\x7b') (h2 : c ≠ '\x7d')
    (cnt : Int) (i lv : Nat) : scanStep (cnt, i, lv) c = (cnt, i + 1, lv) := by
  unfold scanStep
  rw [if_neg h1, if_neg h2]

theorem scan_neutral (seg : List Char) (hseg : ∀ c ∈ seg, c ≠ '\x7b' ∧ c ≠ '\x7d') :
    ∀ (cnt : Int) (i lv : Nat), seg.foldl scanStep (cnt, i, lv) = (cnt, i + seg.length, lv) := by
  induction seg with
  | nil => intro cnt i lv; simp
  | cons c seg ih =>
    intro cnt i lv
    have hc := hseg c (by simp)
    rw [List.foldl_cons, scanStep_neutral_char c hc.1 hc.2,
      ih (fun x hx => hseg x (by simp [hx]))]
    simp only [List.length_cons]
    have harith : i + 1 + seg.length = i + (seg.length + 1) := by omega
    rw [harith]

theorem escapeChar_no_brace (c : Char) (h : plainChar c = true) :
    ∀ x ∈ escapeChar c, x ≠ '\x7b' ∧ x ≠ '\x7d' := by
  obtain ⟨h32, hb1, hb2⟩ := plainChar_spec h
  by_cases hq : c = '"'
  · subst hq
    intro x hx
    rw [show escapeChar '"' = ['\\', '"'] from rfl] at hx
    rcases List.mem_cons.1 hx with rfl | hx2
    · exact ⟨by decide, by decide⟩
    · rcases List.mem_singleton.1 hx2 with rfl
      exact ⟨by decide, by decide⟩
  · by_cases hbb : c = '\\'
    · subst hbb
      intro x hx
      rw [show escapeChar '\\' = ['\\', '\\'] from rfl] at hx
      rcases List.mem_cons.1 hx with rfl | hx2
      · exact ⟨by decide, by decide⟩
      · rcases List.mem_singleton.1 hx2 with rfl
        exact ⟨by decide, by decide⟩
    · intro x hx
      rw [escapeChar_plain h32 hq hbb] at hx
      rcases List.mem_singleton.1 hx with rfl
      exact ⟨hb1, hb2⟩

theorem escapeChars_no_brace (s : List Char) (h : ∀ c ∈ s, plainChar c = true) :
    ∀ x ∈ escapeChars s, x ≠ '\x7b' ∧ x ≠ '\x7d' := by
  intro x hx
  simp only [escapeChars, List.mem_flatMap] at hx
  obtain ⟨c, hc, hxc⟩ := hx
  exact escapeChar_no_brace c (h c hc) x hxc

theorem scan_members (fs : List (String × Json))
    (hall : ∀ kv ∈ fs, (∀ c ∈ kv.1.toList, plainChar c = true) ∧
      (∀ (cnt : Int) (i lv : Nat), 1 ≤ cnt →
        (stringifyJson kv.2).foldl scanStep (cnt, i, lv)
          = (cnt, i + (stringifyJson kv.2).length, lv))) :
    ∀ (cnt : Int) (i lv : Nat), 1 ≤ cnt →
    (stringifyObj fs).foldl scanStep (cnt, i, lv) = (cnt, i + (stringifyObj fs).length, lv) := by
  induction fs with
  | nil => intro cnt i lv _; simp [stringifyObj]
  | cons f fs ih =>
    obtain ⟨k, v⟩ := f
    have hk := (hall (k, v) (by simp)).1
    have hv := (hall (k, v) (by simp)).2
    cases fs with
    | nil =>
      intro cnt i lv hcnt
      show ('"' :: escapeChars k.toList ++ '"' :: ':' :: stringifyJson v).foldl
          scanStep (cnt, i, lv) = _
      simp only [List.cons_append]
      rw [List.foldl_cons, scanStep_neutral_char _ (by decide) (by decide),
        List.foldl_append, scan_neutral _ (escapeChars_no_brace k.toList hk),
        List.foldl_cons, scanStep_neutral_char _ (by decide) (by decide),
        List.foldl_cons, scanStep_neutral_char _ (by decide) (by decide),
        hv cnt _ lv hcnt]
      simp only [stringifyObj, Prod.mk.injEq, List.length_cons, List.length_append,
        List.length_singleton, List.length_nil, true_and, and_true]
      omega
    | cons m ms =>
      intro cnt i lv hcnt
      show ('"' :: escapeChars k.toList ++ '"' :: ':' :: stringifyJson v
          ++ ',' :: stringifyObj (m :: ms)).foldl scanStep (cnt, i, lv) = _
      simp only [List.cons_append, List.append_assoc]
      rw [List.foldl_cons, scanStep_neutral_char _ (by decide) (by decide),
        List.foldl_append, scan_neutral _ (escapeChars_no_brace k.toList hk),
        List.foldl_cons, scanStep_neutral_char _ (by decide) (by decide),
        List.foldl_cons, scanStep_neutral_char _ (by decide) (by decide),
        List.foldl_append, hv cnt _ lv hcnt,
        List.foldl_cons, scanStep_neutral_char _ (by decide) (by decide),
        ih (fun kv hkv => hall kv (by simp [hkv])) cnt _ lv hcnt]
      show _ = (cnt, i + (stringifyObj ((k, v) :: m :: ms)).length, lv)
      simp only [stringifyObj, Prod.mk.injEq, List.length_cons, List.length_append,
        List.length_singleton, List.length_nil, true_and, and_true]
      omega

theorem scan_elems (xs : List Json)
    (hall : ∀ j ∈ xs, ∀ (cnt : Int) (i lv : Nat), 1 ≤ cnt →
      (stringifyJson j).foldl scanStep (cnt, i, lv) = (cnt, i + (stringifyJson j).length, lv)) :
    ∀ (cnt : Int) (i lv : Nat), 1 ≤ cnt →
    (stringifyArr xs).foldl scanStep (cnt, i, lv) = (cnt, i + (stringifyArr xs).length, lv) := by
  induction xs with
  | nil => intro cnt i lv _; simp [stringifyArr]
  | cons x xs ih =>
    cases xs with
    | nil =>
      intro cnt i lv hcnt
      show (stringifyJson x).foldl scanStep (cnt, i, lv)
          = (cnt, i + (stringifyArr [x]).length, lv)
      rw [hall x (by simp) cnt i lv hcnt]
      rfl
    | cons y ys =>
      intro cnt i lv hcnt
      show (stringifyJson x ++ ',' :: stringifyArr (y :: ys)).foldl scanStep (cnt, i, lv) = _
      rw [List.foldl_append, hall x (by simp) cnt i lv hcnt,
        List.foldl_cons, scanStep_neutral_char _ (by decide) (by decide),
        ih (fun j hj => hall j (by simp [hj])) cnt _ lv hcnt]
      show _ = (cnt, i + (stringifyArr (x :: y :: ys)).length, lv)
      simp only [stringifyArr, Prod.mk.injEq, List.length_cons, List.length_append,
        true_and, and_true]
      omega

theorem scan_json : ∀ j : Json, jsonPlain j = true →
    ∀ (cnt : Int) (i lv : Nat), 1 ≤ cnt →
    (stringifyJson j).foldl scanStep (cnt, i, lv) = (cnt, i + (stringifyJson j).length, lv) := by
  intro j
  induction j using Json.myInduction with
  | hnull =>
    intro _ cnt i lv _
    exact scan_neutral _ (by decide) cnt i lv
  | hbool b =>
    intro _ cnt i lv _
    cases b
    · exact scan_neutral _ (by decide) cnt i lv
    · exact scan_neutral _ (by decide) cnt i lv
  | hnum n => intro hp; exact absurd hp (by simp [jsonPlain])
  | hstr s =>
    intro hp cnt i lv _
    have hps : ∀ c ∈ s.toList, plainChar c = true := by
      rw [jsonPlain] at hp
      exact fun c hc => List.all_eq_true.1 hp c hc
    refine scan_neutral _ ?_ cnt i lv
    intro c hc
    show c ≠ '\x7b' ∧ c ≠ '\x7d'
    rcases List.mem_cons.1 hc with rfl | hc2
    · exact ⟨by decide, by decide⟩
    · rcases List.mem_append.1 hc2 with hc3 | hc4
      · exact escapeChars_no_brace s.toList hps c hc3
      · rcases List.mem_singleton.1 hc4 with rfl
        exact ⟨by decide, by decide⟩
  | harr xs ihx =>
    intro hp cnt i lv hcnt
    have hpl : jsonPlainArr xs = true := hp
    show ('[' :: stringifyArr xs ++ [']']).foldl scanStep (cnt, i, lv) = _
    simp only [List.cons_append]
    rw [List.foldl_cons, scanStep_neutral_char _ (by decide) (by decide),
      List.foldl_append,
      scan_elems xs (fun j hj => ihx j hj (jsonPlainArr_mem hpl j hj)) cnt _ lv hcnt,
      List.foldl_cons, scanStep_neutral_char _ (by decide) (by decide)]
    show _ = (cnt, i + ('[' :: (stringifyArr xs ++ [']'])).length, lv)
    simp only [List.foldl_nil, Prod.mk.injEq, List.length_cons, List.length_append,
      List.length_singleton, List.length_nil, true_and, and_true]
    omega
  | hobj fs ihf =>
    intro hp cnt i lv hcnt
    rw [jsonPlain, Bool.and_eq_true] at hp
    show ('\x7b' :: stringifyObj fs ++ ['\x7d']).foldl scanStep (cnt, i, lv) = _
    simp only [List.cons_append]
    rw [List.foldl_cons]
    have hopen : scanStep (cnt, i, lv) '\x7b' = (cnt + 1, i + 1, lv) := rfl
    have hmem : ∀ kv ∈ fs, (∀ c ∈ kv.1.toList, plainChar c = true) ∧
        (∀ (cnt : Int) (i lv : Nat), 1 ≤ cnt →
          (stringifyJson kv.2).foldl scanStep (cnt, i, lv)
            = (cnt, i + (stringifyJson kv.2).length, lv)) := by
      intro kv hkv
      have h2 := jsonPlainObj_mem hp.2 kv hkv
      exact ⟨fun c hc => List.all_eq_true.1 h2.1 c hc,
        fun cnt i lv hcnt => ihf kv hkv h2.2 cnt i lv hcnt⟩
    rw [hopen, List.foldl_append, scan_members fs hmem (cnt + 1) _ lv (by omega)]
    rw [List.foldl_cons]
    have hclose : scanStep (cnt + 1, i + 1 + (stringifyObj fs).length, lv) '\x7d'
        = (cnt, i + 1 + (stringifyObj fs).length + 1, lv) := by
      unfold scanStep
      rw [if_neg (by decide), if_pos rfl, if_neg (by omega : ¬(cnt + 1 - 1 = 0))]
      have harith : cnt + 1 - 1 = cnt := by omega
      rw [harith]
    rw [hclose]
    show _ = (cnt, i + ('\x7b' :: (stringifyObj fs ++ ['\x7d'])).length, lv)
    simp only [List.foldl_nil, Prod.mk.injEq, List.length_cons, List.length_append,
      List.length_singleton, List.length_nil, true_and, and_true]
    omega

/-- The brace scan of a stringified plain object document finishes exactly
at the end of the text: the last position where the count returns to zero
is the text length. -/
theorem braceScan_stringify_obj (fs : List (String × Json))
    (hp : jsonPlain (Json.obj fs) = true) :
    braceScan (stringifyJson (Json.obj fs)) = (stringifyJson (Json.obj fs)).length := by
  rw [jsonPlain, Bool.and_eq_true] at hp
  unfold braceScan
  show (('\x7b' :: stringifyObj fs ++ ['\x7d']).foldl scanStep (0, 0, 0)).2.2
      = ('\x7b' :: stringifyObj fs ++ ['\x7d']).length
  simp only [List.cons_append]
  rw [List.foldl_cons]
  have hopen : scanStep ((0 : Int), (0 : Nat), (0 : Nat)) '\x7b' = (1, 1, 0) := rfl
  have hmem : ∀ kv ∈ fs, (∀ c ∈ kv.1.toList, plainChar c = true) ∧
      (∀ (cnt : Int) (i lv : Nat), 1 ≤ cnt →
        (stringifyJson kv.2).foldl scanStep (cnt, i, lv)
          = (cnt, i + (stringifyJson kv.2).length, lv)) := by
    intro kv hkv
    have h2 := jsonPlainObj_mem hp.2 kv hkv
    exact ⟨fun c hc => List.all_eq_true.1 h2.1 c hc,
      fun cnt i lv hcnt => scan_json kv.2 h2.2 cnt i lv hcnt⟩
  rw [hopen, List.foldl_append, scan_members fs hmem 1 1 0 (by omega)]
  rw [List.foldl_cons]
  have hclose : scanStep ((1 : Int), 1 + (stringifyObj fs).length, (0 : Nat)) '\x7d'
      = (0, 1 + (stringifyObj fs).length + 1, 1 + (stringifyObj fs).length + 1) := by
    unfold scanStep
    rw [if_neg (by decide), if_pos rfl, if_pos (by omega : (1 : Int) - 1 = 0)]
    norm_num
  rw [hclose]
  rw [List.foldl_nil]
  show 1 + (stringifyObj fs).length + 1 = _
  simp only [List.length_cons, List.length_append, List.length_singleton, List.length_nil]
  omega

theorem trimChars_of_ends (c1 c2 : Char) (mid : List Char)
    (h1 : jsWs c1 = false) (h2 : jsWs c2 = false) :
    trimChars (c1 :: mid ++ [c2]) = c1 :: mid ++ [c2] := by
  unfold trimChars
  have hd1 : List.dropWhile jsWs (c1 :: (mid ++ [c2])) = c1 :: (mid ++ [c2]) := by
    simp [List.dropWhile_cons, h1]
  rw [List.cons_append, hd1]
  have hrev : (c1 :: (mid ++ [c2])).reverse = c2 :: (mid.reverse ++ [c1]) := by
    simp
  rw [hrev]
  have hd2 : List.dropWhile jsWs (c2 :: (mid.reverse ++ [c1])) = c2 :: (mid.reverse ++ [c1]) := by
    simp [List.dropWhile_cons, h2]
  rw [hd2]
  simp

theorem indexOf_braceQuote (l : List Char) :
    indexOfChars ('\x7b' :: '"' :: l) ['\x7b', '"'] = some 0 := by
  unfold indexOfChars matchPosAux
  rw [if_pos (by simp [List.isPrefixOf])]
  rfl

theorem listMin?_zero (l : List Nat) : listMin? (0 :: l) = some 0 := by
  unfold listMin?
  rw [List.foldr_cons]
  cases h : l.foldr (fun n acc => match acc with | none => some n | some m => some (min n m)) none with
  | none => rfl
  | some m => simp [Nat.zero_min]

theorem boundaryRecover_stringify (k : String) (v : Json) (fs : List (String × Json))
    (hp : jsonPlain (Json.obj ((k, v) :: fs)) = true) :
    boundaryRecover (stringifyJson (Json.obj ((k, v) :: fs)))
      = stringifyJson (Json.obj ((k, v) :: fs)) := by
  obtain ⟨u, hu⟩ := stringifyObj_head k v fs
  have hshape : stringifyJson (Json.obj ((k, v) :: fs))
      = '\x7b' :: '"' :: (u ++ ['\x7d']) := by
    show '\x7b' :: stringifyObj ((k, v) :: fs) ++ ['\x7d'] = _
    rw [hu]
    simp
  unfold boundaryRecover
  simp only []
  have htrim : trimChars (stringifyJson (Json.obj ((k, v) :: fs)))
      = stringifyJson (Json.obj ((k, v) :: fs)) := by
    rw [hshape]
    exact trimChars_of_ends '\x7b' '\x7d' ('"' :: u) (by decide) (by decide)
  rw [htrim]
  have hopts : jsonStartOptions (stringifyJson (Json.obj ((k, v) :: fs)))
      = 0 :: ([indexOfChars (stringifyJson (Json.obj ((k, v) :: fs))) ['\x7b', '\n', '"'],
          indexOfChars (stringifyJson (Json.obj ((k, v) :: fs))) ['\x7b', ' ', '"'],
          lastIndexOfChars (stringifyJson (Json.obj ((k, v) :: fs))) ['\x7b', '"']].filterMap id) := by
    unfold jsonStartOptions
    rw [show indexOfChars (stringifyJson (Json.obj ((k, v) :: fs))) ['\x7b', '"'] = some 0 from by
      rw [hshape]; exact indexOf_braceQuote _]
    rfl
  rw [hopts, listMin?_zero]
  simp only [gt_iff_lt, lt_self_iff_false, if_false]
  rw [braceScan_stringify_obj _ hp]
  rw [if_neg (fun hcon => lt_irrefl _ hcon.2)]

theorem stringify_obj_ne_empty (fs : List (String × Json)) : ¬(stringify (Json.obj fs) = "") := by
  intro h
  have : (stringify (Json.obj fs)).data = ("" : String).data := by rw [h]
  simp only [stringify] at this
  exact List.noConfusion this

theorem toList_stringify (j : Json) : (stringify j).toList = stringifyJson j := rfl

/-- The backup document produced by `createBackup` for a single canonical
key whose stored value is a stringified plain object document. -/
theorem createBackup_appdata (fs : List (String × Json)) (ts : String)
    (hplain : jsonPlain (Json.obj fs) = true) :
    createBackup [("app_data", stringify (Json.obj fs))] ts
      = stringify (Json.obj [("version", Json.str "1.0"), ("timestamp", Json.str ts),
          ("data", Json.obj [("app_data", Json.obj fs)])]) := by
  unfold createBackup
  simp only [List.foldl_cons, List.foldl_nil]
  rw [if_pos (stringify_obj_ne_empty fs)]
  rw [show parseJson (stringify (Json.obj fs))
      = parseJsonChars (stringifyJson (Json.obj fs)) from rfl,
    parseJsonChars_stringify _ hplain]
  rfl

theorem parsePhase_createBackup (fs : List (String × Json)) (ts : String)
    (hplain : jsonPlain (Json.obj fs) = true)
    (hts : ts.toList.all plainChar = true) :
    parsePhase (createBackup [("app_data", stringify (Json.obj fs))] ts)
      = .ok [("app_data", Json.obj fs)] := by
  have hp2 := hplain
  rw [jsonPlain, Bool.and_eq_true] at hp2
  have hBD : jsonPlain (Json.obj [("version", Json.str "1.0"), ("timestamp", Json.str ts),
      ("data", Json.obj [("app_data", Json.obj fs)])]) = true := by
    simp only [jsonPlain, jsonPlainObj, distinctKeys, List.map_cons, List.map_nil,
      Bool.and_eq_true, hts]
    repeat' apply And.intro
    all_goals first | decide | exact hts | exact hp2.1 | exact hp2.2 | trivial
  rw [createBackup_appdata fs ts hplain]
  unfold parsePhase
  rw [if_neg (stringify_obj_ne_empty _)]
  simp only []
  rw [toList_stringify]
  rw [boundaryRecover_stringify _ _ _ hBD]
  rw [parseJsonChars_stringify _ hBD]
  rfl

/-! ## Decoding inverts encoding -/

theorem mapM_encode {α β : Type} (f : α → β) (g : β → Option α) (l : List α)
    (h : ∀ x ∈ l, g (f x) = some x) : (l.map f).mapM g = some l := by
  induction l with
  | nil => rfl
  | cons x xs ih =>
    rw [List.map_cons, List.mapM_cons, h x (by simp), ih (fun y hy => h y (by simp [hy]))]
    rfl

theorem decodeStr_str (s : String) : decodeStr (Json.str s) = some s := rfl

theorem decodeLog_encode (e : LogEntry) : decodeLog (encodeLog e) = some e := by
  obtain ⟨id, ts, ac, de, su, ca, dev⟩ := e
  cases dev <;> rfl

theorem decodeUser_encode (u : User) : decodeUser (encodeUser u) = some u := by
  obtain ⟨id, name, ph, se, st, en⟩ := u
  cases st <;> cases en <;> rfl

theorem decodeDevice_encode (d : Device) : decodeDevice (encodeDevice d) = some d := by
  obtain ⟨id, name, un, pw, au, ca, ua, ty, ia, rs⟩ := d
  have hau : List.mapM.loop decodeStr (au.map Json.str) [] = some au :=
    mapM_encode _ _ au (fun x _ => rfl)
  cases ia with
  | none =>
    cases rs with
    | none =>
      simp [decodeDevice, encodeDevice, jGet, getAssoc, decodeStrList, hau, decodeOptField, decodeStr_str]
    | some r =>
      obtain ⟨acc, lat⟩ := r
      simp [decodeDevice, encodeDevice, encodeRelaySettings, decodeRelaySettings, jGet,
        getAssoc, decodeStrList, hau, decodeOptField, decodeStr_str]
  | some b =>
    cases rs with
    | none =>
      simp [decodeDevice, encodeDevice, jGet, getAssoc, decodeStrList, hau, decodeOptField, decodeStr_str]
    | some r =>
      obtain ⟨acc, lat⟩ := r
      simp [decodeDevice, encodeDevice, encodeRelaySettings, decodeRelaySettings, jGet,
        getAssoc, decodeStrList, hau, decodeOptField, decodeStr_str]

theorem decodeGlobalSettings_encode (g : GlobalSettings) :
    decodeGlobalSettings (encodeGlobalSettings g) = some g := by
  obtain ⟨adm, act, steps⟩ := g
  have hsteps : List.mapM.loop decodeStr (steps.map Json.str) [] = some steps :=
    mapM_encode _ _ steps (fun x _ => rfl)
  cases act <;>
    simp [decodeGlobalSettings, encodeGlobalSettings, jGet, getAssoc, decodeStrList, hsteps, decodeStr_str]

theorem decodeAppData_encode (a : AppData) : decodeAppData (encodeAppData a) = some a := by
  obtain ⟨devs, users, logs, gs⟩ := a
  have hdevs : List.mapM.loop decodeDevice (devs.map encodeDevice) [] = some devs :=
    mapM_encode _ _ devs (fun d _ => decodeDevice_encode d)
  have husers : List.mapM.loop decodeUser (users.map encodeUser) [] = some users :=
    mapM_encode _ _ users (fun u _ => decodeUser_encode u)
  have hlogs : List.mapM.loop (fun kv => (decodeLogBucket kv.2).map ((kv.1, ·)))
      (logs.map (fun kv => (kv.1, Json.arr (kv.2.map encodeLog)))) [] = some logs := by
    refine mapM_encode _ _ logs (fun kv _ => ?_)
    show (decodeLogBucket (Json.arr (kv.2.map encodeLog))).map ((kv.1, ·)) = some kv
    have hb : (kv.2.map encodeLog).mapM decodeLog = some kv.2 :=
      mapM_encode _ _ kv.2 (fun e _ => decodeLog_encode e)
    show ((kv.2.map encodeLog).mapM decodeLog).map ((kv.1, ·)) = some kv
    rw [hb]
    rfl
  simp [decodeAppData, encodeAppData, jGet, getAssoc, hdevs, husers, hlogs,
    decodeGlobalSettings_encode gs, decodeStr_str]

/-- C5 (amended): the backup/restore round trip holds for stores whose
encoded document is plain — every string field printable and brace-free
and all object keys distinct — restored onto a target with no prior
canonical document: the restore succeeds, writes the canonical key back
with the same document, and `initialize` then reproduces the original
store.  (Brace-freedom is forced by the boundary-recovery scan, which
counts braces inside string literals too — see the counterexample.) -/
theorem restore_roundtrip (S : AppData) (ts : String) (tgt : Storage)
    (hplain : jsonPlain (encodeAppData S) = true)
    (hts : ts.toList.all plainChar = true)
    (htgt : getAssoc tgt "app_data" = none) :
    ∃ st', restoreFromBackup (createBackup [("app_data", stringify (encodeAppData S))] ts) tgt
        = (.ok true, st') ∧
      getAssoc st' "app_data" = some (stringify (encodeAppData S)) ∧
      initializeFromStorage st' = S := by
  have hE : encodeAppData S = Json.obj
      [("devices", Json.arr (S.devices.map encodeDevice)),
       ("users", Json.arr (S.users.map encodeUser)),
       ("logs", Json.obj (S.logs.map (fun kv => (kv.1, Json.arr (kv.2.map encodeLog))))),
       ("globalSettings", encodeGlobalSettings S.globalSettings)] := rfl
  have hplain2 : jsonPlain (Json.obj
      [("devices", Json.arr (S.devices.map encodeDevice)),
       ("users", Json.arr (S.users.map encodeUser)),
       ("logs", Json.obj (S.logs.map (fun kv => (kv.1, Json.arr (kv.2.map encodeLog))))),
       ("globalSettings", encodeGlobalSettings S.globalSettings)]) = true := hE ▸ hplain
  have hparse := parsePhase_createBackup _ ts hplain2 hts
  rw [← hE] at hparse
  have hEX : (match getAssoc tgt "app_data" with
      | some v => if v = "" then none else parseJson v
      | none => none) = (none : Option Json) := by
    rw [htgt]
  have hms : mergeStep [("app_data", encodeAppData S)] none
      = [("app_data", encodeAppData S)] := rfl
  have hws : ∀ (W : Storage), writeStep (W, 0) ("app_data", encodeAppData S)
      = (setAssoc W "app_data" (stringify (encodeAppData S)), 1) := fun W => rfl
  have hcf : cacheLogEntries [("app_data", encodeAppData S)]
      = [("app_logs", CachedLog.appLogs)] := rfl
  have hcs : ∀ (W : Storage), cachedStep [("app_data", encodeAppData S)] (W, 1)
        ("app_logs", CachedLog.appLogs)
      = (setAssoc W "app_logs" (stringify (Json.obj
          (S.logs.map (fun kv => (kv.1, Json.arr (kv.2.map encodeLog)))))), 2) := fun W => rfl
  have hwfold : ∀ (W : Storage), List.foldl writeStep (W, 0) [("app_data", encodeAppData S)]
      = (setAssoc W "app_data" (stringify (encodeAppData S)), 1) := fun W => by
    rw [List.foldl_cons, List.foldl_nil, hws W]
  have hcfold : ∀ (W : Storage), List.foldl (cachedStep [("app_data", encodeAppData S)])
        (W, 1) [("app_logs", CachedLog.appLogs)]
      = (setAssoc W "app_logs" (stringify (Json.obj
          (S.logs.map (fun kv => (kv.1, Json.arr (kv.2.map encodeLog)))))), 2) := fun W => by
    rw [List.foldl_cons, List.foldl_nil, hcs W]
  have hne : ¬(stringify (encodeAppData S) = "") := by
    rw [hE]
    exact stringify_obj_ne_empty _
  unfold restoreFromBackup
  rw [hparse]
  unfold applyPhase
  simp only []
  rw [hEX, hms, hcf]
  rw [hwfold, hcfold]
  rw [if_neg (by decide : ¬((2 : Nat) = 0))]
  have hga : getAssoc (setAssoc (setAssoc
      (tgt.filter (fun kv => kv.1 == "app_data" &&
        (optTruthy (getAssoc [("app_data", encodeAppData S)] "app_data") &&
          match (none : Option Json) with | some j => truthy j | none => false)))
      "app_data" (stringify (encodeAppData S))) "app_logs"
      (stringify (Json.obj (S.logs.map (fun kv => (kv.1, Json.arr (kv.2.map encodeLog)))))))
      "app_data" = some (stringify (encodeAppData S)) := by
    rw [getAssoc_setAssoc_ne _ _ _ _ (by decide), getAssoc_setAssoc_self]
  refine ⟨_, rfl, hga, ?_⟩
  unfold initializeFromStorage
  rw [hga]
  simp only []
  rw [if_neg hne]
  rw [show parseJson (stringify (encodeAppData S))
      = parseJsonChars (stringifyJson (encodeAppData S)) from rfl,
    parseJsonChars_stringify _ hplain]
  simp [Option.some_bind, decodeAppData_encode S]

set_option maxRecDepth 100000 in
set_option maxHeartbeats 2000000 in
/-- Witness for the amended C5 at the concrete store `storeS` (plain,
brace-free fields) restored onto an empty target. -/
theorem restore_roundtrip_witness :
    jsonPlain (encodeAppData storeS) = true ∧
    ("ts" : String).toList.all plainChar = true ∧
    getAssoc ([] : Storage) "app_data" = none ∧
    (∃ st', restoreFromBackup
          (createBackup [("app_data", stringify (encodeAppData storeS))] "ts") []
        = (.ok true, st') ∧
      getAssoc st' "app_data" = some (stringify (encodeAppData storeS)) ∧
      initializeFromStorage st' = storeS) :=
  ⟨by decide, by decide, rfl, restore_roundtrip storeS "ts" [] (by decide) (by decide) rfl⟩

set_option maxRecDepth 100000 in
set_option maxHeartbeats 2000000 in
/-- C5 counterexample to the claim as written ("for every store state"): a
device name containing `\x7d` defeats the brace-balancing boundary
recovery (the scan counts braces inside string literals), the strict and
comma-repair parses of the truncated text fail, and the key-value
extraction tier rebuilds only an unrelated flat mapping: the restore
reports success but the canonical key is gone and `initialize` yields the
empty initial store, not the original one. -/
theorem restore_roundtrip_brace_cex :
    getAssoc ([] : Storage) "app_data" = none ∧
    (restoreFromBackup (createBackup [("app_data",
        jsonToStorageString (encodeAppData storeBrace))] "ts") []).1 = .ok true ∧
    getAssoc (restoreFromBackup (createBackup [("app_data",
        jsonToStorageString (encodeAppData storeBrace))] "ts") []).2 "app_data" = none ∧
    initializeFromStorage (restoreFromBackup (createBackup [("app_data",
        jsonToStorageString (encodeAppData storeBrace))] "ts") []).2 = initialState ∧
    ¬(initialState = storeBrace) :=
  ⟨rfl, rfl, rfl, rfl, by decide⟩
